import Mathlib

/-!
Event Viewer: the data-join, filter and aggregation core of `map.js`

A shallow embedding of `src/map.js` and `src/public/utilities.js`.

Conventions of the embedding.

* A JavaScript object used as a dictionary (`Location.locations`, `Event.locations`,
  `Person.people`, `event.countries`, `location.countryLines`, ...) is an association list
  in insertion order with distinct keys: the properties of the object itself.  Every such
  object also inherits the members of `Object.prototype` (`isInheritedName`).  Where the
  attendance join reads a dictionary with a key taken from the sheets (`Person.people[uid]`,
  `this.countries[origin]`) and finds an inherited member, the embedding follows the code,
  which throws a `TypeError`.  A state of the embedding stands for a state of the program in
  which `Object.prototype` is unchanged and is the prototype of every dictionary; outside the
  model are an assignment under the key `__proto__`, which would replace the prototype of
  the dictionary instead of adding an entry, an Events row (or an Organiser name) that names
  an inherited member without being a key of the dictionary, which the code takes for the
  entity (the embedding finds nothing), and the order in which `for ... in` lists keys
  written like array indexes (the host lists them first, in ascending order).
* A value that may be `undefined` is an `Option`; `none` is `undefined`.
* A `Location` object is named by its key in `Location.locations`; this is exact for the boot
  order of `map.js`, where the Locations sheet is replayed before every other data sheet.
  An `Event` object holds the key of its Location, so a lookup of that key always succeeds in
  the source; where the embedding must still say what happens when it fails, the step is
  skipped or ends with a `TypeError`.
* An `Event` object in `Event.events` is named by its position; `oid` keeps the rank of
  registration, so that a reference to the object survives the sort of `Event.initialise`.
* Integers are `Int`/`Nat` and are exact; a number that is not finite (`NaN`, `Infinity`)
  is `none`; any other number is a rational.  The product `ratio * 6` of `getColor`, the one
  operation of the core whose exact result need not be a number of the host, is rounded to
  a double as the host rounds it (`jsDouble`).
* An uncaught exception leaves the global state as it was when thrown, so the top-level
  entry points return an `Outcome`: the state reached and the exception, if any.
* The DOM, the Leaflet map widget and the host's `Date.parse` and `RegExp` are external;
  the latter two are parameters (`Host`).  What the language standard says of `RegExp` on the
  pattern sources that the name filter builds is the hypothesis `Host.Standard`.
* A string is a list of characters; the host holds it as a sequence of UTF-16 code units
  (`jsCodeUnits`: two for a character outside the Basic Multilingual Plane), and the pattern
  language of `RegExp` reads and matches code units.  A string with an unpaired surrogate is
  outside the model.
* The text of a drop-down pattern (`this.pattern.value`) is a string handed to the `DropDown`
  methods and returned by them.
* The handlers of the page (`MapAction`) run one after the other, each on the state the
  previous one left, whether or not it threw.
-/

set_option autoImplicit false

namespace EventViewer

/-! ## `utilities.js` -/

/-- The function `isBlank( x )`: `x === '' || x === undefined`. -/
def isBlank (x : Option String) : Bool :=
  x == some "" || x == none

/-- The function `clampRange( x, min, max )`. -/
def clampRange (x lo hi : ℚ) : ℚ :=
  min (max x lo) hi

/-- The loop of `joinText( arr )` from index `j` on; `arr` already carries the pushed `'x'`.
`arr[j]` is not blank here; `arr[j+1]` is appended unless `arr[j+2]` is blank. -/
def joinTextFrom : List (Option String) → String
  | [] => ""
  | [_] => ""
  | a :: sep :: rest =>
    (if !isBlank a then
      a.getD "" ++ (if isBlank (rest.head?.bind id) then "" else sep.getD "undefined")
    else "") ++ joinTextFrom rest

/-- The function `joinText( arr )`: `arr.push( 'x' )`, then the loop over the even indexes
`j < arr.length - 1`. -/
def joinText (arr : List (Option String)) : String :=
  joinTextFrom (arr ++ [some "x"])

/-! ## Numbers and strings of the host language -/

/-- The remainder operator `%` on integers: the result has the sign of the dividend. -/
def jsRem (a b : Int) : Int :=
  Int.tmod a b

/-- `Number.prototype.toString(16)` on an integer. -/
def toString16 (n : Int) : List Char :=
  if n < 0 then '-' :: Nat.toDigits 16 n.natAbs else Nat.toDigits 16 n.natAbs

/-- `String.prototype.substr(-k)`: the last `k` characters (the whole string when shorter). -/
def substrLast (k : Nat) (s : List Char) : List Char :=
  s.drop (s.length - k)

/-- The integer nearest to `x`; when `x` lies half-way between two integers, the even
one. -/
def roundHalfEven (x : ℚ) : Int :=
  let f := ⌊x⌋
  if x - f < 1 / 2 then f
  else if 1 / 2 < x - f then f + 1
  else if f % 2 = 0 then f else f + 1

/-- The number of binary digits of `n` (none for `0`), counted by halving `n` at most `fuel`
times. -/
def binaryDigitsLoop : Nat → Nat → Nat
  | 0, _ => 0
  | fuel + 1, n => if n = 0 then 0 else binaryDigitsLoop fuel (n / 2) + 1

/-- The number of binary digits of `n`: `2 ^ (binaryDigits n - 1) ≤ n < 2 ^ binaryDigits n`
for `n > 0`. -/
def binaryDigits (n : Nat) : Nat :=
  binaryDigitsLoop n n

/-- The binary exponent `e` of a positive number `x`: `2 ^ e ≤ x < 2 ^ (e + 1)`.  The
difference `k` of the numbers of digits of numerator and denominator is `e` or `e + 1`. -/
def binaryExponent (x : ℚ) : Int :=
  let k : Int := (binaryDigits x.num.natAbs : Int) - (binaryDigits x.den : Int)
  if (2 : ℚ) ^ k ≤ x then k else k - 1

/-- The number of the host (a double: 53 significant binary digits) nearest to `x`, the one
with an even last digit when two are equally near; this is how the host rounds the exact
result of an arithmetic operation.  The range of the exponent of a double is not modelled:
the result is that of the host for `x = 0`, for every `x` with
`2 ^ (-1022) ≤ |x| ≤ 2 ^ 1023`, and for every multiple `x` of `2 ^ (-1074)` below that
range. -/
def jsDouble (x : ℚ) : ℚ :=
  if x = 0 then 0
  else
    let ulp : ℚ := 2 ^ (binaryExponent |x| - 52)
    roundHalfEven (x / ulp) * ulp

/-! ## `Location.prototype.getColor` -/

/-- The table of channel roles in `getColor`; `-1` falls with the shade, `1` rises with it. -/
def Location.colorTable : List (List Int) :=
  [ [255,   0,  -1],
    [255,   1,   0],
    [ -1, 255,   0],
    [  0, 255,   1],
    [  0,  -1, 255],
    [  1,   0, 255] ]

/-- The `for (var j = 0; j < 3; ++j)` loop of `getColor` on one entry of the row. -/
def Location.shadeChannel (shade : Int) (c : Int) : Int :=
  if c = -1 then 255 - shade else if c = 1 then shade else c

/-- The number whose hexadecimal form is the colour:
`(range[0] * 256 + range[1]) * 256 + range[2]`; a missing entry cannot occur for the rows
of the table and is read as `0`. -/
def Location.colorNumber (range : List Int) : Int :=
  (range.getD 0 0 * 256 + range.getD 1 0) * 256 + range.getD 2 0

/-- The body of `getColor` after `scale` has been computed; `Math.floor(scale / 256)` of
the integer `scale` is the floor division.  The result is `none` when the
code throws a `TypeError`: the table lookup `[...][section]` gave `undefined` and `range[j]`
was read from it. -/
def Location.getColorOfScale (scale : Int) : Option String :=
  let sect : Int := jsRem (Int.fdiv scale 256) 6
  let shade : Int := jsRem scale 256
  if sect < 0 then none
  else
    match Location.colorTable.get? sect.toNat with
    | none => none
    | some row =>
      let range := row.map (Location.shadeChannel shade)
      some (String.mk
        ('#' :: substrLast 6 ("000000".toList ++ toString16 (Location.colorNumber range))))

/-- The method `Location.prototype.getColor(ratio)`.  The argument is `none` when it is not a
finite number (`NaN`, `Infinity`): then `scale` and `section` are not finite either, the table
lookup gives `undefined` and the code throws a `TypeError` (`none`).  A finite argument is
the double nearest to `q` (`q` itself when it is a double, the rounded quotient when `setup`
passes `(rank - 1) / (total - 1)`); its product by 6 is rounded to a double; the product of
that by 256, a power of two, is exact, and so is `Math.floor`. -/
def Location.getColor (r : Option ℚ) : Option String :=
  match r with
  | none => none
  | some q => Location.getColorOfScale ⌊jsDouble (jsDouble q * 6) * 256⌋

/-- The quotient `a / b` of two integers: not finite when `b` is `0` (`0 / 0` is `NaN`,
otherwise an infinity), else the exact quotient, which stands for the double nearest to it
(`Location.getColor` reads it so). -/
def jsDivide (a b : Int) : Option ℚ :=
  if b = 0 then none else some ((a : ℚ) / (b : ℚ))

/-! ## Dictionaries, strings and fields -/

/-- A JavaScript object used as a dictionary, keys in insertion order. -/
abbrev Dict (β : Type) := List (String × β)

/-- The own property `key` of `obj`; `none` when `obj` has no entry of its own under
`key`. -/
def Dict.get {β : Type} : Dict β → String → Option β
  | [], _ => none
  | (k, v) :: rest, key => if k = key then some v else Dict.get rest key

/-- The property write `obj[key] = v`: an existing key keeps its place, a new one goes last. -/
def Dict.set {β : Type} : Dict β → String → β → Dict β
  | [], key, v => [(key, v)]
  | (k, w) :: rest, key, v =>
    if k = key then (k, v) :: rest else (k, w) :: Dict.set rest key v

/-- The names of the members that every object inherits from `Object.prototype`: a read
`obj[key]` with one of these keys finds the inherited member when the dictionary `obj` has
no entry of its own under the key. -/
def isInheritedName (key : String) : Bool :=
  ["constructor", "hasOwnProperty", "isPrototypeOf", "propertyIsEnumerable", "toLocaleString",
    "toString", "valueOf", "__defineGetter__", "__defineSetter__", "__lookupGetter__",
    "__lookupSetter__", "__proto__"].contains key

/-- The keys that `for (var key in obj)` enumerates. -/
def Dict.keys {β : Type} (obj : Dict β) : List String :=
  obj.map Prod.fst

/-- A value placed in a template literal or used as a property key: `undefined` reads
`"undefined"`. -/
def jsString (x : Option String) : String :=
  x.getD "undefined"

/-- `String.prototype.includes`: `needle` occurs in `hay` as a contiguous substring. -/
def jsIncludes (hay needle : String) : Bool :=
  hay.data.tails.any (fun t => needle.data.isPrefixOf t)

/-- The UTF-16 code units of a character, which is how the host holds it: one unit for a
character of the Basic Multilingual Plane, a surrogate pair for any other character. -/
def jsCodeUnits (c : Char) : List Nat :=
  if c.toNat < 0x10000 then [c.toNat]
  else [0xD800 + (c.toNat - 0x10000) / 0x400, 0xDC00 + (c.toNat - 0x10000) % 0x400]

/-- The code units of a string. -/
def jsUnits (s : String) : List Nat :=
  s.data.flatMap jsCodeUnits

/-- White space and line terminators, the characters `String.prototype.trim` strips. -/
def jsIsWhiteSpace (c : Char) : Bool :=
  c.val = 0x09 || c.val = 0x0A || c.val = 0x0B || c.val = 0x0C || c.val = 0x0D ||
  c.val = 0x20 || c.val = 0xA0 || c.val = 0x1680 ||
  (0x2000 ≤ c.val && c.val ≤ 0x200A) ||
  c.val = 0x2028 || c.val = 0x2029 || c.val = 0x202F || c.val = 0x205F ||
  c.val = 0x3000 || c.val = 0xFEFF

/-- `String.prototype.trim`. -/
def jsTrim (s : String) : String :=
  String.mk ((s.data.dropWhile jsIsWhiteSpace).reverse.dropWhile jsIsWhiteSpace).reverse

/-- `value.startsWith( '!' )`. -/
def startsWithBang (s : String) : Bool :=
  s.data.head? == some '!'

/-- One row of a sheet: its cells. -/
abbrev Row := List String

/-- The properties `copyFields` writes on an entity: field name to normalised value. -/
abbrev Fields := Dict String

/-- The map `fieldIndexes` of a sheet class: field name to column index. -/
abbrev FieldIndexes := Dict Nat

/-- The value `copyFields` stores for one cell: `undefined` becomes `''`, a value starting
with `!` becomes `''`, any other value is trimmed. -/
def Param.normalise (cell : Option String) : String :=
  let value := match cell with
    | none => ""
    | some v => v
  if startsWithBang value then "" else jsTrim value

/-- The method `copyFields( row )`: one property per entry of `fieldIndexes`. -/
def Param.copyFields (fieldIndexes : FieldIndexes) (row : Row) : Fields :=
  fieldIndexes.map (fun entry => (entry.1, Param.normalise (row.get? entry.2)))

/-! ## The data model -/

/-- A derived start time: `-Infinity` for a start date that did not parse, else the
milliseconds `Date.parse` returned. -/
inductive StartTime where
  | negInfinity : StartTime
  | ms (t : Int) : StartTime
  deriving DecidableEq, Repr

/-- The order of numbers on start times. -/
def StartTime.le : StartTime → StartTime → Bool
  | .negInfinity, _ => true
  | .ms _, .negInfinity => false
  | .ms a, .ms b => decide (a ≤ b)

/-- An entry of `location.countryLines`.  `addDelegate` stores the placeholder `{origin}`
(`isCountryLine = false`, no count); `Location.prototype.setup` replaces it by a
`new CountryLine(place, location)`.  `delegateCount` is `none` when the property is
`undefined` or `NaN`; `line` tells whether `this.line` was created; `weight` is the weight
last given to the line by `showLine`. -/
structure CountryLine where
  place : String
  location : String
  isCountryLine : Bool
  delegateCount : Option Nat
  line : Bool
  weight : ℚ
  deriving DecidableEq, Repr

/-- A `Location` object. `hasEvent` is `none` while `undefined`. -/
structure Location where
  fields : Fields
  latLng : Option (Option String × Option String)
  countryLines : Dict CountryLine
  hasEvent : Option Nat
  color : String
  deriving DecidableEq, Repr

/-- A `Country` object: the delegates of one origin at one event. -/
structure Country where
  name : String
  eventID : Option String
  delegates : List String
  deriving DecidableEq, Repr

/-- An `Event` object registered in `Event.events`.  `location` is the key of its Location
object; `organiser` holds the fields of its Organiser object; `shownOnMap` is `false` while
`undefined`; `oid` names the object (its rank of registration), so that references to it
survive the sort. -/
structure Event where
  oid : Nat
  fields : Fields
  countries : Dict Country
  filtered : Bool
  startTime : StartTime
  location : String
  organiser : Option Fields
  shownOnMap : Bool
  cellIndex : Option Nat
  deriving DecidableEq, Repr

/-- A `PeopleAtEvents` object kept in a person's attendance list; `event` is the `oid` of
the Event object it refers to. -/
structure PeopleAtEvents where
  fields : Fields
  event : Nat
  deriving DecidableEq, Repr

/-- A `Person` object. -/
structure Person where
  fields : Fields
  name : String
  peopleAtEvents : List PeopleAtEvents
  deriving DecidableEq, Repr

/-- The options of `Const` that the core reads. -/
structure Const where
  acronyms : Bool
  lineMinWidth : ℚ
  lineMaxWidth : ℚ
  deriving DecidableEq, Repr

/-- The defaults of `Const`. -/
def Const.default : Const :=
  { acronyms := false, lineMinWidth := 2, lineMaxWidth := 17 }

/-- The global state: the class-level collections and the message buffer.
`eventLocations` are the keys of `Event.locations` (whose values are the Location objects
of the same key), `origins` the keys of `CountryLine.origins`, `alerts` the texts passed to
`alert` by the `CountryLine` constructor. -/
structure State where
  const : Const
  messageText : String
  locations : Dict Location
  organisers : Dict Fields
  events : List Event
  eventLocations : List String
  locationsCount : Nat
  people : Dict Person
  origins : List String
  alerts : List String
  locationExtraFields : List String
  organiserExtraFields : List String
  eventExtraFields : List String
  personExtraFields : List String
  peopleAtEventsExtraFields : List String
  deriving DecidableEq, Repr

/-- The state when the script has been read and no sheet loaded. -/
def State.initial : State :=
  { const := Const.default, messageText := "", locations := [], organisers := [], events := [],
    eventLocations := [], locationsCount := 0, people := [], origins := [], alerts := [],
    locationExtraFields := [], organiserExtraFields := [], eventExtraFields := [],
    personExtraFields := [], peopleAtEventsExtraFields := [] }

/-- The result of running an entry point: the state reached, and the uncaught exception
that ended the run, if one was thrown. -/
structure Outcome where
  state : State
  thrown : Option String
  deriving DecidableEq, Repr

/-- What the host provides: `Date.parse` (`none` is `NaN`), and `new RegExp(source)` with
the `test` method of the result (`none` when the constructor throws a `SyntaxError`). -/
structure Host where
  dateParse : String → Option Int
  regExp : String → Option (String → Bool)

/-- The function `Load.message( msg )`. -/
def Load.message (msg : String) (s : State) : State :=
  { s with messageText := joinText [some s.messageText, some "\n", some msg] }

/-- Sequencing of two steps: the second runs only when the first threw nothing. -/
def Outcome.andThen (o : Outcome) (f : State → Outcome) : Outcome :=
  match o.thrown with
  | none => f o.state
  | some _ => o

/-- A loop (`forEach`, `for ... in`, `for`) whose body may throw: it stops at the first
exception. -/
def forEachOutcome {α : Type} (body : α → State → Outcome) : List α → State → Outcome
  | [], s => { state := s, thrown := none }
  | a :: rest, s => (body a s).andThen (forEachOutcome body rest)

/-! ## `Param.load`: the field extractor -/

/-- A sheet class as `Param.load` sees it through `this`: its static fields, its
`prototype.extraFields` array in the global state, and its constructor `new this( row )`,
which reads `prototype.fieldIndexes`. -/
structure SheetClass where
  sheetName : String
  requiredFields : List String
  optionalFields : List String
  extraFields : State → List String
  setExtraFields : List String → State → State
  construct : FieldIndexes → Row → State → Outcome

/-- The local variables of `Param.load` that the scan of the header row updates. -/
structure HeaderScan where
  requiredCount : Nat
  fieldIndexes : FieldIndexes
  extraFields : List String
  deriving DecidableEq, Repr

/-- The test `initial >= 'A' && initial <= '['` on `fieldName[0]`; it fails for the empty
string, whose first character is `undefined`. -/
def Param.isFieldName (fieldName : String) : Bool :=
  match fieldName.data with
  | [] => false
  | initial :: _ => decide ('A' ≤ initial) && decide (initial ≤ '[')

/-- `fieldName.replace( /[^A-Za-z]/g, '' )`. -/
def Param.lettersOnly (fieldName : String) : String :=
  String.mk (fieldName.data.filter
    (fun c => (decide ('A' ≤ c) && decide (c ≤ 'Z')) || (decide ('a' ≤ c) && decide (c ≤ 'z'))))

/-- The body of `header.forEach( function( fieldName, fieldIndex ) ... )`. -/
def Param.headerStep (requiredFields optionalFields : List String) (acc : HeaderScan)
    (fieldName : String) (fieldIndex : Nat) : HeaderScan :=
  if Param.isFieldName fieldName then
    if requiredFields.contains fieldName then
      { requiredCount := acc.requiredCount + 1,
        fieldIndexes := acc.fieldIndexes.set (Param.lettersOnly fieldName) fieldIndex,
        extraFields := acc.extraFields }
    else if !optionalFields.contains fieldName then
      { requiredCount := acc.requiredCount,
        fieldIndexes := acc.fieldIndexes.set fieldName fieldIndex,
        extraFields := acc.extraFields ++ [fieldName] }
    else
      { requiredCount := acc.requiredCount,
        fieldIndexes := acc.fieldIndexes.set fieldName fieldIndex,
        extraFields := acc.extraFields }
  else acc

/-- The loop `header.forEach` from column `fieldIndex` on. -/
def Param.scanHeaderFrom (requiredFields optionalFields : List String) :
    Nat → Row → HeaderScan → HeaderScan
  | _, [], acc => acc
  | fieldIndex, fieldName :: rest, acc =>
    Param.scanHeaderFrom requiredFields optionalFields (fieldIndex + 1) rest
      (Param.headerStep requiredFields optionalFields acc fieldName fieldIndex)

/-- The scan of the whole header row, from `requiredCount = 0`, `fieldIndexes = {}` and
`extraFields = []`. -/
def Param.scanHeader (requiredFields optionalFields : List String) (header : Row) :
    HeaderScan :=
  Param.scanHeaderFrom requiredFields optionalFields 0 header
    { requiredCount := 0, fieldIndexes := [], extraFields := [] }

/-- The loop `extraFields.forEach( ... )` that pushes on `prototype.extraFields` the names
it does not hold yet. -/
def Param.mergeExtraFields (known found : List String) : List String :=
  found.foldl (fun acc fieldName => if acc.contains fieldName then acc else acc ++ [fieldName])
    known

/-- `JSON.stringify` of one field name (names hold no control characters). -/
def jsonQuote (x : String) : String :=
  "\"" ++ String.mk (x.data.flatMap (fun c =>
    if c = '"' then ['\\', '"'] else if c = '\\' then ['\\', '\\'] else [c])) ++ "\""

/-- `JSON.stringify` of an array of strings. -/
def jsonStringify (xs : List String) : String :=
  "[" ++ ",".intercalate (xs.map jsonQuote) ++ "]"

/-- The function `Param.load( json )`, shared by every sheet class (`this` is `cls`).
`sheet` is `none` when neither `json.values` nor `json` is an array: the function returns
at once.  An empty `sheet` has no header row: `header.forEach` throws. -/
def Param.load (cls : SheetClass) (sheet : Option (List Row)) (s : State) : Outcome :=
  match sheet with
  | none => { state := s, thrown := none }
  | some [] => { state := s, thrown := some "TypeError" }
  | some (header :: rows) =>
    let scan := Param.scanHeader cls.requiredFields cls.optionalFields header
    let s1 := cls.setExtraFields (Param.mergeExtraFields (cls.extraFields s) scan.extraFields) s
    if scan.requiredCount = cls.requiredFields.length then
      forEachOutcome (cls.construct scan.fieldIndexes) rows s1
    else
      { state := Load.message
          (cls.sheetName ++ " sheet missing fields " ++ jsonStringify cls.requiredFields) s1,
        thrown := none }

/-! ## The sheet classes -/

/-- The constructor `Location( row )`. -/
def Location.new (fieldIndexes : FieldIndexes) (row : Row) (s : State) : Outcome :=
  let fields := Param.copyFields fieldIndexes row
  if !isBlank (fields.get "Place") then
    let this : Location :=
      { fields := fields,
        latLng := some (fields.get "Lat", fields.get "Lng"),
        countryLines := [],
        hasEvent := none,
        color := "#FFFFFF" }
    { state := { s with locations := s.locations.set (jsString (fields.get "Place")) this },
      thrown := none }
  else { state := s, thrown := none }

/-- The constructor `Organiser(row)`. -/
def Organiser.new (fieldIndexes : FieldIndexes) (row : Row) (s : State) : Outcome :=
  let fields := Param.copyFields fieldIndexes row
  { state := { s with organisers := s.organisers.set (jsString (fields.get "Name")) fields },
    thrown := none }

/-- Try `([0-9]+)\/([0-9]+)\/` at the head of the string: the two groups and what follows
the match. -/
def matchDayMonth (s : List Char) : Option (List Char × List Char × List Char) :=
  let d1 := s.takeWhile Char.isDigit
  if d1 = [] then none
  else
    match s.dropWhile Char.isDigit with
    | '/' :: r1 =>
      let d2 := r1.takeWhile Char.isDigit
      if d2 = [] then none
      else
        match r1.dropWhile Char.isDigit with
        | '/' :: r2 => some (d1, d2, r2)
        | _ => none
    | _ => none

/-- `Start.replace(/([0-9]+)\/([0-9]+)\//, '$2/$1/')`: the leftmost match has its two
numbers swapped. -/
def swapDayMonth : List Char → List Char
  | [] => []
  | c :: cs =>
    match matchDayMonth (c :: cs) with
    | some (d1, d2, rest) => d2 ++ '/' :: d1 ++ '/' :: rest
    | none => c :: swapDayMonth cs

/-- `Start.replace(/[\/ -]/, '/1/')`: the first slash, blank or hyphen becomes `/1/`. -/
def looseDelimiter : List Char → List Char
  | [] => []
  | c :: cs =>
    if c = '/' ∨ c = ' ' ∨ c = '-' then '/' :: '1' :: '/' :: cs else c :: looseDelimiter cs

/-- The derived start time of the `Event` constructor for a `Start` string: the two parse
attempts, then `-Infinity`. -/
def Event.parseStart (host : Host) (start : String) : StartTime :=
  match host.dateParse (String.mk (swapDayMonth start.data)) with
  | some t => .ms t
  | none =>
    match host.dateParse (String.mk (looseDelimiter start.data)) with
    | some t => .ms t
    | none => .negInfinity

/-- The constructor `Event(row)`.  `this.Start.replace` throws when the sheet has no `Start`
column.  The lookups are those of the keys of `Location.locations` and of
`Organiser.organisers`; a name that is no key but the name of a member inherited from
`Object.prototype` is outside the model. -/
def Event.new (host : Host) (fieldIndexes : FieldIndexes) (row : Row) (s : State) : Outcome :=
  let fields := Param.copyFields fieldIndexes row
  if isBlank (fields.get "Acronym") then { state := s, thrown := none }
  else
    match fields.get "Start" with
    | none => { state := s, thrown := some "TypeError" }
    | some start =>
      let startTime := Event.parseStart host start
      let place := jsString (fields.get "Location")
      match s.locations.get place with
      | none =>
        { state := Load.message
            ("Unknown location " ++ jsString (fields.get "Location") ++ " for " ++
              jsString (fields.get "Acronym")) s,
          thrown := none }
      | some location =>
        let s1 : State :=
          if location.hasEvent = none ∨ location.hasEvent = some 0 then
            { s with
              eventLocations :=
                if s.eventLocations.contains place then s.eventLocations
                else s.eventLocations ++ [place],
              locations := s.locations.set place
                { location with countryLines := [], hasEvent := some (s.locationsCount + 1) },
              locationsCount := s.locationsCount + 1 }
          else s
        let this : Event :=
          { oid := s.events.length,
            fields := fields,
            countries := [],
            filtered := true,
            startTime := startTime,
            location := place,
            organiser := s.organisers.get (jsString (fields.get "Organiser")),
            shownOnMap := false,
            cellIndex := none }
        { state := { s1 with events := s1.events ++ [this] }, thrown := none }

/-- The constructor `Person( row )`. -/
def Person.new (fieldIndexes : FieldIndexes) (row : Row) (s : State) : Outcome :=
  let fields := Param.copyFields fieldIndexes row
  let this : Person :=
    { fields := fields,
      name := joinText [fields.get "FirstName", some " ", fields.get "LastName"],
      peopleAtEvents := [] }
  { state := { s with people := s.people.set (jsString (fields.get "UID")) this },
    thrown := none }

/-- The function `Event.findById( acronym )`: the position in `Event.events` of the first
event with `event.Acronym == acronym`. -/
def Event.findById (events : List Event) (acronym : Option String) : Option Nat :=
  match acronym with
  | none => none
  | some a =>
    let i := events.findIdx (fun event => event.fields.get "Acronym" == some a)
    if i < events.length then some i else none

/-- The placeholder `{origin}` that `addDelegate` stores in `countryLines`. -/
def CountryLine.placeholder (origin : String) : CountryLine :=
  { place := origin, location := "", isCountryLine := false, delegateCount := none,
    line := false, weight := 0 }

/-- The method `Event.prototype.addDelegate(origin, acronym, uid)` on the event at position
`index` of `Event.events`.  The read `this.countries[origin]` finds the Country of that
origin; when there is none and `origin` names a member inherited from `Object.prototype`, it
finds that member: no Country is created and `country.delegates.push` throws a `TypeError`
before anything is changed. -/
def Event.addDelegate (index : Nat) (origin acronym : Option String) (uid : String)
    (s : State) : Outcome :=
  match s.events.get? index with
  | none => { state := s, thrown := none }
  | some this =>
    if !isBlank origin then
      let key := jsString origin
      if this.countries.get key = none ∧ isInheritedName key = true then
        { state := s, thrown := some "TypeError" }
      else
        let country : Country :=
          match this.countries.get key with
          | none => { name := key, eventID := acronym, delegates := [uid] }
          | some c => { c with delegates := c.delegates ++ [uid] }
        let this1 : Event := { this with countries := this.countries.set key country }
        let locations1 :=
          match s.locations.get this.location with
          | none => s.locations
          | some location =>
            s.locations.set this.location
              { location with
                countryLines := location.countryLines.set key (CountryLine.placeholder key) }
        { state := { s with events := s.events.set index this1, locations := locations1 },
          thrown := none }
    else { state := s, thrown := none }

/-- The constructor `PeopleAtEvents(row)`.  The read `Person.people[uid]` finds the person of
that UID; when there is none and the UID names a member inherited from `Object.prototype`,
it finds that member, which passes the test `person && this.event` with a resolved event, and
`person.peopleAtEvents.push` throws a `TypeError`. -/
def PeopleAtEvents.new (fieldIndexes : FieldIndexes) (row : Row) (s : State) : Outcome :=
  let fields := Param.copyFields fieldIndexes row
  if isBlank (fields.get "UID") then { state := s, thrown := none }
  else
    let uid := jsString (fields.get "UID")
    let acronym := fields.get "Acronym"
    match s.people.get uid, Event.findById s.events acronym with
    | some person, some index =>
      let this : PeopleAtEvents :=
        { fields := fields, event := ((s.events.get? index).map Event.oid).getD 0 }
      let person1 : Person := { person with peopleAtEvents := person.peopleAtEvents ++ [this] }
      let s1 : State := { s with people := s.people.set uid person1 }
      Event.addDelegate index (person.fields.get "Origin") acronym uid s1
    | none, some _ =>
      if isInheritedName uid then { state := s, thrown := some "TypeError" }
      else
        { state := Load.message
            ("Unknown PersonAtEvents " ++ uid ++ ", " ++ jsString acronym) s,
          thrown := none }
    | _, none =>
      { state := Load.message
          ("Unknown PersonAtEvents " ++ uid ++ ", " ++ jsString acronym) s,
        thrown := none }

/-- The class `Location` as a sheet class. -/
def Location.sheet : SheetClass :=
  { sheetName := "Locations",
    requiredFields := ["Place", "Lat", "Lng"],
    optionalFields := ["Title", "Color"],
    extraFields := fun s => s.locationExtraFields,
    setExtraFields := fun xs s => { s with locationExtraFields := xs },
    construct := Location.new }

/-- The class `Organiser` as a sheet class. -/
def Organiser.sheet : SheetClass :=
  { sheetName := "Organisers",
    requiredFields := ["Name"],
    optionalFields := [],
    extraFields := fun s => s.organiserExtraFields,
    setExtraFields := fun xs s => { s with organiserExtraFields := xs },
    construct := Organiser.new }

/-- The class `Event` as a sheet class. -/
def Event.sheet (host : Host) : SheetClass :=
  { sheetName := "Events",
    requiredFields := ["Acronym"],
    optionalFields := ["Title"],
    extraFields := fun s => s.eventExtraFields,
    setExtraFields := fun xs s => { s with eventExtraFields := xs },
    construct := Event.new host }

/-- The class `Person` as a sheet class. -/
def Person.sheet : SheetClass :=
  { sheetName := "People",
    requiredFields := ["UID", "Last Name", "First Name"],
    optionalFields := [],
    extraFields := fun s => s.personExtraFields,
    setExtraFields := fun xs s => { s with personExtraFields := xs },
    construct := Person.new }

/-- The class `PeopleAtEvents` as a sheet class. -/
def PeopleAtEvents.sheet : SheetClass :=
  { sheetName := "PeopleAtEvents",
    requiredFields := ["UID", "Acronym"],
    optionalFields := [],
    extraFields := fun s => s.peopleAtEventsExtraFields,
    setExtraFields := fun xs s => { s with peopleAtEventsExtraFields := xs },
    construct := PeopleAtEvents.new }

/-! ## Country lines and the map -/

/-- The constructor `CountryLine(place, eventLocation)`, called by `setup` for the key
`place` of `eventLocation.countryLines`; the new object replaces the entry.  The line is
created when `place` is a Location with coordinates; otherwise `alert` is called. -/
def CountryLine.new (place eventLocation : String) (s : State) : State :=
  let hasLine : Bool :=
    match s.locations.get place with
    | none => false
    | some countryLocation => countryLocation.latLng.isSome
  let this : CountryLine :=
    { place := place, location := eventLocation, isCountryLine := true,
      delegateCount := some 0, line := hasLine, weight := 0 }
  let s1 : State :=
    if hasLine then
      { s with origins := if s.origins.contains place then s.origins else s.origins ++ [place] }
    else
      { s with alerts := s.alerts ++ ["People Origin: " ++ place ++ " not in Locations"] }
  match s1.locations.get eventLocation with
  | none => s1
  | some location =>
    { s1 with
      locations := s1.locations.set eventLocation
        { location with countryLines := location.countryLines.set place this } }

/-- The method `CountryLine.prototype.showLine()`: the weight given to the line, when there
is one. -/
def CountryLine.showLine (const : Const) (this : CountryLine) : CountryLine :=
  if this.line then
    { this with
      weight :=
        match this.delegateCount with
        | none => 0
        | some n =>
          if n = 0 then 0 else clampRange (n : ℚ) const.lineMinWidth const.lineMaxWidth }
  else this

/-- The ratio `(this.hasEvent-1) / (Event.locationsCount-1)` of `setup`; `hasEvent - 1` is
`NaN` while `hasEvent` is `undefined`. -/
def Location.rankRatio (hasEvent : Option Nat) (locationsCount : Nat) : Option ℚ :=
  match hasEvent with
  | none => none
  | some rank => jsDivide ((rank : Int) - 1) ((locationsCount : Int) - 1)

/-- The value of `this.Color || this.getColor(...)` in `setup`; `none` when `getColor`
throws. -/
def Location.setupColor (this : Location) (locationsCount : Nat) : Option String :=
  if !isBlank (this.fields.get "Color") then this.fields.get "Color"
  else Location.getColor (Location.rankRatio this.hasEvent locationsCount)

/-- The method `Location.prototype.setup(place)` on the Location object of key `place`. -/
def Location.setup (place : String) (s : State) : Outcome :=
  match s.locations.get place with
  | none => { state := s, thrown := some "TypeError" }
  | some this =>
    match Location.setupColor this s.locationsCount with
    | none => { state := s, thrown := some "TypeError" }
    | some color =>
      let s1 : State := { s with locations := s.locations.set place { this with color := color } }
      let s2 : State :=
        if this.latLng.isSome then
          (this.countryLines.keys).foldl (fun acc origin => CountryLine.new origin place acc) s1
        else s1
      { state := s2, thrown := none }

/-- The statement `Location.clearCounts()` on one Location object: every entry of its
`countryLines` gets `delegateCount = 0`. -/
def Location.clearLines (this : Location) : Location :=
  { this with
    countryLines :=
      this.countryLines.map (fun entry => (entry.1, { entry.2 with delegateCount := some 0 })) }

/-- The function `Location.clearCounts()`. -/
def Location.clearCounts (s : State) : State :=
  s.eventLocations.foldl
    (fun acc place =>
      match acc.locations.get place with
      | none => acc
      | some location => { acc with locations := acc.locations.set place location.clearLines })
    s

/-- The statement
`event.location.countryLines[countryPlace].delegateCount += event.countries[countryPlace].delegates.length`;
it throws when the Location has no entry for `countryPlace`. -/
def Location.addCount (place countryPlace : String) (n : Nat) (s : State) : Outcome :=
  match s.locations.get place with
  | none => { state := s, thrown := some "TypeError" }
  | some location =>
    match location.countryLines.get countryPlace with
    | none => { state := s, thrown := some "TypeError" }
    | some countryLine =>
      { state :=
          { s with
            locations := s.locations.set place
              { location with
                countryLines := location.countryLines.set countryPlace
                  { countryLine with delegateCount := countryLine.delegateCount.map (· + n) } } },
        thrown := none }

/-- The body of `Event.events.forEach((event) => ...)` in `renderMap`. -/
def Location.addEventCounts (event : Event) (s : State) : Outcome :=
  if event.filtered && event.shownOnMap then
    forEachOutcome
      (fun (entry : String × Country) =>
        Location.addCount event.location entry.1 entry.2.delegates.length)
      event.countries s
  else { state := s, thrown := none }

/-- The last loop of `renderMap` on one entry: `showLine()` is not a function on a
placeholder. -/
def Location.showEntry (place countryPlace : String) (s : State) : Outcome :=
  match s.locations.get place with
  | none => { state := s, thrown := none }
  | some location =>
    match location.countryLines.get countryPlace with
    | none => { state := s, thrown := none }
    | some countryLine =>
      if countryLine.isCountryLine then
        { state :=
            { s with
              locations := s.locations.set place
                { location with
                  countryLines :=
                    location.countryLines.set countryPlace (countryLine.showLine s.const) } },
          thrown := none }
      else { state := s, thrown := some "TypeError" }

/-- The last loop of `renderMap` on one Location of `Event.locations`. -/
def Location.showLines (place : String) (s : State) : Outcome :=
  match s.locations.get place with
  | none => { state := s, thrown := none }
  | some location =>
    forEachOutcome (fun countryPlace => Location.showEntry place countryPlace)
      location.countryLines.keys s

/-- The function `Location.renderMap()`. -/
def Location.renderMap (s : State) : Outcome :=
  (forEachOutcome Location.addEventCounts s.events (Location.clearCounts s)).andThen
    (fun s1 => forEachOutcome Location.showLines s1.eventLocations s1)

/-! ## `Event.initialise` -/

/-- The comparison of `Event.events.sort((a, b) => a.startTime - b.startTime)`: `a` does not
come after `b`.  The difference of two `-Infinity` is `NaN`, which `sort` reads as `0`. -/
def Event.startsBefore (a b : Event) : Prop :=
  StartTime.le a.startTime b.startTime = true

instance : DecidableRel Event.startsBefore :=
  fun a b => inferInstanceAs (Decidable (StartTime.le a.startTime b.startTime = true))

/-- The statement `Event.events.sort(...)`; `Array.prototype.sort` is stable. -/
def Event.sortEvents (events : List Event) : List Event :=
  events.insertionSort Event.startsBefore

/-- The statement `Event.events.forEach((event, index) => event.cellIndex = index + 1)`,
from position `index` on. -/
def Event.setCellIndexFrom : Nat → List Event → List Event
  | _, [] => []
  | index, event :: rest =>
    { event with cellIndex := some (index + 1) } :: Event.setCellIndexFrom (index + 1) rest

/-- The function `Event.initialise()`: the sort, the cell indexes, then `location.setup(place)`
for every key of `Event.locations`.  (The drop-down lists and the origin markers it creates
next belong to the page.) -/
def Event.initialise (s : State) : Outcome :=
  let s1 : State := { s with events := Event.setCellIndexFrom 0 (Event.sortEvents s.events) }
  forEachOutcome Location.setup s1.eventLocations s1

/-! ## The filter and the map toggles -/

/-- The method `Event.prototype.getLabel()`. -/
def Event.getLabel (const : Const) (this : Event) : Option String :=
  match this.organiser with
  | none => this.fields.get "Acronym"
  | some organiser =>
    if const.acronyms || isBlank (organiser.get "Name") then this.fields.get "Acronym"
    else organiser.get "Name"

/-- A global `replace` of one character by a string. -/
def replaceAll (c : Char) (by_ : List Char) (s : List Char) : List Char :=
  s.flatMap (fun x => if x = c then by_ else [x])

/-- The source of the regular expression that `Event.filter` builds from `eventPattern`:
`.` and `+` are escaped, `*` becomes `.*` and `?` becomes `.`, in this order. -/
def Event.patternSource (eventPattern : String) : String :=
  String.mk
    (replaceAll '?' ['.']
      (replaceAll '*' ['.', '*']
        (replaceAll '+' ['\\', '+']
          (replaceAll '.' ['\\', '.'] eventPattern.data))))

/-- The method `Event.prototype.hasOrigin(originPattern)`. -/
def Event.hasOrigin (this : Event) (originPattern : String) : Bool :=
  this.countries.keys.any
    (fun country => jsIncludes ("|" ++ originPattern ++ "|") ("|" ++ country ++ "|"))

/-- What `Event.filter` reads from the page: the three pattern inputs and the times of the
two date ranges. -/
structure FilterInput where
  eventPattern : String
  startTime : Int
  finishTime : Int
  locationPattern : String
  originPattern : String
  deriving DecidableEq, Repr

/-- The name sub-predicate: `!eventPattern || regex.test(event.getLabel())`. -/
def Event.passesName (const : Const) (test : String → Bool) (input : FilterInput)
    (event : Event) : Bool :=
  input.eventPattern = "" || test (jsString (event.getLabel const))

/-- The date sub-predicate:
`!timePattern || (event.startTime >= start && event.startTime <= finish)`. -/
def Event.passesDate (input : FilterInput) (event : Event) : Bool :=
  !decide (input.startTime < input.finishTime) ||
    (StartTime.le (.ms input.startTime) event.startTime &&
      StartTime.le event.startTime (.ms input.finishTime))

/-- The location sub-predicate:
`!locationPatternValue || locationPattern.includes('|' + event.Location + '|')`. -/
def Event.passesLocation (input : FilterInput) (event : Event) : Bool :=
  input.locationPattern = "" ||
    jsIncludes ("|" ++ input.locationPattern ++ "|")
      ("|" ++ jsString (event.fields.get "Location") ++ "|")

/-- The origin sub-predicate: `!originPattern || event.hasOrigin(originPattern)`. -/
def Event.passesOrigin (input : FilterInput) (event : Event) : Bool :=
  input.originPattern = "" || event.hasOrigin input.originPattern

/-- The value assigned to `event.filtered`. -/
def Event.passes (const : Const) (test : String → Bool) (input : FilterInput)
    (event : Event) : Bool :=
  Event.passesName const test input event && Event.passesDate input event &&
    Event.passesLocation input event && Event.passesOrigin input event

/-- The function `Event.filter()`.  `new RegExp(...)` runs first and may throw; then every
event gets its flag, and `Location.renderMap()` is called. -/
def Event.filter (host : Host) (input : FilterInput) (s : State) : Outcome :=
  match host.regExp (Event.patternSource input.eventPattern) with
  | none => { state := s, thrown := some "SyntaxError" }
  | some test =>
    Location.renderMap
      { s with
        events := s.events.map
          (fun event => { event with filtered := Event.passes s.const test input event }) }

/-- The method `Event.prototype.showMapEvent(state)` on the event at position `index`. -/
def Event.showMapEvent (index : Nat) (state : Bool) (s : State) : State :=
  match s.events.get? index with
  | none => s
  | some this => { s with events := s.events.set index { this with shownOnMap := state } }

/-- The method `Event.prototype.toggleMap(state)` on the event at position `index`; `state`
is `none` when the argument is `undefined`. -/
def Event.toggleMap (index : Nat) (state : Option Bool) (s : State) : Outcome :=
  match s.events.get? index with
  | none => { state := s, thrown := some "TypeError" }
  | some this =>
    Location.renderMap
      (Event.showMapEvent index
        (match state with
          | none => !this.shownOnMap
          | some b => b) s)

/-- The function `Event.selectMapAllEvents()`. -/
def Event.selectMapAllEvents (s : State) : Outcome :=
  Location.renderMap
    { s with events := s.events.map (fun event => { event with shownOnMap := true }) }

/-- The function `Event.clearMapAllEvents()`. -/
def Event.clearMapAllEvents (s : State) : Outcome :=
  Location.renderMap
    { s with events := s.events.map (fun event => { event with shownOnMap := false }) }

/-! ## The drop-down patterns -/

/-- `String.prototype.replace` with a string as pattern and a replacement without `$`: the
first occurrence of `needle` is replaced. -/
def replaceFirst (needle by_ : List Char) : List Char → List Char
  | [] => if needle.isPrefixOf [] then by_ else []
  | c :: rest =>
    if needle.isPrefixOf (c :: rest) then by_ ++ (c :: rest).drop needle.length
    else c :: replaceFirst needle by_ rest

/-- `replace(/^\|*/, '')`: the leading run of `|` is removed. -/
def stripLeadingBars (s : List Char) : List Char :=
  s.dropWhile (fun c => c = '|')

/-- `replace(/\|*$/, '')`: the trailing run of `|` is removed. -/
def stripTrailingBars (s : List Char) : List Char :=
  (s.reverse.dropWhile (fun c => c = '|')).reverse

/-- The method `DropDown.prototype.add(item)` on the pattern `value`: the value returned and
the new pattern. -/
def DropDown.add (value item : String) : Bool × String :=
  let pattern := "|" ++ value ++ "|"
  if jsIncludes pattern ("|" ++ item ++ "|") then (false, value)
  else (true, String.mk (stripLeadingBars (pattern ++ item).data))

/-- The method `DropDown.prototype.remove(item)` on the pattern `value`: the new pattern. -/
def DropDown.remove (value item : String) : String :=
  String.mk
    (stripTrailingBars
      (stripLeadingBars
        (replaceFirst ("|" ++ item ++ "|").data ['|'] ("|" ++ value ++ "|").data)))

/-- The method `DropDown.prototype.toggle(item)` on the pattern `value`: the new pattern. -/
def DropDown.toggle (value item : String) : String :=
  if (DropDown.add value item).1 then (DropDown.add value item).2
  else DropDown.remove value item

/-! ## The pattern language of the host's `RegExp`, as far as the name filter needs it -/

/-- The syntax characters of the host's pattern language, as code units:
`^ $ \ . * + ? ( ) [ ] { } |`.  Every other code unit of a pattern stands for itself. -/
def RegExp.isSyntaxCharacter (u : Nat) : Bool :=
  [0x5E, 0x24, 0x5C, 0x2E, 0x2A, 0x2B, 0x3F, 0x28, 0x29, 0x5B, 0x5D, 0x7B, 0x7D, 0x7C].contains u

/-- The line terminators (line feed, carriage return, line separator, paragraph separator),
which `.` does not match in a pattern compiled without flags. -/
def RegExp.isLineTerminator (u : Nat) : Bool :=
  u = 0x0A || u = 0x0D || u = 0x2028 || u = 0x2029

/-- The terms of the patterns that the name filter builds from a glob: a code unit that
stands for itself, `.`, and `.*`.  A pattern compiled without the flag `u` is read and
matched code unit by code unit. -/
inductive RegExp.Term where
  | char (u : Nat) : RegExp.Term
  | any : RegExp.Term
  | anyStar : RegExp.Term
  deriving DecidableEq, Repr

/-- The reading of a pattern source, given by its code units, in the fragment of the pattern
language with the atoms `\.` (`0x5C 0x2E`), `\+` (`0x5C 0x2B`), `.` (`0x2E`) and the code
units that are not syntax characters, and with no quantifier but `*` (`0x2A`) after `.`.  A
source outside the fragment is not read (`none`). -/
def RegExp.parse : List Nat → Option (List RegExp.Term)
  | [] => some []
  | [c] =>
    if c = 0x2E then some [.any]
    else if RegExp.isSyntaxCharacter c then none
    else some [.char c]
  | c :: d :: rest =>
    if c = 0x5C then
      if d = 0x2E ∨ d = 0x2B then (RegExp.parse rest).map (fun terms => .char d :: terms)
      else none
    else if c = 0x2E then
      if d = 0x2A then (RegExp.parse rest).map (fun terms => .anyStar :: terms)
      else (RegExp.parse (d :: rest)).map (fun terms => .any :: terms)
    else if RegExp.isSyntaxCharacter c then none
    else (RegExp.parse (d :: rest)).map (fun terms => .char c :: terms)

/-- The term `.*` before the rest of a pattern: the rest matches here, or the next code unit
is not a line terminator and is consumed. -/
def RegExp.starLoop (next : List Nat → Bool) : List Nat → Bool
  | [] => next []
  | x :: xs => next (x :: xs) || (!RegExp.isLineTerminator x && RegExp.starLoop next xs)

/-- The sequence of terms matches at the start of the input, a sequence of code units. -/
def RegExp.matchesAt : List RegExp.Term → List Nat → Bool
  | [], _ => true
  | .char _ :: _, [] => false
  | .char c :: terms, x :: xs => x = c && RegExp.matchesAt terms xs
  | .any :: _, [] => false
  | .any :: terms, x :: xs => !RegExp.isLineTerminator x && RegExp.matchesAt terms xs
  | .anyStar :: terms, input => RegExp.starLoop (RegExp.matchesAt terms) input

/-- The method `test` of a pattern without flags: the pattern matches at some position. -/
def RegExp.search (terms : List RegExp.Term) (input : List Nat) : Bool :=
  input.tails.any (RegExp.matchesAt terms)

/-- The host's `RegExp` follows the language standard on the sources that the name filter
needs: a source of the fragment compiles to the search for its terms in the code units of
the string tested, and the source `(`, a group that is not closed, is a `SyntaxError`. -/
structure Host.Standard (host : Host) : Prop where
  fragment : ∀ (source : String) (terms : List RegExp.Term),
    RegExp.parse (jsUnits source) = some terms →
    ∃ test, host.regExp source = some test ∧
      ∀ label : String, test label = RegExp.search terms (jsUnits label)
  openGroup : host.regExp "(" = none

/-! ## The load in boot order -/

/-- The five data sheets of one document, as handed to the `load` callbacks. -/
structure Sheets where
  locations : Option (List Row)
  organisers : Option (List Row)
  events : Option (List Row)
  people : Option (List Row)
  peopleAtEvents : Option (List Row)

/-- The first four steps of the chain `Load.sheet` over
`[Location, Organiser, Event, Person, PeopleAtEvents]`: each callback runs on the state the
previous one left, whether or not it threw. -/
def Load.entities (host : Host) (doc : Sheets) (s : State) : State :=
  let s1 := (Param.load Location.sheet doc.locations s).state
  let s2 := (Param.load Organiser.sheet doc.organisers s1).state
  let s3 := (Param.load (Event.sheet host) doc.events s2).state
  (Param.load Person.sheet doc.people s3).state

/-- The whole chain `Load.sheet`: the four entity sheets, then the attendance rows. -/
def Load.sheets (host : Host) (doc : Sheets) (s : State) : State :=
  (Param.load PeopleAtEvents.sheet doc.peopleAtEvents (Load.entities host doc s)).state

/-! ## Views of the state, invariants and case analyses used in the statements -/

/-- The `k` low hexadecimal digits of `n`, most significant first. -/
def fixedDigits : Nat → Nat → List Char
  | 0, _ => []
  | k + 1, n => fixedDigits k (n / 16) ++ [Nat.digitChar (n % 16)]

/-- The colour of the Location object of key `place`. -/
def State.colorOf (s : State) (place : String) : Option String :=
  (s.locations.get place).map Location.color

/-- A header cell that `Param.load` counts as a required field. -/
def Param.countsAsRequired (requiredFields : List String) (fieldName : String) : Bool :=
  Param.isFieldName fieldName && requiredFields.contains fieldName

/-- Field extraction succeeds: the test `requiredCount == this.requiredFields.length` of
`Param.load` holds, so the data rows are handed to the constructor. -/
def Param.extracts (cls : SheetClass) (header : Row) : Prop :=
  (Param.scanHeader cls.requiredFields cls.optionalFields header).requiredCount =
    cls.requiredFields.length

instance (cls : SheetClass) (header : Row) : Decidable (Param.extracts cls header) :=
  inferInstanceAs (Decidable (_ = _))

/-- What `Param.load` does with a sheet when extraction succeeds: one constructor call per data
row, and no diagnostic of its own. -/
def Param.loadRows (cls : SheetClass) (header : Row) (rows : List Row) (s : State) : Outcome :=
  let scan := Param.scanHeader cls.requiredFields cls.optionalFields header
  forEachOutcome (cls.construct scan.fieldIndexes) rows
    (cls.setExtraFields (Param.mergeExtraFields (cls.extraFields s) scan.extraFields) s)

/-- What `Param.load` does with a sheet when extraction fails: no row is read and the
`missing fields` diagnostic is recorded. -/
def Param.rejectSheet (cls : SheetClass) (header : Row) (s : State) : Outcome :=
  let scan := Param.scanHeader cls.requiredFields cls.optionalFields header
  { state := Load.message
      (cls.sheetName ++ " sheet missing fields " ++ jsonStringify cls.requiredFields)
      (cls.setExtraFields (Param.mergeExtraFields (cls.extraFields s) scan.extraFields) s),
    thrown := none }

/-- An event without its cell index. -/
def Event.clearCellIndex (event : Event) : Event :=
  { event with cellIndex := none }

/-- The fields of an Events row make a registered event: the acronym is not blank and the
location name is a key of `Location.locations`. -/
def Event.registers (s : State) (fields : Fields) : Bool :=
  !isBlank (fields.get "Acronym") && (s.locations.get (jsString (fields.get "Location"))).isSome

instance : IsTotal Event Event.startsBefore :=
  ⟨fun a b => by
    unfold Event.startsBefore
    cases a.startTime <;> cases b.startTime <;> simp [StartTime.le]
    omega⟩

instance : IsTrans Event Event.startsBefore :=
  ⟨fun a b c => by
    unfold Event.startsBefore
    cases a.startTime <;> cases b.startTime <;> cases c.startTime <;> simp [StartTime.le]
    omega⟩

/-- The rank (`hasEvent`) of the Location object of key `place`. -/
def State.rankOf (s : State) (place : String) : Option Nat :=
  (s.locations.get place).bind Location.hasEvent

/-- The ranks are those of discovery: `Event.locations` has no repeated key and
`locationsCount` keys, the key at position `i` names a Location of rank `i + 1`, and a
Location that is not in `Event.locations` has no rank. -/
structure State.RanksOrdered (s : State) : Prop where
  nodup : s.eventLocations.Nodup
  count : s.eventLocations.length = s.locationsCount
  rank : ∀ i place, s.eventLocations.get? i = some place →
    (s.locations.get place).isSome ∧ s.rankOf place = some (i + 1)
  unranked : ∀ place, place ∉ s.eventLocations → s.rankOf place = none

/-- The keys of `Event.locations` after the places `places` have been referenced in turn by
registered events: a place not yet present is added last. -/
def firstReferences (known : List String) (places : List String) : List String :=
  places.foldl (fun acc place => if acc.contains place then acc else acc ++ [place]) known

/-- The Event object that the constructor registers for the fields `fields` in state `s`. -/
def Event.registered (host : Host) (s : State) (fields : Fields) (start : String) : Event :=
  { oid := s.events.length,
    fields := fields,
    countries := [],
    filtered := true,
    startTime := Event.parseStart host start,
    location := jsString (fields.get "Location"),
    organiser := s.organisers.get (jsString (fields.get "Organiser")),
    shownOnMap := false,
    cellIndex := none }

/-- The four ways a call of the `Event` constructor can change the state. -/
inductive Event.Step (host : Host) (s : State) : Outcome → Prop where
  | skip (thrown : Option String) : Event.Step host s { state := s, thrown := thrown }
  | unknown (msg : String) : Event.Step host s { state := Load.message msg s, thrown := none }
  | ranked (fields : Fields) (start : String) (location : Location) (rank : Nat)
      (hl : s.locations.get (jsString (fields.get "Location")) = some location)
      (hr : location.hasEvent = some (rank + 1)) :
      Event.Step host s
        { state := { s with events := s.events ++ [Event.registered host s fields start] },
          thrown := none }
  | unranked (fields : Fields) (start : String) (location : Location)
      (hl : s.locations.get (jsString (fields.get "Location")) = some location)
      (hr : location.hasEvent = none ∨ location.hasEvent = some 0) :
      Event.Step host s
        { state := { s with
            eventLocations :=
              if s.eventLocations.contains (jsString (fields.get "Location"))
              then s.eventLocations
              else s.eventLocations ++ [jsString (fields.get "Location")],
            locations := s.locations.set (jsString (fields.get "Location"))
              { location with countryLines := [], hasEvent := some (s.locationsCount + 1) },
            locationsCount := s.locationsCount + 1,
            events := s.events ++ [Event.registered host s fields start] },
          thrown := none }

/-- The state `t` differs from `s` in `Location.locations` at most. -/
def State.SameButLocations (s t : State) : Prop :=
  t = { s with locations := t.locations }

/-- The diagnostic of the `PeopleAtEvents` constructor for a row with these fields. -/
def PeopleAtEvents.diagnostic (fields : Fields) : String :=
  "Unknown PersonAtEvents " ++ jsString (fields.get "UID") ++ ", " ++
    jsString (fields.get "Acronym")

/-- The delegate list `event.countries[origin].delegates` of the event at position `index`
of `Event.events`; empty when the event has no Country for `origin`. -/
def State.delegatesOf (s : State) (index : Nat) (origin : String) : List String :=
  match s.events.get? index with
  | none => []
  | some event =>
    match event.countries.get origin with
    | none => []
    | some country => country.delegates

/-- The row with these fields is joined by the constructor as a delegate of origin `origin`
of the event at position `index`: its UID is not blank and names a Person whose `Origin` is
`origin`, and its acronym resolves to that event. -/
def PeopleAtEvents.joins (s : State) (index : Nat) (origin : String) (fields : Fields) : Bool :=
  !isBlank (fields.get "UID") &&
    (match s.people.get (jsString (fields.get "UID")) with
      | some person => person.fields.get "Origin" == some origin
      | none => false) &&
    (Event.findById s.events (fields.get "Acronym") == some index)

/-- The states `s` and `t` hold the same events and people as far as their fields go. -/
structure State.SameIdentities (s t : State) : Prop where
  events : t.events.map Event.fields = s.events.map Event.fields
  people : ∀ uid, (t.people.get uid).map Person.fields = (s.people.get uid).map Person.fields

/-- The Country of `key` after one more delegate. -/
def Country.joined (countries : Dict Country) (key : String) (acronym : Option String)
    (uid : String) : Country :=
  match countries.get key with
  | none => { name := key, eventID := acronym, delegates := [uid] }
  | some c => { c with delegates := c.delegates ++ [uid] }

/-- The entry `Location.locations[place].countryLines[origin]`. -/
def State.lineOf (s : State) (place origin : String) : Option CountryLine :=
  (s.locations.get place).bind (fun location => location.countryLines.get origin)

/-- The count `Location.locations[place].countryLines[origin].delegateCount`. -/
def State.countOf (s : State) (place origin : String) : Option Nat :=
  (s.lineOf place origin).bind CountryLine.delegateCount

/-- The state can be rendered: every event sits at a Location of `Event.locations` that holds
a line for each of the event's origins, the origins of an event are distinct keys, and the
lines of the Locations of `Event.locations` are `CountryLine` objects (not placeholders). -/
def State.Renderable (s : State) : Prop :=
  (∀ event ∈ s.events, event.location ∈ s.eventLocations ∧ event.countries.keys.Nodup ∧
    ∀ origin ∈ event.countries.keys, (s.lineOf event.location origin).isSome = true) ∧
  (∀ place ∈ s.eventLocations, ∀ entry ∈ s.locations, entry.1 = place →
    ∀ line ∈ entry.2.countryLines, line.2.isCountryLine = true)

instance (s : State) : Decidable s.Renderable := by
  unfold State.Renderable
  infer_instance

/-- A line with its count reset, as `clearCounts` leaves it. -/
def CountryLine.cleared (line : CountryLine) : CountryLine :=
  { line with delegateCount := some 0 }

/-- A line with `n` added to its count, as `renderMap` leaves it for one event. -/
def CountryLine.added (n : Nat) (line : CountryLine) : CountryLine :=
  { line with delegateCount := line.delegateCount.map (· + n) }

/-- The delegates that the entries of `event.countries` with key `origin` add to a line. -/
def Country.keySum (entries : Dict Country) (origin : String) : Nat :=
  ((entries.filter (fun entry => entry.1 == origin)).map
    (fun entry => entry.2.delegates.length)).sum

/-- The states `s` and `t` hold the same lines with the same counts and the same kind. -/
def State.LinesAgree (s t : State) : Prop :=
  ∀ p o, (t.lineOf p o).map (fun line => (line.delegateCount, line.isCountryLine)) =
    (s.lineOf p o).map (fun line => (line.delegateCount, line.isCountryLine))

/-- Every line found at `place` is a `CountryLine` object. -/
def State.Drawn (s : State) (place : String) : Prop :=
  ∀ o line, s.lineOf place o = some line → line.isCountryLine = true

/-- No event has been registered yet: `Event.locations` is empty, `locationsCount` is `0` and
no Location has a rank. -/
def State.Unranked (s : State) : Prop :=
  s.eventLocations = [] ∧ s.locationsCount = 0 ∧ ∀ entry ∈ s.locations, entry.2.hasEvent = none

/-- The weight that `showLine` gives to a line that exists and counts `n` delegates. -/
def CountryLine.shownWeight (const : Const) (this : CountryLine) (n : Nat) : ℚ :=
  (CountryLine.showLine const { this with delegateCount := some n, line := true }).weight

/-- The characters of a name pattern that the filter leaves to the pattern language with a
meaning of their own: `^ $ \ ( ) [ ] { } |`. -/
def Event.isRawSyntax (c : Char) : Bool :=
  ['^', '$', '\\', '(', ')', '[', ']', '\x7b', '\x7d', '|'].contains c

/-- The source `Event.filter` builds for one character of the name pattern. -/
def Event.escapeChar (c : Char) : List Char :=
  if c = '.' then ['\\', '.']
  else if c = '+' then ['\\', '+']
  else if c = '*' then ['.', '*']
  else if c = '?' then ['.']
  else [c]

/-- The source `Event.filter` builds for one code unit of the name pattern: `.` (`0x2E`) and
`+` (`0x2B`) get a `\` (`0x5C`) before them, `*` (`0x2A`) becomes `.*` and `?` (`0x3F`)
becomes `.`. -/
def Event.escapeUnit (u : Nat) : List Nat :=
  if u = 0x2E then [0x5C, 0x2E]
  else if u = 0x2B then [0x5C, 0x2B]
  else if u = 0x2A then [0x2E, 0x2A]
  else if u = 0x3F then [0x2E]
  else [u]

/-- The code units of a name pattern that the filter leaves to the pattern language with a
meaning of their own: those of `^ $ \ ( ) [ ] { } |`. -/
def Event.isRawUnit (u : Nat) : Bool :=
  [0x5E, 0x24, 0x5C, 0x28, 0x29, 0x5B, 0x5D, 0x7B, 0x7D, 0x7C].contains u

/-- The term a code unit of a glob stands for. -/
def Event.globTerm (u : Nat) : RegExp.Term :=
  if u = 0x2A then .anyStar else if u = 0x3F then .any else .char u

/-- An event with its `filtered` flag put aside. -/
def Event.butFiltered (event : Event) : Event :=
  { event with filtered := true }

/-- An event with its `shownOnMap` flag put aside. -/
def Event.butShown (event : Event) : Event :=
  { event with shownOnMap := false }

/-- An event with both flags put aside. -/
def Event.butFlags (event : Event) : Event :=
  { event with filtered := true, shownOnMap := false }

/-- The two flags of an event. -/
def Event.flags (event : Event) : Bool × Bool :=
  (event.filtered, event.shownOnMap)

/-! ## The properties as the specification words them -/

/-- The reference mapping of the specification from `scale` on:
`section = floor(scale / 256) mod 6`, `shade = scale mod 256`, and the channel triple is row
`section` of the fixed table with `-1` replaced by `255 - shade` and `1` by `shade`. -/
def Spec.channelsOfScale (scale : Int) : List Int :=
  let sect : Int := (scale / 256) % 6
  let shade : Int := scale % 256
  (Location.colorTable.getD sect.toNat []).map
    (fun c => if c = -1 then 255 - shade else if c = 1 then shade else c)

/-- The reference mapping of the specification for a ratio `r`: `scale = floor(r * 1536)`,
then the channels of that scale. -/
def Spec.referenceChannels (r : ℚ) : List Int :=
  Spec.channelsOfScale ⌊r * 1536⌋

/-- The colour string of the specification for the number `n`: `#` followed by exactly six
hexadecimal digits, most significant first. -/
def Spec.hexColor (n : Nat) : String :=
  String.mk ['#', Nat.digitChar (n / 16 ^ 5 % 16), Nat.digitChar (n / 16 ^ 4 % 16),
    Nat.digitChar (n / 16 ^ 3 % 16), Nat.digitChar (n / 16 ^ 2 % 16),
    Nat.digitChar (n / 16 % 16), Nat.digitChar (n % 16)]

/-- The condition of the specification for a header row: every required field name is
present exactly once. -/
def Spec.everyRequiredOnce (requiredFields : List String) (header : Row) : Prop :=
  ∀ f ∈ requiredFields, header.count f = 1

/-- The joined rows as the specification counts them: person and event both resolved, the
person's `Origin` is `origin`, the acronym resolves to the event at position `index`. -/
def Spec.joins (s : State) (index : Nat) (origin : String) (fields : Fields) : Bool :=
  (match s.people.get (jsString (fields.get "UID")) with
    | some person => person.fields.get "Origin" == some origin
    | none => false) &&
    (Event.findById s.events (fields.get "Acronym") == some index)

/-- The sum of the specification for the line from `origin` to `place`: over the events at
`place` that are both `filtered` and `shownOnMap`, the number of delegates of `origin`
(none when the event has no Country for `origin`). -/
def Spec.shownDelegates (events : List Event) (place origin : String) : Nat :=
  ((events.filter (fun event => event.filtered && event.shownOnMap && event.location == place)).map
    (fun event =>
      match event.countries.get origin with
      | some country => country.delegates.length
      | none => 0)).sum

/-- The text of a multi-selection as the specification words it: the names joined by `|`. -/
def Spec.barJoined : List String → String
  | [] => ""
  | [p] => p
  | p :: q :: rest => p ++ "|" ++ Spec.barJoined (q :: rest)

/-- The name holds no `|`. -/
def Spec.barFree (name : String) : Bool :=
  !name.data.contains '|'

/-- A glob as the specification words it, on sequences of any kind of item: the item `star`
matches any sequence of items, the item `quest` exactly one item, every other item itself;
`wild` tells the items that the two wildcards accept. -/
def Spec.globMatches {α : Type} [DecidableEq α] (star quest : α) (wild : α → Bool) :
    List α → List α → Bool
  | [], text => text.isEmpty
  | c :: pattern, text =>
    if c = star then
      (List.range (text.length + 1)).any
        (fun k => (text.take k).all wild &&
          Spec.globMatches star quest wild pattern (text.drop k))
    else
      match text with
      | [] => false
      | x :: rest =>
        (if c = quest then wild x else x = c) && Spec.globMatches star quest wild pattern rest

/-- Some contiguous substring of the label matches the pattern as a glob on characters, with
the wildcards `*` and `?`. -/
def Spec.globSearch (wild : Char → Bool) (pattern label : String) : Bool :=
  label.data.tails.any (fun tail => tail.inits.any (Spec.globMatches '*' '?' wild pattern.data))

/-- Some contiguous run of code units of the label matches the pattern as a glob on code
units, with the wildcards `*` (`0x2A`) and `?` (`0x3F`). -/
def Spec.globSearchUnits (wild : Nat → Bool) (pattern label : String) : Bool :=
  (jsUnits label).tails.any
    (fun tail => tail.inits.any (Spec.globMatches 0x2A 0x3F wild (jsUnits pattern)))

/-- The display name of a person as the specification words it: first name, one space, last
name; the separator is left out when either part is blank. -/
def Spec.displayName (first last : Option String) : String :=
  if isBlank first then (if isBlank last then "" else last.getD "")
  else if isBlank last then first.getD ""
  else first.getD "" ++ " " ++ last.getD ""

/-! ## The redraw of the map after an action of the page -/

/-- The state is ready for `renderMap`: every event sits at a Location of `Event.locations`
that holds a line for each of the event's origins, the origins of an event are distinct keys,
and every line found at a Location of `Event.locations` is a `CountryLine` object. -/
structure State.Ready (s : State) : Prop where
  events : ∀ event ∈ s.events, event.location ∈ s.eventLocations ∧
    event.countries.keys.Nodup ∧
    ∀ origin ∈ event.countries.keys, (s.lineOf event.location origin).isSome = true
  drawn : ∀ place ∈ s.eventLocations, s.Drawn place

/-- The actions of the page that set a flag and redraw the map. -/
inductive MapAction where
  | filter (input : FilterInput) : MapAction
  | toggle (index : Nat) (state : Option Bool) : MapAction
  | selectAll : MapAction
  | clearAll : MapAction

/-- One action of the page. -/
def MapAction.run (host : Host) : MapAction → State → Outcome
  | .filter input, s => Event.filter host input s
  | .toggle index state, s => Event.toggleMap index state s
  | .selectAll, s => Event.selectMapAllEvents s
  | .clearAll, s => Event.clearMapAllEvents s

/-- A sequence of actions of the page: each handler runs on the state the previous one left,
whether or not it threw. -/
def MapAction.runAll (host : Host) (actions : List MapAction) (s : State) : State :=
  actions.foldl (fun acc action => (action.run host acc).state) s

/-- The state `t` is `u` redrawn after a change of flags, or `u` itself. -/
def State.Redrawn (u t : State) : Prop :=
  t = u ∨
    ∃ v : State, v.locations = u.locations ∧ v.eventLocations = u.eventLocations ∧
      v.events.map Event.butFlags = u.events.map Event.butFlags ∧
      t = (Location.renderMap v).state

/-- The counts of the state `u` are those that `renderMap` computes from the flags of `u`,
on the lines of the state `base`. -/
structure State.Rendered (base u : State) : Prop where
  ready : u.Ready
  eventLocations : u.eventLocations = base.eventLocations
  events : u.events.map Event.butFlags = base.events.map Event.butFlags
  lines : ∀ p o, (u.lineOf p o).isSome = (base.lineOf p o).isSome
  counts : ∀ p o, u.countOf p o =
    if p ∈ base.eventLocations then
      (base.lineOf p o).map (fun _ => Spec.shownDelegates u.events p o)
    else base.countOf p o

/-! ## The invariant of the load -/

/-- The state is one that the load leaves: every event sits at a ranked Location of
`Event.locations` that holds an entry for each of the event's origins, the origins of an event
are distinct keys, every Location has coordinates, and a ranked Location is in
`Event.locations`. -/
def State.Joined (s : State) : Prop :=
  (∀ event ∈ s.events,
    event.location ∈ s.eventLocations ∧ event.countries.keys.Nodup ∧
    (∀ origin ∈ event.countries.keys, (s.lineOf event.location origin).isSome = true) ∧
    ∃ location rank, s.locations.get event.location = some location ∧
      location.hasEvent = some (rank + 1)) ∧
  (∀ place location, s.locations.get place = some location → location.latLng.isSome = true) ∧
  (∀ place location rank, s.locations.get place = some location →
    location.hasEvent = some (rank + 1) → place ∈ s.eventLocations)

/-- The state before the Events sheet: no event, and Locations with coordinates and no
rank. -/
def State.Unjoined (s : State) : Prop :=
  s.events = [] ∧
  ∀ place location, s.locations.get place = some location →
    location.latLng.isSome = true ∧ location.hasEvent = none

/-- The object that `new CountryLine(origin, location)` builds for the Location of key
`place`, before any count. -/
def CountryLine.built (s : State) (origin place : String) : CountryLine :=
  { place := origin, location := place, isCountryLine := true, delegateCount := some 0,
    line :=
      (match s.locations.get origin with
        | none => false
        | some countryLocation => countryLocation.latLng.isSome),
    weight := 0 }

/-! ## Example documents and states -/

/-- A host whose `Date.parse` reads three dates written month first, and whose regular
expressions match every string. -/
def Example.host : Host :=
  { dateParse := fun text =>
      if text = "1/1/2000" then some 946684800000
      else if text = "2/1/2000" then some 949363200000
      else if text = "1/1/2001" then some 978307200000
      else none,
    regExp := fun _ => some (fun _ => true) }

/-- The scenario of the specification: one location, one event, one person, one attendance
row. -/
def Example.parisDoc : Sheets :=
  { locations := some [["Place", "Lat", "Lng"], ["Paris", "48.85", "2.35"]],
    organisers := none,
    events := some [["Acronym", "Location", "Start"], ["E1", "Paris", "1/1/2000"]],
    people := some [["UID", "First Name", "Last Name", "Origin"], ["U1", "A", "B", "Paris"]],
    peopleAtEvents := some [["UID", "Acronym"], ["U1", "E1"]] }

/-- A Location object of rank `rank` with no `Color`. -/
def Example.site (place : String) (rank : Nat) : Location :=
  { fields := [("Place", place), ("Lat", "0"), ("Lng", "0")],
    latLng := some (some "0", some "0"),
    countryLines := [],
    hasEvent := some rank,
    color := "#FFFFFF" }

/-- A state with two event-bearing locations, Paris found first and Rome second. -/
def Example.twoSites : State :=
  { State.initial with
    locations := [("Paris", Example.site "Paris" 1), ("Rome", Example.site "Rome" 2)],
    eventLocations := ["Paris", "Rome"],
    locationsCount := 2 }

/-- A document with two locations; Rome is referenced first, by two events. -/
def Example.twoSiteDoc : Sheets :=
  { locations := some [["Place", "Lat", "Lng"], ["Paris", "48.85", "2.35"], ["Rome", "41.9", "12.5"]],
    organisers := none,
    events := some [["Acronym", "Location", "Start"], ["E2", "Rome", "1/2/2000"],
      ["E1", "Paris", "1/1/2000"], ["E3", "Rome", "?"], ["E4", "Oslo", "1/1/2001"]],
    people := some [["UID", "First Name", "Last Name", "Origin"], ["U1", "A", "B", "Paris"],
      ["U2", "C", "D", "Rome"], ["", "E", "F", "Paris"]],
    peopleAtEvents := some [["UID", "Acronym"], ["U1", "E1"], ["U2", "E1"], ["U1", "E2"]] }

/-- The state after the Locations sheet of `Example.twoSiteDoc`. -/
def Example.afterLocations : State :=
  (Param.load Location.sheet Example.twoSiteDoc.locations State.initial).state

/-- The field indexes of the Events sheet of `Example.twoSiteDoc`. -/
def Example.eventIndexes : FieldIndexes :=
  [("Acronym", 0), ("Location", 1), ("Start", 2)]

/-- The data rows of the Events sheet of `Example.twoSiteDoc`. -/
def Example.eventRows : List Row :=
  [["E2", "Rome", "1/2/2000"], ["E1", "Paris", "1/1/2000"], ["E3", "Rome", "?"],
    ["E4", "Oslo", "1/1/2001"]]

/-- The filter inputs of a page on which nothing was typed or selected. -/
def Example.noFilter : FilterInput :=
  { eventPattern := "", startTime := 0, finishTime := 0, locationPattern := "",
    originPattern := "" }

/-- The state after the load of `Example.twoSiteDoc` and `Event.initialise`. -/
def Example.loaded : State :=
  (Event.initialise (Load.sheets Example.host Example.twoSiteDoc State.initial)).state

/-- The field indexes of a PeopleAtEvents sheet with the header `UID, Acronym`. -/
def Example.attendanceIndexes : FieldIndexes :=
  [("UID", 0), ("Acronym", 1)]

/-- A document whose People sheet holds a person with a blank UID. -/
def Example.blankUidDoc : Sheets :=
  { locations := some [["Place", "Lat", "Lng"], ["Paris", "48.85", "2.35"]],
    organisers := none,
    events := some [["Acronym", "Location", "Start"], ["E1", "Paris", "1/1/2000"]],
    people := some [["UID", "First Name", "Last Name", "Origin"], ["", "E", "F", "Paris"],
      ["U1", "A", "B", "Paris"]],
    peopleAtEvents := some [["UID", "Acronym"], ["", "E1"], ["U1", "E1"]] }

/-- The loaded example with every event shown on the map. -/
def Example.shown : State :=
  { Example.loaded with
    events := Example.loaded.events.map (fun event => { event with shownOnMap := true }) }

/-- A configuration whose two width bounds are both 0. -/
def Example.flatConst : Const :=
  { Const.default with lineMinWidth := 0, lineMaxWidth := 0 }

/-- A document whose only person has a blank `Origin`. -/
def Example.blankOriginDoc : Sheets :=
  { locations := some [["Place", "Lat", "Lng"], ["Paris", "48.85", "2.35"]],
    organisers := none,
    events := some [["Acronym", "Location", "Start"], ["E1", "Paris", "1/1/2000"]],
    people := some [["UID", "First Name", "Last Name", "Origin"], ["U1", "A", "B", ""]],
    peopleAtEvents := some [["UID", "Acronym"], ["U1", "E1"]] }

/-- An Events sheet with no `Start` column whose first row names an unknown location. -/
def Example.noStartUnknown : List Row :=
  [["Acronym", "Location"], ["E4", "Oslo"], ["E1", "Paris"]]

/-- An Events sheet with no `Start` column whose rows name known locations. -/
def Example.noStartEvents : List Row :=
  [["Acronym", "Location"], ["E1", "Paris"], ["E2", "Rome"]]

/-- The document of the two sites with an Events sheet that has no `Start` column. -/
def Example.noStartDoc : Sheets :=
  { Example.twoSiteDoc with events := some Example.noStartEvents }

/-- The double `0.6686197916666666`: its exact value. -/
def Example.ratio : ℚ :=
  6022391689205077 / 9007199254740992

/-- A document whose only person declares an origin that is not a Location. -/
def Example.unknownOriginDoc : Sheets :=
  { locations := some [["Place", "Lat", "Lng"], ["Paris", "48.85", "2.35"]],
    organisers := none,
    events := some [["Acronym", "Location", "Start"], ["E1", "Paris", "1/1/2000"]],
    people := some [["UID", "First Name", "Last Name", "Origin"], ["U1", "A", "B", "Atlantis"]],
    peopleAtEvents := some [["UID", "Acronym"], ["U1", "E1"]] }

/-- A document whose only person declares the origin `constructor`, the name of a member
that every object inherits from `Object.prototype`. -/
def Example.inheritedOriginDoc : Sheets :=
  { locations := some [["Place", "Lat", "Lng"], ["Paris", "48.85", "2.35"]],
    organisers := none,
    events := some [["Acronym", "Location", "Start"], ["E1", "Paris", "1/1/2000"]],
    people := some [["UID", "First Name", "Last Name", "Origin"],
      ["U1", "A", "B", "constructor"]],
    peopleAtEvents := some [["UID", "Acronym"], ["U1", "E1"]] }

/-- A document whose only person declares an origin written with a `|`. -/
def Example.barOriginDoc : Sheets :=
  { locations := some [["Place", "Lat", "Lng"], ["Paris", "48.85", "2.35"]],
    organisers := none,
    events := some [["Acronym", "Location", "Start"], ["E1", "Paris", "1/1/2000"]],
    people := some [["UID", "First Name", "Last Name", "Origin"], ["U1", "A", "B", "A|B"]],
    peopleAtEvents := some [["UID", "Acronym"], ["U1", "E1"]] }

/-- An event at Oslo with one delegate, from Rome. -/
def Example.romeDelegates : Event :=
  { oid := 0, fields := [("Acronym", "E5"), ("Location", "Oslo")],
    countries := [("Rome", { name := "Rome", eventID := some "E5", delegates := ["U2"] })],
    filtered := true, startTime := .negInfinity, location := "Oslo", organiser := none,
    shownOnMap := false, cellIndex := none }

/-- A host whose `RegExp` compiles the sources of the fragment and throws on every other
source. -/
def Example.globHost : Host :=
  { dateParse := Example.host.dateParse,
    regExp := fun source =>
      (RegExp.parse (jsUnits source)).map
        (fun terms label => RegExp.search terms (jsUnits label)) }

/-- An event without organiser whose acronym is `acronym`. -/
def Example.labelled (acronym : String) : Event :=
  { oid := 0, fields := [("Acronym", acronym)], countries := [], filtered := true,
    startTime := .negInfinity, location := "", organiser := none, shownOnMap := false,
    cellIndex := none }

/-- The filter inputs with the name pattern `pattern` and nothing else. -/
def Example.nameFilter (pattern : String) : FilterInput :=
  { eventPattern := pattern, startTime := 0, finishTime := 0, locationPattern := "",
    originPattern := "" }

/-! # Theorems -/

/-! ## Hexadecimal strings -/

theorem fixedDigits_length (k n : Nat) : (fixedDigits k n).length = k := by
  induction k generalizing n with
  | zero => rfl
  | succ k ih => simp [fixedDigits, ih]

theorem fixedDigits_zero (k : Nat) : fixedDigits k 0 = List.replicate k '0' := by
  induction k with
  | zero => rfl
  | succ k ih =>
    simp only [fixedDigits, Nat.zero_div, Nat.zero_mod, ih]
    rw [List.replicate_succ']
    rfl

theorem toDigitsCore_fixed (k : Nat) :
    ∀ (fuel n : Nat) (ds : List Char), n < fuel → n < 16 ^ (k + 1) →
      ∃ pre : List Char, Nat.toDigitsCore 16 fuel n ds = pre ++ ds ∧ pre.length ≤ k + 1 ∧
        List.replicate (k + 1 - pre.length) '0' ++ pre = fixedDigits (k + 1) n := by
  induction k with
  | zero =>
    intro fuel n ds hf hn
    obtain ⟨fuel, rfl⟩ : ∃ f, fuel = f + 1 := ⟨fuel - 1, by omega⟩
    have h0 : n / 16 = 0 := by omega
    refine ⟨[Nat.digitChar (n % 16)], ?_, by simp, ?_⟩
    · simp [Nat.toDigitsCore, h0]
    · simp [fixedDigits]
  | succ k ih =>
    intro fuel n ds hf hn
    obtain ⟨fuel, rfl⟩ : ∃ f, fuel = f + 1 := ⟨fuel - 1, by omega⟩
    by_cases h0 : n / 16 = 0
    · refine ⟨[Nat.digitChar (n % 16)], ?_, by simp, ?_⟩
      · simp [Nat.toDigitsCore, h0]
      · have : fixedDigits (k + 1 + 1) n = fixedDigits (k + 1) 0 ++ [Nat.digitChar (n % 16)] := by
          rw [fixedDigits, h0]
        rw [this, fixedDigits_zero]
        simp
    · have hlt : n / 16 < 16 ^ (k + 1) := by
        rw [Nat.div_lt_iff_lt_mul (by norm_num)]
        calc n < 16 ^ (k + 1 + 1) := hn
          _ = 16 ^ (k + 1) * 16 := by ring
      have hfuel : n / 16 < fuel := by omega
      obtain ⟨pre, hpre, hlen, hfix⟩ := ih fuel (n / 16) (Nat.digitChar (n % 16) :: ds) hfuel hlt
      refine ⟨pre ++ [Nat.digitChar (n % 16)], ?_, by simp; omega, ?_⟩
      · simp [Nat.toDigitsCore, h0, hpre]
      · rw [fixedDigits, ← hfix]
        simp

theorem substrLast_hex (n : Nat) (h : n < 16 ^ 6) :
    substrLast 6 ("000000".toList ++ Nat.toDigits 16 n) = fixedDigits 6 n := by
  obtain ⟨pre, hpre, hlen, hfix⟩ := toDigitsCore_fixed 5 (n + 1) n [] (by omega) h
  rw [Nat.toDigits, hpre, ← hfix]
  have h6 : "000000".toList = List.replicate pre.length '0' ++ List.replicate (6 - pre.length) '0' := by
    rw [← List.replicate_add]
    have : pre.length + (6 - pre.length) = 6 := by omega
    rw [this]; rfl
  rw [h6]
  simp [substrLast]
  have : pre.length + (6 - pre.length) + pre.length - 6 = pre.length := by omega
  rw [this, List.replicate_add, List.append_assoc]
  exact List.drop_left' (by simp)

theorem fixedDigits_six (n : Nat) :
    '#' :: fixedDigits 6 n = (Spec.hexColor n).data := by
  simp only [fixedDigits, Spec.hexColor, List.nil_append, List.cons_append, List.singleton_append,
    Nat.div_div_eq_div_mul]
  norm_num

theorem colorString_eq (R G B : Nat) (hR : R ≤ 255) (hG : G ≤ 255) (hB : B ≤ 255) :
    String.mk ('#' :: substrLast 6 ("000000".toList ++
      toString16 (Location.colorNumber [(R : Int), (G : Int), (B : Int)]))) =
    Spec.hexColor (R * 65536 + G * 256 + B) := by
  have hnum : Location.colorNumber [(R : Int), (G : Int), (B : Int)] =
      ((R * 65536 + G * 256 + B : Nat) : Int) := by
    simp [Location.colorNumber]; ring
  have hlt : R * 65536 + G * 256 + B < 16 ^ 6 := by norm_num; omega
  rw [hnum, toString16, if_neg (by omega), Int.natAbs_ofNat, substrLast_hex _ hlt, fixedDigits_six]

theorem rowChannels (row : List Int) (hrow : row ∈ Location.colorTable) (t : Nat) (ht : t ≤ 255) :
    ∃ R G B : Nat, R ≤ 255 ∧ G ≤ 255 ∧ B ≤ 255 ∧
      row.map (Location.shadeChannel (t : Int)) = [(R : Int), (G : Int), (B : Int)] := by
  simp only [Location.colorTable, List.mem_cons, List.mem_singleton, List.not_mem_nil,
    or_false] at hrow
  rcases hrow with h | h | h | h | h | h <;> subst h
  · exact ⟨255, 0, 255 - t, by omega, by omega, by omega, by simp [Location.shadeChannel]; omega⟩
  · exact ⟨255, t, 0, by omega, by omega, by omega, by simp [Location.shadeChannel]⟩
  · exact ⟨255 - t, 255, 0, by omega, by omega, by omega, by simp [Location.shadeChannel]; omega⟩
  · exact ⟨0, 255, t, by omega, by omega, by omega, by simp [Location.shadeChannel]⟩
  · exact ⟨0, 255 - t, 255, by omega, by omega, by omega, by simp [Location.shadeChannel]; omega⟩
  · exact ⟨t, 0, 255, by omega, by omega, by omega, by simp [Location.shadeChannel]⟩

theorem getColorOfScale_nat (n : Nat) :
    ∃ row, Location.colorTable.get? (n / 256 % 6) = some row ∧
      Location.colorTable.getD (n / 256 % 6) [] = row ∧
      row ∈ Location.colorTable ∧
      Location.getColorOfScale (n : Int) =
        some (String.mk ('#' :: substrLast 6 ("000000".toList ++
          toString16 (Location.colorNumber (row.map (Location.shadeChannel ((n % 256 : Nat) : Int))))))) := by
  have hk : n / 256 % 6 < Location.colorTable.length := by
    simp [Location.colorTable]; omega
  have hsect : jsRem (Int.fdiv (n : Int) 256) 6 = ((n / 256 % 6 : Nat) : Int) := by
    rw [jsRem, Int.fdiv_eq_ediv _ (by norm_num), Int.tmod_eq_emod (by positivity) (by norm_num)]
    norm_cast
  have hshade : jsRem (n : Int) 256 = ((n % 256 : Nat) : Int) := by
    rw [jsRem, Int.tmod_eq_emod (by positivity) (by norm_num)]
    norm_cast
  refine ⟨Location.colorTable.get ⟨_, hk⟩, List.get?_eq_get hk, ?_, List.get_mem _ _ _, ?_⟩
  · simp [List.getD_eq_getElem?_getD, List.getElem?_eq_getElem hk]
  · unfold Location.getColorOfScale
    simp only [hsect, hshade]
    rw [if_neg (by omega)]
    simp only [Int.toNat_ofNat, List.get?_eq_get hk]

/-! ## Rounding to a double -/

theorem roundHalfEven_ge_floor (x : ℚ) : ⌊x⌋ ≤ roundHalfEven x := by
  unfold roundHalfEven
  simp only
  split_ifs <;> omega

theorem roundHalfEven_le_floor_succ (x : ℚ) : roundHalfEven x ≤ ⌊x⌋ + 1 := by
  unfold roundHalfEven
  simp only
  split_ifs <;> omega

theorem roundHalfEven_of_int (n : Int) : roundHalfEven (n : ℚ) = n := by
  unfold roundHalfEven
  simp

theorem roundHalfEven_ge (x : ℚ) (m : Int) (h : (m : ℚ) ≤ x) : m ≤ roundHalfEven x :=
  le_trans (Int.le_floor.mpr h) (roundHalfEven_ge_floor x)

theorem roundHalfEven_le (x : ℚ) (m : Int) (h : x ≤ (m : ℚ)) : roundHalfEven x ≤ m := by
  rcases eq_or_lt_of_le h with e | hlt
  · rw [e, roundHalfEven_of_int]
  · have h1 : ⌊x⌋ < m := Int.floor_lt.mpr hlt
    have h2 := roundHalfEven_le_floor_succ x
    omega

theorem jsDouble_of_fractions :
    jsDouble (1 / 10) = 3602879701896397 / 36028797018963968 ∧
    jsDouble (1 / 3) = 6004799503160661 / 18014398509481984 ∧
    jsDouble (4503599627370497 / 4503599627370496 + 1 / 9007199254740992) =
      4503599627370498 / 4503599627370496 ∧
    jsDouble (9007199254740993) = 9007199254740992 ∧
    jsDouble (-(1 / 10)) = -(3602879701896397 / 36028797018963968) := by
  refine ⟨by decide!, by decide!, by decide!, by decide!, by decide!⟩

theorem jsDouble_zero : jsDouble 0 = 0 := by
  unfold jsDouble
  simp

theorem jsDouble_of_ne (x : ℚ) (h : x ≠ 0) :
    jsDouble x =
      roundHalfEven (x / 2 ^ (binaryExponent |x| - 52)) * 2 ^ (binaryExponent |x| - 52) := by
  unfold jsDouble
  rw [if_neg h]

theorem jsDouble_nonneg (x : ℚ) (h : 0 ≤ x) : 0 ≤ jsDouble x := by
  by_cases h0 : x = 0
  · rw [h0, jsDouble_zero]
  · rw [jsDouble_of_ne x h0]
    apply mul_nonneg
    · have h1 : (0 : Int) ≤ roundHalfEven (x / 2 ^ (binaryExponent |x| - 52)) :=
        roundHalfEven_ge _ 0 (by
          rw [Int.cast_zero]
          exact div_nonneg h (le_of_lt (zpow_pos (by norm_num) _)))
      exact_mod_cast h1
    · exact le_of_lt (zpow_pos (by norm_num) _)

theorem binaryDigitsLoop_zero (fuel : Nat) : binaryDigitsLoop fuel 0 = 0 := by
  cases fuel <;> simp [binaryDigitsLoop]

theorem binaryDigitsLoop_spec (fuel : Nat) : ∀ n : Nat, n ≤ fuel → 0 < n →
    ∃ d, binaryDigitsLoop fuel n = d + 1 ∧ 2 ^ d ≤ n ∧ n < 2 ^ (d + 1) := by
  induction fuel with
  | zero =>
    intro n h1 h2
    omega
  | succ fuel ih =>
    intro n h1 h2
    have hn : n ≠ 0 := by omega
    simp only [binaryDigitsLoop, hn, if_false]
    by_cases h : n / 2 = 0
    · rw [h, binaryDigitsLoop_zero]
      refine ⟨0, rfl, ?_, ?_⟩ <;> omega
    · obtain ⟨d, hd, h3, h4⟩ := ih (n / 2) (by omega) (by omega)
      refine ⟨d + 1, by rw [hd], ?_, ?_⟩
      · rw [pow_succ]; omega
      · rw [pow_succ]; omega

theorem binaryDigits_spec (n : Nat) (h : 0 < n) :
    ∃ d, binaryDigits n = d + 1 ∧ 2 ^ d ≤ n ∧ n < 2 ^ (d + 1) :=
  binaryDigitsLoop_spec n n (le_refl n) h

theorem binaryExponent_le (x : ℚ) (hx : 0 < x) : (2 : ℚ) ^ binaryExponent x ≤ x := by
  unfold binaryExponent
  simp only
  split
  · assumption
  · have hnum : 0 < x.num := Rat.num_pos.mpr hx
    have ha : 0 < x.num.natAbs := Int.natAbs_pos.mpr (ne_of_gt hnum)
    obtain ⟨da, hda, ha1, _⟩ := binaryDigits_spec x.num.natAbs ha
    obtain ⟨db, hdb, _, hb2⟩ := binaryDigits_spec x.den x.den_pos
    rw [hda, hdb]
    have hk : ((da + 1 : Nat) : Int) - ((db + 1 : Nat) : Int) - 1 = (da : Int) - ((db + 1 : Nat) : Int) := by
      push_cast; ring
    rw [hk, zpow_sub₀ (by norm_num : (2 : ℚ) ≠ 0), zpow_natCast, zpow_natCast]
    have hxeq : x = (x.num.natAbs : ℚ) / (x.den : ℚ) := by
      have h1 : ((x.num.natAbs : Int) : ℚ) = (x.num : ℚ) :=
        congrArg Int.cast (Int.natAbs_of_nonneg (le_of_lt hnum))
      have h2 : ((x.num.natAbs : Nat) : ℚ) = ((x.num.natAbs : Int) : ℚ) :=
        (Int.cast_natCast _).symm
      rw [h2, h1]
      exact (Rat.num_div_den x).symm
    rw [hxeq]
    have hb : (0 : ℚ) < (x.den : ℚ) := by exact_mod_cast x.den_pos
    have ha' : ((2 : ℚ) ^ da) ≤ (x.num.natAbs : ℚ) := by exact_mod_cast ha1
    have hb' : (x.den : ℚ) ≤ (2 : ℚ) ^ (db + 1) := by exact_mod_cast le_of_lt hb2
    exact div_le_div₀ (by positivity) ha' hb hb'

theorem binaryExponent_le_two (x : ℚ) (h0 : 0 < x) (h8 : x < 8) : binaryExponent x ≤ 2 := by
  by_contra hcon
  have h3 : (3 : Int) ≤ binaryExponent x := by omega
  have h1 : (2 : ℚ) ^ (3 : Int) ≤ (2 : ℚ) ^ binaryExponent x :=
    zpow_le_zpow_right₀ (by norm_num) h3
  have h2 := binaryExponent_le x h0
  have : (2 : ℚ) ^ (3 : Int) = 8 := by norm_num
  linarith

/-- The scale that `getColor` computes from a double product `x` differs from the exact
`floor(x * 256)` by at most one. -/
theorem jsDouble_scale_bounds (x : ℚ) (h0 : 0 ≤ x) (h8 : x < 8) :
    ⌊x * 256⌋ ≤ ⌊jsDouble x * 256⌋ ∧ ⌊jsDouble x * 256⌋ ≤ ⌊x * 256⌋ + 1 := by
  by_cases hx : x = 0
  · rw [hx, jsDouble_zero]
    omega
  have hpos : 0 < x := lt_of_le_of_ne h0 (Ne.symm hx)
  have habs : |x| = x := abs_of_pos hpos
  have he : binaryExponent x ≤ 2 := binaryExponent_le_two x hpos h8
  rw [jsDouble_of_ne x hx, habs]
  generalize binaryExponent x = e at he
  have hulp : (0 : ℚ) < 2 ^ (e - 52) := zpow_pos (by norm_num) _
  obtain ⟨n, hn⟩ := Int.eq_ofNat_of_zero_le (show (0 : Int) ≤ 44 - e by omega)
  have hN : ((2 ^ n : Nat) : ℚ) * 2 ^ (e - 52) = 1 / 256 := by
    have h1 : ((2 ^ n : Nat) : ℚ) = (2 : ℚ) ^ (44 - e) := by
      rw [hn]
      push_cast
      rw [zpow_natCast]
    rw [h1, ← zpow_add₀ (by norm_num : (2 : ℚ) ≠ 0)]
    have h2 : 44 - e + (e - 52) = -8 := by ring
    rw [h2]
    norm_num
  generalize (2 : ℚ) ^ (e - 52) = ulp at hulp hN
  have hT1 : ((⌊x * 256⌋ : Int) : ℚ) ≤ x * 256 := Int.floor_le _
  have hT2 : x * 256 < ((⌊x * 256⌋ : Int) : ℚ) + 1 := Int.lt_floor_add_one _
  generalize ⌊x * 256⌋ = T at hT1 hT2
  have key1 : T * (2 ^ n : Nat) ≤ roundHalfEven (x / ulp) := by
    apply roundHalfEven_ge
    rw [le_div_iff₀ hulp]
    push_cast
    have : (T : ℚ) * 2 ^ n * ulp = T * (((2 ^ n : Nat) : ℚ) * ulp) := by push_cast; ring
    rw [this, hN]
    linarith
  have key2 : roundHalfEven (x / ulp) ≤ (T + 1) * (2 ^ n : Nat) := by
    apply roundHalfEven_le
    rw [div_le_iff₀ hulp]
    push_cast
    have : ((T : ℚ) + 1) * 2 ^ n * ulp = (T + 1) * (((2 ^ n : Nat) : ℚ) * ulp) := by
      push_cast; ring
    rw [this, hN]
    linarith
  generalize roundHalfEven (x / ulp) = m at key1 key2
  have k1 : ((T * (2 ^ n : Nat) : Int) : ℚ) ≤ (m : ℚ) := by exact_mod_cast key1
  have k2 : (m : ℚ) ≤ (((T + 1) * (2 ^ n : Nat) : Int) : ℚ) := by exact_mod_cast key2
  push_cast at k1 k2
  have hN' : (2 : ℚ) ^ n * ulp = 1 / 256 := by
    rw [← hN]; push_cast; rfl
  constructor
  · apply Int.le_floor.mpr
    have : (T : ℚ) * 2 ^ n * ulp ≤ m * ulp := mul_le_mul_of_nonneg_right k1 (le_of_lt hulp)
    have e1 : (T : ℚ) * 2 ^ n * ulp = T * (2 ^ n * ulp) := by ring
    rw [e1, hN'] at this
    linarith
  · have : (m : ℚ) * ulp ≤ ((T : ℚ) + 1) * 2 ^ n * ulp :=
      mul_le_mul_of_nonneg_right k2 (le_of_lt hulp)
    have e1 : ((T : ℚ) + 1) * 2 ^ n * ulp = (T + 1) * (2 ^ n * ulp) := by ring
    rw [e1, hN'] at this
    have h3 : ((⌊(m : ℚ) * ulp * 256⌋ : Int) : ℚ) ≤ (m : ℚ) * ulp * 256 := Int.floor_le _
    have h4 : ((⌊(m : ℚ) * ulp * 256⌋ : Int) : ℚ) ≤ ((T + 1 : Int) : ℚ) := by
      push_cast
      linarith
    exact_mod_cast h4

/-! ## The colour of a ratio -/

theorem getColor_of_nonneg (r : ℚ) (h0 : 0 ≤ r) :
    ∃ R G B : Nat,
      Spec.channelsOfScale ⌊jsDouble (jsDouble r * 6) * 256⌋ =
        [(R : Int), (G : Int), (B : Int)] ∧
      R ≤ 255 ∧ G ≤ 255 ∧ B ≤ 255 ∧
      Location.getColor (some r) = some (Spec.hexColor (R * 65536 + G * 256 + B)) := by
  have hx : 0 ≤ jsDouble (jsDouble r * 6) * 256 :=
    mul_nonneg (jsDouble_nonneg _ (mul_nonneg (jsDouble_nonneg r h0) (by norm_num)))
      (by norm_num)
  have hs0 : 0 ≤ ⌊jsDouble (jsDouble r * 6) * 256⌋ := Int.floor_nonneg.mpr hx
  obtain ⟨n, hn⟩ := Int.eq_ofNat_of_zero_le hs0
  obtain ⟨row, _, hgetD, hmem, hcol⟩ := getColorOfScale_nat n
  obtain ⟨R, G, B, hR, hG, hB, hrow⟩ := rowChannels row hmem (n % 256) (by omega)
  refine ⟨R, G, B, ?_, hR, hG, hB, ?_⟩
  · unfold Spec.channelsOfScale
    simp only [hn]
    have h1 : ((n : Int) / 256 % 6).toNat = n / 256 % 6 := by
      norm_cast
    have h2 : (n : Int) % 256 = ((n % 256 : Nat) : Int) := by norm_cast
    rw [h1, h2, hgetD, ← hrow]
    rfl
  · rw [Location.getColor, hn, hcol, hrow, colorString_eq R G B hR hG hB]

/-- C8, counterexample. The ratio `0.6686197916666666`, a double between 0 and 1 (its exact
value is `6022391689205077 / 2^53`), has `floor(r * 1536) = 1026`, so the reference mapping
gives the channels 0, 253, 255 and the colour `#00fdff`; the product `r * 6`, which lies
below `1027 / 256` by less than half the distance between two doubles, is rounded to
`1027 / 256`, so `getColor` computes the scale 1027 and returns `#00fcff`. -/
theorem getColor_rounds_product :
    (0 ≤ Example.ratio ∧ Example.ratio ≤ 1) ∧
    jsDouble Example.ratio = Example.ratio ∧
    ⌊Example.ratio * 1536⌋ = 1026 ∧
    Spec.referenceChannels Example.ratio = [0, 253, 255] ∧
    Spec.hexColor (0 * 65536 + 253 * 256 + 255) = "#00fdff" ∧
    jsDouble (Example.ratio * 6) = 1027 / 256 ∧
    Location.getColor (some Example.ratio) = some "#00fcff" := by
  refine ⟨⟨by decide!, by decide!⟩, by decide!, by decide!, by decide!, by decide!, by decide!,
    by decide!⟩

/-- C8 (as amended). For every ratio `r` with `0 ≤ r ≤ 1` that is a double, `getColor(r)`
returns the colour of the reference mapping at the scale `floor(d * 256)`, where `d` is the
double nearest to `r * 6`: the channel triple `R, G, B` of that scale (row `section` of the
table with `-1` read as `255 - shade` and `1` as `shade`) has every channel in `0..255`, and
the result is `#` followed by exactly six hexadecimal digits that encode
`R*65536 + G*256 + B`.  That scale is `floor(r * 1536)` or the next integer, and it is
`floor(r * 1536)`, the scale of the specification, whenever `r * 6` is itself a double.  The
result is a function of `r` alone. -/
theorem getColor_reference (r : ℚ) (hr : 0 ≤ r ∧ r ≤ 1) (hdouble : jsDouble r = r) :
    ∃ R G B : Nat,
      Spec.channelsOfScale ⌊jsDouble (r * 6) * 256⌋ = [(R : Int), (G : Int), (B : Int)] ∧
      R ≤ 255 ∧ G ≤ 255 ∧ B ≤ 255 ∧
      Location.getColor (some r) = some (Spec.hexColor (R * 65536 + G * 256 + B)) ∧
      ⌊r * 1536⌋ ≤ ⌊jsDouble (r * 6) * 256⌋ ∧ ⌊jsDouble (r * 6) * 256⌋ ≤ ⌊r * 1536⌋ + 1 ∧
      (jsDouble (r * 6) = r * 6 →
        Spec.channelsOfScale ⌊jsDouble (r * 6) * 256⌋ = Spec.referenceChannels r) := by
  obtain ⟨R, G, B, h1, hR, hG, hB, h2⟩ := getColor_of_nonneg r hr.1
  rw [hdouble] at h1
  have hb := jsDouble_scale_bounds (r * 6) (by linarith [hr.1]) (by linarith [hr.2])
  have he : r * 6 * 256 = r * 1536 := by ring
  rw [he] at hb
  refine ⟨R, G, B, h1, hR, hG, hB, h2, hb.1, hb.2, ?_⟩
  intro h
  rw [h, he]
  rfl

/-- Witness of C8 at the ratio `1/2`, whose product by 6 is the double 3: the scale is 768
and the colour `#00ff00`. -/
theorem getColor_reference_witness :
    (0 ≤ (1 / 2 : ℚ) ∧ (1 / 2 : ℚ) ≤ 1) ∧
    jsDouble (1 / 2) = 1 / 2 ∧
    Location.getColor (some (1 / 2)) = some "#00ff00" ∧
    ∃ R G B : Nat,
      Spec.channelsOfScale ⌊jsDouble ((1 / 2 : ℚ) * 6) * 256⌋ =
        [(R : Int), (G : Int), (B : Int)] ∧
      R ≤ 255 ∧ G ≤ 255 ∧ B ≤ 255 ∧
      Location.getColor (some (1 / 2)) = some (Spec.hexColor (R * 65536 + G * 256 + B)) ∧
      ⌊(1 / 2 : ℚ) * 1536⌋ ≤ ⌊jsDouble ((1 / 2 : ℚ) * 6) * 256⌋ ∧
      ⌊jsDouble ((1 / 2 : ℚ) * 6) * 256⌋ ≤ ⌊(1 / 2 : ℚ) * 1536⌋ + 1 ∧
      (jsDouble ((1 / 2 : ℚ) * 6) = (1 / 2 : ℚ) * 6 →
        Spec.channelsOfScale ⌊jsDouble ((1 / 2 : ℚ) * 6) * 256⌋ =
          Spec.referenceChannels (1 / 2)) :=
  ⟨by norm_num, by decide!, by decide!,
    getColor_reference (1 / 2) (by norm_num) (by decide!)⟩

/-! ## Dictionaries -/

theorem Dict.get_set_self {β : Type} (d : Dict β) (k : String) (v : β) :
    (d.set k v).get k = some v := by
  induction d with
  | nil => simp [Dict.set, Dict.get]
  | cons hd tl ih =>
    obtain ⟨k', w⟩ := hd
    by_cases h : k' = k
    · simp [Dict.set, Dict.get, h]
    · simp [Dict.set, Dict.get, h, ih]

theorem Dict.get_set_ne {β : Type} (d : Dict β) (k k' : String) (v : β) (h : k' ≠ k) :
    (d.set k v).get k' = d.get k' := by
  induction d with
  | nil => simp [Dict.set, Dict.get, Ne.symm h]
  | cons hd tl ih =>
    obtain ⟨k0, w⟩ := hd
    by_cases h0 : k0 = k
    · subst h0
      simp [Dict.set, Dict.get, Ne.symm h]
    · by_cases h1 : k0 = k'
      · subst h1
        simp [Dict.set, Dict.get, h0]
      · simp [Dict.set, Dict.get, h0, h1, ih]

theorem Dict.get_set {β : Type} (d : Dict β) (k k' : String) (v : β) :
    (d.set k v).get k' = if k' = k then some v else d.get k' := by
  by_cases h : k' = k
  · subst h; simp [Dict.get_set_self]
  · simp [h, Dict.get_set_ne d k k' v h]

theorem Dict.get_eq_none_iff {β : Type} (d : Dict β) (k : String) :
    d.get k = none ↔ k ∉ d.keys := by
  induction d with
  | nil => simp [Dict.get, Dict.keys]
  | cons hd tl ih =>
    obtain ⟨k0, w⟩ := hd
    by_cases h0 : k0 = k
    · simp [Dict.get, Dict.keys, h0]
    · simp only [Dict.get, h0, if_false, Dict.keys, List.map_cons, List.mem_cons, not_or]
      simp only [Dict.keys] at ih
      rw [ih]
      constructor
      · intro h; exact ⟨fun e => h0 e.symm, h⟩
      · intro h; exact h.2

theorem Dict.keys_set_of_mem {β : Type} (d : Dict β) (k : String) (v : β) (h : k ∈ d.keys) :
    (d.set k v).keys = d.keys := by
  induction d with
  | nil => simp [Dict.keys] at h
  | cons hd tl ih =>
    obtain ⟨k0, w⟩ := hd
    by_cases h0 : k0 = k
    · simp [Dict.set, Dict.keys, h0]
    · have : k ∈ Dict.keys tl := by
        simp only [Dict.keys, List.map_cons, List.mem_cons] at h
        rcases h with h | h
        · exact absurd h.symm h0
        · exact h
      simp only [Dict.set, h0, if_false, Dict.keys, List.map_cons]
      simp only [Dict.keys] at ih
      rw [ih this]

theorem Dict.keys_set_of_not_mem {β : Type} (d : Dict β) (k : String) (v : β) (h : k ∉ d.keys) :
    (d.set k v).keys = d.keys ++ [k] := by
  induction d with
  | nil => simp [Dict.set, Dict.keys]
  | cons hd tl ih =>
    obtain ⟨k0, w⟩ := hd
    simp only [Dict.keys, List.map_cons, List.mem_cons, not_or] at h
    have h0 : ¬ k0 = k := fun e => h.1 e.symm
    simp only [Dict.set, h0, if_false, Dict.keys, List.map_cons, List.cons_append]
    simp only [Dict.keys] at ih
    rw [ih h.2]

theorem Dict.get_isSome_iff {β : Type} (d : Dict β) (k : String) :
    (d.get k).isSome ↔ k ∈ d.keys := by
  rw [← not_iff_not, ← Dict.get_eq_none_iff]
  cases d.get k <;> simp

/-! ## `Location.prototype.setup` -/

theorem CountryLine.new_colorOf (origin place : String) (s : State) (p : String) :
    (CountryLine.new origin place s).colorOf p = s.colorOf p := by
  unfold CountryLine.new State.colorOf
  simp only
  split
  · split <;> rfl
  · rename_i location hloc
    by_cases hp : p = place
    · subst hp
      split at hloc <;> simp_all [Dict.get_set_self]
    · split <;> simp [Dict.get_set_ne _ _ _ _ hp]

theorem foldl_CountryLine_new_colorOf (origins : List String) (place : String) (s : State)
    (p : String) :
    (origins.foldl (fun acc origin => CountryLine.new origin place acc) s).colorOf p =
      s.colorOf p := by
  induction origins generalizing s with
  | nil => rfl
  | cons o rest ih => rw [List.foldl_cons, ih, CountryLine.new_colorOf]

theorem Location.setup_of_color (s : State) (place : String) (this : Location) (color : String)
    (hthis : s.locations.get place = some this)
    (hcolor : Location.setupColor this s.locationsCount = some color) :
    (Location.setup place s).thrown = none ∧
      (Location.setup place s).state.colorOf place = some color := by
  unfold Location.setup
  simp only [hthis, hcolor, true_and]
  split
  · rw [foldl_CountryLine_new_colorOf]
    simp [State.colorOf, Dict.get_set_self]
  · simp [State.colorOf, Dict.get_set_self]

theorem Location.setup_of_throw (s : State) (place : String) (this : Location)
    (hthis : s.locations.get place = some this)
    (hcolor : Location.setupColor this s.locationsCount = none) :
    Location.setup place s = { state := s, thrown := some "TypeError" } := by
  unfold Location.setup
  simp only [hthis, hcolor]

theorem getColor_isSome_of_nonneg (r : ℚ) (h0 : 0 ≤ r) : (Location.getColor (some r)).isSome := by
  obtain ⟨R, G, B, _, _, _, _, h⟩ := getColor_of_nonneg r h0
  rw [h]; rfl

/-- C9. `Location.prototype.setup` gives an event-bearing location its explicit `Color` when
that is not blank; otherwise, for rank `hasEvent = rank >= 1` among `locationsCount >= 2`
locations, the colour `getColor((rank-1)/(locationsCount-1))`, which is defined.  With exactly
two event-bearing locations and no `Color`, the location found first (rank 1) is coloured
`getColor(0)` and the second (rank 2) `getColor(1)`.  In every case the colour without a
`Color` is the result of `getColor` on the ratio, when `getColor` returns one. -/
theorem setup_color (s : State) (place : String) (this : Location)
    (hthis : s.locations.get place = some this) :
    (isBlank (this.fields.get "Color") = false →
      (Location.setup place s).thrown = none ∧
      (Location.setup place s).state.colorOf place = this.fields.get "Color") ∧
    (isBlank (this.fields.get "Color") = true →
      ∀ rank : Nat, this.hasEvent = some rank → 1 ≤ rank → 2 ≤ s.locationsCount →
        (Location.getColor (some (((rank : ℚ) - 1) / ((s.locationsCount : ℚ) - 1)))).isSome ∧
        (Location.setup place s).thrown = none ∧
        (Location.setup place s).state.colorOf place =
          Location.getColor (some (((rank : ℚ) - 1) / ((s.locationsCount : ℚ) - 1)))) ∧
    (isBlank (this.fields.get "Color") = true → s.locationsCount = 2 →
      (this.hasEvent = some 1 →
        (Location.setup place s).state.colorOf place = Location.getColor (some 0)) ∧
      (this.hasEvent = some 2 →
        (Location.setup place s).state.colorOf place = Location.getColor (some 1))) ∧
    (isBlank (this.fields.get "Color") = true →
      ∀ color, Location.getColor (Location.rankRatio this.hasEvent s.locationsCount) = some color →
        (Location.setup place s).thrown = none ∧
        (Location.setup place s).state.colorOf place = some color) := by
  have key : ∀ rank : Nat, isBlank (this.fields.get "Color") = true → this.hasEvent = some rank →
      1 ≤ rank → 2 ≤ s.locationsCount →
      (Location.getColor (some (((rank : ℚ) - 1) / ((s.locationsCount : ℚ) - 1)))).isSome ∧
      (Location.setup place s).thrown = none ∧
      (Location.setup place s).state.colorOf place =
        Location.getColor (some (((rank : ℚ) - 1) / ((s.locationsCount : ℚ) - 1))) := by
    intro rank hblank hrank h1 h2
    have hr : (0 : ℚ) ≤ ((rank : ℚ) - 1) / ((s.locationsCount : ℚ) - 1) := by
      apply div_nonneg
      · have : (1 : ℚ) ≤ rank := by exact_mod_cast h1
        linarith
      · have : (2 : ℚ) ≤ s.locationsCount := by exact_mod_cast h2
        linarith
    have hsome := getColor_isSome_of_nonneg _ hr
    obtain ⟨c, hc⟩ := Option.isSome_iff_exists.mp hsome
    have hsetup : Location.setupColor this s.locationsCount = some c := by
      unfold Location.setupColor Location.rankRatio jsDivide
      have hne : ((s.locationsCount : Int) - 1) ≠ 0 := by omega
      simp only [hblank, hrank, hne, if_false, Bool.not_true]
      rw [← hc]
      push_cast
      rfl
    obtain ⟨ht, hcol⟩ := Location.setup_of_color s place this c hthis hsetup
    exact ⟨hsome, ht, by rw [hcol, hc]⟩
  refine ⟨?_, fun hb rank hr h1 h2 => key rank hb hr h1 h2, ?_, ?_⟩
  rotate_right
  · intro hblank color hcolor
    exact Location.setup_of_color s place this color hthis (by
      unfold Location.setupColor
      simp only [hblank, Bool.not_true]
      exact hcolor)
  · intro hblank
    have hsetup : Location.setupColor this s.locationsCount = this.fields.get "Color" := by
      unfold Location.setupColor
      simp [hblank]
    cases hc : this.fields.get "Color" with
    | none => simp [isBlank, hc] at hblank
    | some c =>
      rw [hc] at hsetup
      exact Location.setup_of_color s place this c hthis hsetup
  · intro hblank hcount
    constructor
    · intro h
      have := (key 1 hblank h (le_refl 1) (by omega)).2.2
      rw [this, hcount]; norm_num
    · intro h
      have := (key 2 hblank h (by omega) (by omega)).2.2
      rw [this, hcount]; norm_num

/-- Witness of C9. -/
theorem setup_color_witness :
    Example.twoSites.locations.get "Rome" = some (Example.site "Rome" 2) ∧
    (isBlank ((Example.site "Rome" 2).fields.get "Color") = true →
      Example.twoSites.locationsCount = 2 →
      (some 2 = some 2 →
        (Location.setup "Rome" Example.twoSites).state.colorOf "Rome" =
          Location.getColor (some 1))) :=
  ⟨by decide, fun hb hc h =>
    ((setup_color Example.twoSites "Rome" (Example.site "Rome" 2) (by decide)).2.2.1 hb hc).2 h⟩

theorem Location.setup_throws_of_single (s : State) (place : String) (this : Location)
    (hthis : s.locations.get place = some this)
    (hblank : isBlank (this.fields.get "Color") = true)
    (hcount : s.locationsCount = 1) :
    Location.setup place s = { state := s, thrown := some "TypeError" } := by
  apply Location.setup_of_throw s place this hthis
  unfold Location.setupColor Location.rankRatio jsDivide
  simp only [hblank, hcount, Bool.not_true]
  cases this.hasEvent <;> simp [Location.getColor]

/-- C10. The scenario of the specification (Paris, E1, U1) has exactly one event-bearing
location and no `Color`: the ratio is `0/0`, the table lookup in `getColor` gives `undefined`,
and `Event.initialise` ends with a `TypeError` instead of completing. -/
theorem initialise_throws_single_site :
    (Event.initialise (Load.sheets Example.host Example.parisDoc State.initial)).thrown =
      some "TypeError" := by
  decide!

theorem Param.scanHeaderFrom_requiredCount (requiredFields optionalFields : List String)
    (header : Row) (fieldIndex : Nat) (acc : HeaderScan) :
    (Param.scanHeaderFrom requiredFields optionalFields fieldIndex header acc).requiredCount =
      acc.requiredCount + header.countP (Param.countsAsRequired requiredFields) := by
  induction header generalizing fieldIndex acc with
  | nil => simp [Param.scanHeaderFrom]
  | cons c rest ih =>
    rw [Param.scanHeaderFrom, ih, List.countP_cons]
    unfold Param.headerStep Param.countsAsRequired
    by_cases h1 : Param.isFieldName c = true
    · by_cases h2 : c ∈ requiredFields
      · simp [h1, h2]; omega
      · by_cases h3 : c ∈ optionalFields <;> simp [h1, h2, h3]
    · simp [h1]

theorem Param.scanHeader_requiredCount (requiredFields optionalFields : List String)
    (header : Row) :
    (Param.scanHeader requiredFields optionalFields header).requiredCount =
      header.countP (Param.countsAsRequired requiredFields) := by
  rw [Param.scanHeader, Param.scanHeaderFrom_requiredCount]; simp

theorem countP_required_eq_sum (requiredFields : List String) (header : Row)
    (hnodup : requiredFields.Nodup)
    (hinit : ∀ f ∈ requiredFields, Param.isFieldName f = true) :
    header.countP (Param.countsAsRequired requiredFields) =
      (requiredFields.map (fun f => header.count f)).sum := by
  induction requiredFields with
  | nil => simp [Param.countsAsRequired]
  | cons f rest ih =>
    have hf : f ∉ rest := (List.nodup_cons.mp hnodup).1
    have hrest := ih (List.nodup_cons.mp hnodup).2 (fun g hg => hinit g (List.mem_cons_of_mem f hg))
    have hfinit := hinit f (List.mem_cons_self f rest)
    rw [List.map_cons, List.sum_cons, ← hrest]
    clear hrest ih hinit hnodup
    induction header with
    | nil => simp
    | cons c cs ihc =>
      rw [List.countP_cons, List.countP_cons, List.count_cons, ihc]
      by_cases hc : c = f
      · subst hc
        simp [Param.countsAsRequired, hfinit, hf]; omega
      · have hc' : (c == f) = false := by simpa using hc
        simp [Param.countsAsRequired, hc, hc']; omega

theorem sum_eq_length_iff (counts : List Nat) (hle : ∀ n ∈ counts, n ≤ 1) :
    counts.sum = counts.length ↔ ∀ n ∈ counts, n = 1 := by
  induction counts with
  | nil => simp
  | cons n rest ih =>
    have hn : n ≤ 1 := hle n (List.mem_cons_self n rest)
    have hrest := ih (fun m hm => hle m (List.mem_cons_of_mem n hm))
    have hsum : rest.sum ≤ rest.length := by
      clear ih hrest
      induction rest with
      | nil => simp
      | cons m ms ihm =>
        have hm : m ≤ 1 := hle m (by simp)
        have := ihm (fun k hk => hle k (by
          rcases List.mem_cons.mp hk with h | h
          · simp [h]
          · simp [h]))
        simp only [List.sum_cons, List.length_cons]; omega
    simp only [List.sum_cons, List.length_cons, List.mem_cons, forall_eq_or_imp]
    constructor
    · intro h
      have h1 : n = 1 := by omega
      exact ⟨h1, hrest.mp (by omega)⟩
    · rintro ⟨h1, h2⟩
      have := hrest.mpr h2
      omega

theorem Param.requiredCount_eq_iff (requiredFields optionalFields : List String) (header : Row)
    (hnodup : requiredFields.Nodup)
    (hinit : ∀ f ∈ requiredFields, Param.isFieldName f = true)
    (hhead : ∀ f ∈ requiredFields, header.count f ≤ 1) :
    (Param.scanHeader requiredFields optionalFields header).requiredCount = requiredFields.length ↔
      Spec.everyRequiredOnce requiredFields header := by
  rw [Param.scanHeader_requiredCount, countP_required_eq_sum requiredFields header hnodup hinit]
  have hlen : requiredFields.length = (requiredFields.map (fun f => header.count f)).length := by
    simp
  rw [hlen, sum_eq_length_iff _ (by simpa using hhead)]
  simp [Spec.everyRequiredOnce]

theorem Param.load_eq (cls : SheetClass) (header : Row) (rows : List Row) (s : State) :
    Param.load cls (some (header :: rows)) s =
      if Param.extracts cls header then Param.loadRows cls header rows s
      else Param.rejectSheet cls header s := by
  unfold Param.load Param.extracts Param.loadRows Param.rejectSheet
  rfl

/-- C5 (as amended). For a sheet class whose required field names are distinct and start with a
capital letter, `Param.load` hands the data rows to the constructor when its count of required
header cells equals the number of required fields, and records the `missing fields`
diagnostic otherwise.  That test holds whenever every required field name is present exactly
once in the header; and for a header in which no required field name occurs twice, it holds
if and only if every required field name is present exactly once, whatever the other columns
and the column order. -/
theorem load_extraction (cls : SheetClass) (header : Row) (rows : List Row) (s : State)
    (hnodup : cls.requiredFields.Nodup)
    (hinit : ∀ f ∈ cls.requiredFields, Param.isFieldName f = true) :
    (Param.load cls (some (header :: rows)) s =
      if Param.extracts cls header then Param.loadRows cls header rows s
      else Param.rejectSheet cls header s) ∧
    (Spec.everyRequiredOnce cls.requiredFields header → Param.extracts cls header) ∧
    ((∀ f ∈ cls.requiredFields, header.count f ≤ 1) →
      (Param.extracts cls header ↔ Spec.everyRequiredOnce cls.requiredFields header)) := by
  refine ⟨Param.load_eq cls header rows s, ?_, ?_⟩
  · intro h
    exact (Param.requiredCount_eq_iff cls.requiredFields cls.optionalFields header hnodup hinit
      (fun f hf => le_of_eq (h f hf))).mpr h
  · intro hhead
    exact Param.requiredCount_eq_iff cls.requiredFields cls.optionalFields header hnodup hinit hhead

/-- Witness of C5: the PeopleAtEvents sheet with an extra column. -/
theorem load_extraction_witness :
    (PeopleAtEvents.sheet.requiredFields.Nodup ∧
      ∀ f ∈ PeopleAtEvents.sheet.requiredFields, Param.isFieldName f = true) ∧
    (Spec.everyRequiredOnce PeopleAtEvents.sheet.requiredFields ["Note", "Acronym", "UID"] →
      Param.extracts PeopleAtEvents.sheet ["Note", "Acronym", "UID"]) :=
  ⟨⟨by decide, by decide⟩,
    (load_extraction PeopleAtEvents.sheet ["Note", "Acronym", "UID"] [] State.initial
      (by decide) (by decide)).2.1⟩

/-- C5, counterexample. The header `Place, Place, Place` of a Locations sheet lacks the required
fields `Lat` and `Lng` and holds `Place` three times, yet extraction succeeds: the data row is
turned into the Location `Rome` (the last of the three columns) and no `missing fields`
diagnostic is recorded. -/
theorem load_duplicate_required_field :
    ¬ (Param.extracts Location.sheet ["Place", "Place", "Place"] ↔
        Spec.everyRequiredOnce Location.sheet.requiredFields ["Place", "Place", "Place"]) ∧
    Param.load Location.sheet (some [["Place", "Place", "Place"], ["Paris", "Lyon", "Rome"]])
        State.initial =
      Param.loadRows Location.sheet ["Place", "Place", "Place"] [["Paris", "Lyon", "Rome"]]
        State.initial ∧
    (Param.load Location.sheet (some [["Place", "Place", "Place"], ["Paris", "Lyon", "Rome"]])
      State.initial).state.locations.keys = ["Rome"] ∧
    (Param.load Location.sheet (some [["Place", "Place", "Place"], ["Paris", "Lyon", "Rome"]])
      State.initial).state.messageText = "" := by
  refine ⟨?_, ?_, by decide!, by decide!⟩
  · intro h
    have h1 : Param.extracts Location.sheet ["Place", "Place", "Place"] := by decide
    have h2 := h.mp h1 "Lat" (by decide)
    revert h2
    decide
  · rw [Param.load_eq, if_pos (by decide)]

/-! ## Loops -/

theorem forEachOutcome_preserves {α β : Type} (f : State → β) (body : α → State → Outcome)
    (h : ∀ a s, f (body a s).state = f s) (l : List α) (s : State) :
    f (forEachOutcome body l s).state = f s := by
  induction l generalizing s with
  | nil => rfl
  | cons a rest ih =>
    rw [forEachOutcome, Outcome.andThen]
    split
    · rw [ih, h]
    · exact h a s

theorem forEachOutcome_cons_of_ok {α : Type} (body : α → State → Outcome) (a : α)
    (rest : List α) (s : State) (h : (body a s).thrown = none) :
    forEachOutcome body (a :: rest) s = forEachOutcome body rest (body a s).state := by
  rw [forEachOutcome, Outcome.andThen]
  simp [h]

theorem forEachOutcome_never_throws {α : Type} (body : α → State → Outcome)
    (h : ∀ a s, (body a s).thrown = none) (l : List α) (s : State) :
    (forEachOutcome body l s).thrown = none := by
  induction l generalizing s with
  | nil => rfl
  | cons a rest ih => rw [forEachOutcome_cons_of_ok body a rest s (h a s)]; exact ih _

/-! ## The order of start times -/

theorem StartTime.le_total (a b : StartTime) : StartTime.le a b = true ∨ StartTime.le b a = true := by
  cases a <;> cases b <;> simp [StartTime.le]
  omega

theorem StartTime.le_trans (a b c : StartTime) (h1 : StartTime.le a b = true)
    (h2 : StartTime.le b c = true) : StartTime.le a c = true := by
  cases a <;> cases b <;> cases c <;> simp_all [StartTime.le]
  omega

theorem StartTime.le_negInfinity (a : StartTime) (h : StartTime.le a .negInfinity = true) :
    a = .negInfinity := by
  cases a <;> simp_all [StartTime.le]

/-! ## `Event.initialise` -/

theorem Event.setCellIndexFrom_clear (k : Nat) (l : List Event) :
    (Event.setCellIndexFrom k l).map Event.clearCellIndex = l.map Event.clearCellIndex := by
  induction l generalizing k with
  | nil => rfl
  | cons e rest ih => simp [Event.setCellIndexFrom, ih, Event.clearCellIndex]

theorem Event.setCellIndexFrom_startTime (k : Nat) (l : List Event) :
    (Event.setCellIndexFrom k l).map Event.startTime = l.map Event.startTime := by
  induction l generalizing k with
  | nil => rfl
  | cons e rest ih => simp [Event.setCellIndexFrom, ih]

theorem Event.setCellIndexFrom_get (k : Nat) (l : List Event) (i : Nat) (a : Event)
    (h : (Event.setCellIndexFrom k l).get? i = some a) : a.cellIndex = some (k + i + 1) := by
  induction l generalizing k i with
  | nil => simp [Event.setCellIndexFrom] at h
  | cons e rest ih =>
    cases i with
    | zero =>
      simp [Event.setCellIndexFrom] at h
      rw [← h]
    | succ i =>
      simp only [Event.setCellIndexFrom, List.get?_cons_succ] at h
      have := ih (k + 1) i h
      rw [this]; congr 1; omega

theorem CountryLine.new_events (origin place : String) (s : State) :
    (CountryLine.new origin place s).events = s.events := by
  unfold CountryLine.new
  simp only
  split <;> split <;> rfl

theorem foldl_CountryLine_new_events (origins : List String) (place : String) (s : State) :
    (origins.foldl (fun acc origin => CountryLine.new origin place acc) s).events = s.events := by
  induction origins generalizing s with
  | nil => rfl
  | cons o rest ih => rw [List.foldl_cons, ih, CountryLine.new_events]

theorem Location.setup_events (place : String) (s : State) :
    (Location.setup place s).state.events = s.events := by
  unfold Location.setup
  cases s.locations.get place with
  | none => rfl
  | some location =>
    simp only
    cases Location.setupColor location s.locationsCount with
    | none => rfl
    | some color =>
      simp only
      split
      · rw [foldl_CountryLine_new_events]
      · rfl

theorem Event.initialise_events (s : State) :
    (Event.initialise s).state.events = Event.setCellIndexFrom 0 (Event.sortEvents s.events) := by
  unfold Event.initialise
  simp only
  rw [forEachOutcome_preserves State.events Location.setup Location.setup_events]

theorem Event.initialise_sorted (s : State) :
    ((Event.initialise s).state.events.map Event.clearCellIndex).Perm
      (s.events.map Event.clearCellIndex) ∧
    (Event.initialise s).state.events.Pairwise
      (fun a b => StartTime.le a.startTime b.startTime = true) ∧
    (∀ i j a b, i < j → (Event.initialise s).state.events.get? i = some a →
      (Event.initialise s).state.events.get? j = some b →
      b.startTime = .negInfinity → a.startTime = .negInfinity) ∧
    (∀ i a, (Event.initialise s).state.events.get? i = some a → a.cellIndex = some (i + 1)) := by
  have hsorted : (Event.initialise s).state.events.Pairwise
      (fun a b => StartTime.le a.startTime b.startTime = true) := by
    rw [Event.initialise_events]
    have h1 : (Event.sortEvents s.events).Pairwise Event.startsBefore :=
      List.sorted_insertionSort Event.startsBefore s.events
    have h2 : ((Event.sortEvents s.events).map Event.startTime).Pairwise
        (fun a b => StartTime.le a b = true) := List.pairwise_map.mpr h1
    rw [← Event.setCellIndexFrom_startTime 0, List.pairwise_map] at h2
    exact h2
  refine ⟨?_, hsorted, ?_, ?_⟩
  · rw [Event.initialise_events, Event.setCellIndexFrom_clear]
    exact (List.perm_insertionSort Event.startsBefore s.events).map _
  · intro i j a b hij ha hb hneg
    have := List.pairwise_iff_get.mp hsorted
    obtain ⟨hi, rfl⟩ := List.get?_eq_some.mp ha
    obtain ⟨hj, rfl⟩ := List.get?_eq_some.mp hb
    have hle := this ⟨i, hi⟩ ⟨j, hj⟩ hij
    rw [hneg] at hle
    exact StartTime.le_negInfinity _ hle
  · intro i a ha
    rw [Event.initialise_events] at ha
    have := Event.setCellIndexFrom_get 0 _ i a ha
    rw [this]; congr 1; omega

theorem Param.copyFields_get (fieldIndexes : FieldIndexes) (row : Row) (k : String) :
    (Param.copyFields fieldIndexes row).get k =
      (fieldIndexes.get k).map (fun index => Param.normalise (row.get? index)) := by
  unfold Param.copyFields
  induction fieldIndexes with
  | nil => rfl
  | cons hd tl ih =>
    obtain ⟨k0, v⟩ := hd
    by_cases h : k0 = k
    · simp [Dict.get, h]
    · simp only [List.map_cons, Dict.get, h, if_false]
      exact ih

theorem Event.new_of_blank_acronym (host : Host) (fi : FieldIndexes) (row : Row) (s : State)
    (h : isBlank ((Param.copyFields fi row).get "Acronym") = true) :
    Event.new host fi row s = { state := s, thrown := none } := by
  unfold Event.new
  simp [h]

theorem Event.new_of_no_start (host : Host) (fi : FieldIndexes) (row : Row) (s : State)
    (h : isBlank ((Param.copyFields fi row).get "Acronym") = false)
    (hs : (Param.copyFields fi row).get "Start" = none) :
    Event.new host fi row s = { state := s, thrown := some "TypeError" } := by
  unfold Event.new
  simp [h, hs]

theorem Event.new_of_unknown (host : Host) (fi : FieldIndexes) (row : Row) (s : State)
    (start : String)
    (h : isBlank ((Param.copyFields fi row).get "Acronym") = false)
    (hs : (Param.copyFields fi row).get "Start" = some start)
    (hl : s.locations.get (jsString ((Param.copyFields fi row).get "Location")) = none) :
    Event.new host fi row s =
      { state := Load.message
          ("Unknown location " ++ jsString ((Param.copyFields fi row).get "Location") ++ " for " ++
            jsString ((Param.copyFields fi row).get "Acronym")) s,
        thrown := none } := by
  unfold Event.new
  simp [h, hs, hl]

theorem Event.new_of_ranked (host : Host) (fi : FieldIndexes) (row : Row) (s : State)
    (start : String) (location : Location) (rank : Nat)
    (h : isBlank ((Param.copyFields fi row).get "Acronym") = false)
    (hs : (Param.copyFields fi row).get "Start" = some start)
    (hl : s.locations.get (jsString ((Param.copyFields fi row).get "Location")) = some location)
    (hr : location.hasEvent = some (rank + 1)) :
    Event.new host fi row s =
      { state := { s with
          events := s.events ++ [Event.registered host s (Param.copyFields fi row) start] },
        thrown := none } := by
  unfold Event.new Event.registered
  simp [h, hs, hl, hr]

theorem Event.new_of_unranked (host : Host) (fi : FieldIndexes) (row : Row) (s : State)
    (start : String) (location : Location)
    (h : isBlank ((Param.copyFields fi row).get "Acronym") = false)
    (hs : (Param.copyFields fi row).get "Start" = some start)
    (hl : s.locations.get (jsString ((Param.copyFields fi row).get "Location")) = some location)
    (hr : location.hasEvent = none ∨ location.hasEvent = some 0) :
    Event.new host fi row s =
      { state := { s with
          eventLocations :=
            if s.eventLocations.contains (jsString ((Param.copyFields fi row).get "Location"))
            then s.eventLocations
            else s.eventLocations ++ [jsString ((Param.copyFields fi row).get "Location")],
          locations := s.locations.set (jsString ((Param.copyFields fi row).get "Location"))
            { location with countryLines := [], hasEvent := some (s.locationsCount + 1) },
          locationsCount := s.locationsCount + 1,
          events := s.events ++ [Event.registered host s (Param.copyFields fi row) start] },
        thrown := none } := by
  unfold Event.new Event.registered
  simp [h, hs, hl, hr]

theorem Dict.mem_of_get {β : Type} (d : Dict β) (k : String) (v : β) (h : d.get k = some v) :
    (k, v) ∈ d := by
  induction d with
  | nil => simp [Dict.get] at h
  | cons hd tl ih =>
    obtain ⟨k0, w⟩ := hd
    by_cases h0 : k0 = k
    · simp [Dict.get, h0] at h
      simp [h0, h]
    · simp [Dict.get, h0] at h
      exact List.mem_cons_of_mem _ (ih h)

theorem Event.new_step (host : Host) (fi : FieldIndexes) (row : Row) (s : State) :
    Event.Step host s (Event.new host fi row s) := by
  cases h : isBlank ((Param.copyFields fi row).get "Acronym") with
  | true => rw [Event.new_of_blank_acronym host fi row s h]; exact .skip none
  | false =>
    cases hs : (Param.copyFields fi row).get "Start" with
    | none => rw [Event.new_of_no_start host fi row s h hs]; exact .skip _
    | some start =>
      cases hl : s.locations.get (jsString ((Param.copyFields fi row).get "Location")) with
      | none => rw [Event.new_of_unknown host fi row s start h hs hl]; exact .unknown _
      | some location =>
        cases hr : location.hasEvent with
        | none =>
          rw [Event.new_of_unranked host fi row s start location h hs hl (Or.inl hr)]
          exact .unranked _ start location hl (Or.inl hr)
        | some rank =>
          cases rank with
          | zero =>
            rw [Event.new_of_unranked host fi row s start location h hs hl (Or.inr hr)]
            exact .unranked _ start location hl (Or.inr hr)
          | succ rank =>
            rw [Event.new_of_ranked host fi row s start location rank h hs hl hr]
            exact .ranked _ start location rank hl hr

theorem State.RanksOrdered.mem_of_rank (s : State) (h : s.RanksOrdered) (place : String)
    (rank : Nat) (hr : s.rankOf place = some rank) : place ∈ s.eventLocations := by
  by_contra hn
  rw [h.unranked place hn] at hr
  exact Option.noConfusion hr

theorem State.RanksOrdered.rank_pos (s : State) (h : s.RanksOrdered) (place : String)
    (rank : Nat) (hr : s.rankOf place = some rank) : rank ≠ 0 := by
  have hm := h.mem_of_rank s place rank hr
  obtain ⟨i, hi⟩ := List.mem_iff_get?.mp hm
  have := (h.rank i place hi).2
  rw [this] at hr
  intro h0
  simp only [Option.some.injEq] at hr
  omega

theorem Event.Step.ranksOrdered (host : Host) (s : State) (out : Outcome)
    (hstep : Event.Step host s out) (h : s.RanksOrdered) : out.state.RanksOrdered := by
  cases hstep with
  | skip thrown => exact h
  | unknown msg => exact ⟨h.nodup, h.count, h.rank, h.unranked⟩
  | ranked fields start location rank hl hr => exact ⟨h.nodup, h.count, h.rank, h.unranked⟩
  | unranked fields start location hl hr =>
    generalize hp : jsString (fields.get "Location") = place at *
    have hrank : s.rankOf place = none ∨ s.rankOf place = some 0 := by
      unfold State.rankOf; rw [hl]; exact hr
    have hnot : place ∉ s.eventLocations := by
      intro hm
      obtain ⟨i, hi⟩ := List.mem_iff_get?.mp hm
      have := (h.rank i place hi).2
      rcases hrank with h0 | h0 <;> rw [h0] at this <;> simp at this
    have hcontains : s.eventLocations.contains place = false := by simpa using hnot
    simp only [hcontains]
    refine ⟨?_, ?_, ?_, ?_⟩
    · simp only [Bool.false_eq_true, if_false]
      exact List.Nodup.append h.nodup (List.nodup_singleton _) (by simpa using hnot)
    · simp [h.count]
    · intro i p hi
      simp only [Bool.false_eq_true, if_false] at hi
      by_cases hlt : i < s.eventLocations.length
      · rw [List.get?_eq_getElem?, List.getElem?_append_left hlt, ← List.get?_eq_getElem?] at hi
        have hne : p ≠ place := by
          intro e; subst e
          exact hnot (List.mem_iff_get?.mpr ⟨i, hi⟩)
        have := h.rank i p hi
        simp only [State.rankOf, Dict.get_set_ne _ _ _ _ hne]
        exact this
      · have hge : s.eventLocations.length ≤ i := by omega
        rw [List.get?_eq_getElem?, List.getElem?_append_right hge] at hi
        have hi0 : i - s.eventLocations.length = 0 := by
          by_contra hne
          obtain ⟨k, hk⟩ : ∃ k, i - s.eventLocations.length = k + 1 := ⟨_, (Nat.succ_pred hne).symm⟩
          rw [hk] at hi
          simp at hi
        rw [hi0] at hi
        simp at hi
        subst hi
        simp only [State.rankOf, Dict.get_set_self, Option.isSome_some, Option.bind_some, true_and]
        have := h.count
        have hi' : i = s.locationsCount := by omega
        rw [hi']
        rfl
    · intro p hp'
      simp only [Bool.false_eq_true, if_false, List.mem_append, List.mem_singleton, not_or] at hp'
      simp only [State.rankOf, Dict.get_set_ne _ _ _ _ hp'.2]
      exact h.unranked p hp'.1

theorem Event.Step.rank_stable (host : Host) (s : State) (out : Outcome)
    (hstep : Event.Step host s out) (place : String) (rank : Nat)
    (hr : s.rankOf place = some rank) (hpos : rank ≠ 0) : out.state.rankOf place = some rank := by
  cases hstep with
  | skip thrown => exact hr
  | unknown msg => exact hr
  | ranked fields start location rank hl hr' => exact hr
  | unranked fields start location hl hr' =>
    have hne : place ≠ jsString (fields.get "Location") := by
      intro e
      subst e
      unfold State.rankOf at hr
      rw [hl] at hr
      rcases hr' with h0 | h0
      · simp [h0] at hr
      · simp [h0] at hr
        exact hpos hr.symm
    simp only [State.rankOf, Dict.get_set_ne _ _ _ _ hne]
    exact hr

theorem Event.Step.eventLocations_eq (host : Host) (s : State) (out : Outcome)
    (hstep : Event.Step host s out) (h : s.RanksOrdered) :
    ∃ newEvents, out.state.events = s.events ++ newEvents ∧
      out.state.eventLocations =
        firstReferences s.eventLocations (newEvents.map Event.location) := by
  cases hstep with
  | skip thrown => exact ⟨[], by simp, rfl⟩
  | unknown msg => exact ⟨[], by simp [Load.message], rfl⟩
  | ranked fields start location rank hl hr =>
    refine ⟨[Event.registered host s fields start], rfl, ?_⟩
    have hm : jsString (fields.get "Location") ∈ s.eventLocations :=
      h.mem_of_rank s _ (rank + 1) (by unfold State.rankOf; rw [hl]; exact hr)
    simp [firstReferences, Event.registered, hm]
  | unranked fields start location hl hr =>
    exact ⟨[Event.registered host s fields start], rfl, by
      simp [firstReferences, Event.registered]⟩

theorem firstReferences_append (known places more : List String) :
    firstReferences known (places ++ more) = firstReferences (firstReferences known places) more := by
  simp [firstReferences, List.foldl_append]

theorem forEachOutcome_invariant {α : Type} (P : State → Prop) (body : α → State → Outcome)
    (h : ∀ a s, P s → P (body a s).state) (l : List α) (s : State) (hs : P s) :
    P (forEachOutcome body l s).state := by
  induction l generalizing s with
  | nil => exact hs
  | cons a rest ih =>
    rw [forEachOutcome, Outcome.andThen]
    split
    · exact ih _ (h a s hs)
    · exact h a s hs

theorem State.RanksOrdered.ranks_eq (s : State) (h : s.RanksOrdered) :
    s.eventLocations.map s.rankOf = (List.range' 1 s.locationsCount).map some := by
  apply List.ext_get?
  intro i
  simp only [List.get?_eq_getElem?, List.getElem?_map]
  by_cases hi : i < s.eventLocations.length
  · have hget : s.eventLocations[i]? = some s.eventLocations[i] := List.getElem?_eq_getElem hi
    have hr := (h.rank i _ (by rw [List.get?_eq_getElem?]; exact hget)).2
    have hi' : i < s.locationsCount := by rw [← h.count]; exact hi
    rw [hget, List.getElem?_range' _ _ hi']
    simp [hr]; omega
  · have h1 : s.eventLocations[i]? = none := List.getElem?_eq_none (by omega)
    have h2 : (List.range' 1 s.locationsCount)[i]? = none :=
      List.getElem?_eq_none (by rw [List.length_range', ← h.count]; omega)
    rw [h1, h2]; rfl

theorem Event.replay_ranks (host : Host) (fieldIndexes : FieldIndexes) (rows : List Row) (s : State)
    (h : s.RanksOrdered) :
    (forEachOutcome (Event.new host fieldIndexes) rows s).state.RanksOrdered ∧
    ((forEachOutcome (Event.new host fieldIndexes) rows s).state.eventLocations.map
        (forEachOutcome (Event.new host fieldIndexes) rows s).state.rankOf).Nodup ∧
    (forEachOutcome (Event.new host fieldIndexes) rows s).state.eventLocations.map
        (forEachOutcome (Event.new host fieldIndexes) rows s).state.rankOf =
      (List.range' 1
        (forEachOutcome (Event.new host fieldIndexes) rows s).state.locationsCount).map some ∧
    (∃ newEvents,
      (forEachOutcome (Event.new host fieldIndexes) rows s).state.events = s.events ++ newEvents ∧
      (forEachOutcome (Event.new host fieldIndexes) rows s).state.eventLocations =
        firstReferences s.eventLocations (newEvents.map Event.location)) ∧
    (∀ place rank, s.rankOf place = some rank →
      (forEachOutcome (Event.new host fieldIndexes) rows s).state.rankOf place = some rank) := by
  have key := forEachOutcome_invariant
    (fun t => t.RanksOrdered ∧
      (∃ newEvents, t.events = s.events ++ newEvents ∧
        t.eventLocations = firstReferences s.eventLocations (newEvents.map Event.location)) ∧
      (∀ place rank, s.rankOf place = some rank → t.rankOf place = some rank))
    (Event.new host fieldIndexes)
    (by
      intro row t ⟨hro, ⟨new1, he1, hl1⟩, hstable⟩
      have hstep := Event.new_step host fieldIndexes row t
      refine ⟨hstep.ranksOrdered host t _ hro, ?_, ?_⟩
      · obtain ⟨new2, he2, hl2⟩ := hstep.eventLocations_eq host t _ hro
        refine ⟨new1 ++ new2, by rw [he2, he1, List.append_assoc], ?_⟩
        rw [hl2, hl1, List.map_append, firstReferences_append]
      · intro place rank hr
        have h1 := hstable place rank hr
        exact hstep.rank_stable host t _ place rank h1 (hro.rank_pos t place rank h1))
    rows s ⟨h, ⟨[], by simp, rfl⟩, fun _ _ hr => hr⟩
  obtain ⟨hro, hnew, hstable⟩ := key
  have hranks := hro.ranks_eq
  refine ⟨hro, ?_, hranks, hnew, hstable⟩
  rw [hranks]
  exact (List.nodup_range' 1 _).map (fun a b hab => Option.some.inj hab)

theorem Event.registers_congr (s t : State) (h : t.locations.keys = s.locations.keys)
    (fields : Fields) : Event.registers t fields = Event.registers s fields := by
  unfold Event.registers
  congr 1
  rw [Bool.eq_iff_iff, Dict.get_isSome_iff, Dict.get_isSome_iff, h]

theorem Event.new_registers (host : Host) (fi : FieldIndexes) (row : Row) (s : State)
    (hstart : fi.get "Start" ≠ none) :
    (Event.new host fi row s).thrown = none ∧
    (Event.new host fi row s).state.events.map Event.fields =
      s.events.map Event.fields ++
        (if Event.registers s (Param.copyFields fi row) then [Param.copyFields fi row] else []) ∧
    (Event.new host fi row s).state.locations.keys = s.locations.keys := by
  cases h : isBlank ((Param.copyFields fi row).get "Acronym") with
  | true =>
    rw [Event.new_of_blank_acronym host fi row s h]
    simp [Event.registers, h]
  | false =>
    cases hs : (Param.copyFields fi row).get "Start" with
    | none =>
      rw [Param.copyFields_get] at hs
      cases hfi : fi.get "Start" with
      | none => exact absurd hfi hstart
      | some index => rw [hfi] at hs; simp at hs
    | some start =>
      cases hl : s.locations.get (jsString ((Param.copyFields fi row).get "Location")) with
      | none =>
        rw [Event.new_of_unknown host fi row s start h hs hl]
        simp [Event.registers, h, hl, Load.message]
      | some location =>
        have hmem : jsString ((Param.copyFields fi row).get "Location") ∈ s.locations.keys :=
          (Dict.get_isSome_iff _ _).mp (by rw [hl]; rfl)
        cases hr : location.hasEvent with
        | none =>
          rw [Event.new_of_unranked host fi row s start location h hs hl (Or.inl hr)]
          simp [Event.registers, h, hl, Event.registered, Dict.keys_set_of_mem _ _ _ hmem]
        | some rank =>
          cases rank with
          | zero =>
            rw [Event.new_of_unranked host fi row s start location h hs hl (Or.inr hr)]
            simp [Event.registers, h, hl, Event.registered, Dict.keys_set_of_mem _ _ _ hmem]
          | succ rank =>
            rw [Event.new_of_ranked host fi row s start location rank h hs hl hr]
            simp [Event.registers, h, hl, Event.registered]

theorem Event.replay_registers (host : Host) (fi : FieldIndexes) (rows : List Row) (s : State)
    (hstart : fi.get "Start" ≠ none) :
    (forEachOutcome (Event.new host fi) rows s).thrown = none ∧
    (forEachOutcome (Event.new host fi) rows s).state.events.map Event.fields =
      s.events.map Event.fields ++
        (rows.map (Param.copyFields fi)).filter (Event.registers s) ∧
    (forEachOutcome (Event.new host fi) rows s).state.locations.keys = s.locations.keys := by
  induction rows generalizing s with
  | nil => simp [forEachOutcome]
  | cons row rest ih =>
    obtain ⟨h1, h2, h3⟩ := Event.new_registers host fi row s hstart
    rw [forEachOutcome_cons_of_ok _ _ _ _ h1]
    obtain ⟨i1, i2, i3⟩ := ih (Event.new host fi row s).state
    refine ⟨i1, ?_, by rw [i3, h3]⟩
    rw [i2, h2, List.map_cons, List.filter_cons, List.append_assoc]
    have hcongr : (fun fields => Event.registers (Event.new host fi row s).state fields) =
        Event.registers s := by
      funext fields
      exact Event.registers_congr s _ h3 fields
    have hcongr' : Event.registers (Event.new host fi row s).state = Event.registers s := hcongr
    rw [hcongr']
    cases Event.registers s (Param.copyFields fi row) <;> simp

theorem State.RanksOrdered.of_unranked (s : State) (h1 : s.eventLocations = [])
    (h2 : s.locationsCount = 0) (h3 : ∀ entry ∈ s.locations, entry.2.hasEvent = none) :
    s.RanksOrdered := by
  refine ⟨by rw [h1]; exact List.nodup_nil, by rw [h1, h2]; rfl, ?_, ?_⟩
  · intro i place hi
    rw [h1] at hi
    simp at hi
  · intro place _
    unfold State.rankOf
    cases hl : s.locations.get place with
    | none => rfl
    | some location => exact h3 (place, location) (Dict.mem_of_get _ _ _ hl)

/-- After `Event.initialise`, whatever the state `s` it starts from, `Event.events` is a
permutation of the events registered before (cell indexes apart), is non-decreasing by
`startTime` with the events whose start did not parse (`-Infinity`) first, and the event at
position `i` has `cellIndex = i + 1`.  On a sheet that has a `Start` column the registered
events are the Events rows with a non-blank acronym and a location name that is a key of
`Location.locations`, each exactly once and in row order. -/
theorem initialise_sorts (s : State) (host : Host) (fieldIndexes : FieldIndexes)
    (rows : List Row) (s0 : State) (hstart : fieldIndexes.get "Start" ≠ none) :
    (((Event.initialise s).state.events.map Event.clearCellIndex).Perm
        (s.events.map Event.clearCellIndex) ∧
      (Event.initialise s).state.events.Pairwise
        (fun a b => StartTime.le a.startTime b.startTime = true) ∧
      (∀ i j a b, i < j → (Event.initialise s).state.events.get? i = some a →
        (Event.initialise s).state.events.get? j = some b →
        b.startTime = .negInfinity → a.startTime = .negInfinity) ∧
      (∀ i a, (Event.initialise s).state.events.get? i = some a → a.cellIndex = some (i + 1))) ∧
    ((forEachOutcome (Event.new host fieldIndexes) rows s0).thrown = none ∧
      (forEachOutcome (Event.new host fieldIndexes) rows s0).state.events.map Event.fields =
        s0.events.map Event.fields ++
          (rows.map (Param.copyFields fieldIndexes)).filter (Event.registers s0)) :=
  ⟨Event.initialise_sorted s,
    (Event.replay_registers host fieldIndexes rows s0 hstart).1,
    (Event.replay_registers host fieldIndexes rows s0 hstart).2.1⟩

/-! ## What `Location.renderMap` leaves alone -/

theorem State.SameButLocations.same (s : State) : s.SameButLocations s := rfl

theorem State.SameButLocations.andThen {s t u : State} (h1 : s.SameButLocations t)
    (h2 : t.SameButLocations u) : s.SameButLocations u := by
  unfold State.SameButLocations at *
  rw [h2, h1]

theorem State.SameButLocations.events {s t : State} (h : s.SameButLocations t) :
    t.events = s.events := by
  rw [h]

theorem State.SameButLocations.eventLocations {s t : State} (h : s.SameButLocations t) :
    t.eventLocations = s.eventLocations := by
  rw [h]

theorem State.SameButLocations.const {s t : State} (h : s.SameButLocations t) :
    t.const = s.const := by
  rw [h]

theorem forEachOutcome_sameButLocations {α : Type} (body : α → State → Outcome)
    (h : ∀ (a : α) (s : State), s.SameButLocations (body a s).state) (l : List α) (s : State) :
    s.SameButLocations (forEachOutcome body l s).state :=
  forEachOutcome_invariant (fun t => s.SameButLocations t) body
    (fun a t ht => ht.andThen (h a t)) l s (State.SameButLocations.same s)

theorem Location.clearCounts_sameButLocations (s : State) :
    s.SameButLocations (Location.clearCounts s) := by
  unfold Location.clearCounts
  generalize s.eventLocations = places
  have : ∀ t : State, s.SameButLocations t → s.SameButLocations
      (places.foldl (fun acc place =>
        match acc.locations.get place with
        | none => acc
        | some location =>
          { acc with locations := acc.locations.set place location.clearLines }) t) := by
    induction places with
    | nil => intro t ht; exact ht
    | cons p rest ih =>
      intro t ht
      rw [List.foldl_cons]
      apply ih
      split
      · exact ht
      · exact ht.andThen rfl
  exact this s (State.SameButLocations.same s)

theorem Location.addCount_sameButLocations (place countryPlace : String) (n : Nat) (s : State) :
    s.SameButLocations (Location.addCount place countryPlace n s).state := by
  unfold Location.addCount
  split
  · rfl
  · split <;> rfl

theorem Location.addEventCounts_sameButLocations (event : Event) (s : State) :
    s.SameButLocations (Location.addEventCounts event s).state := by
  unfold Location.addEventCounts
  split
  · exact forEachOutcome_sameButLocations _ (fun a t => Location.addCount_sameButLocations _ _ _ t) _ _
  · rfl

theorem Location.showEntry_sameButLocations (place countryPlace : String) (s : State) :
    s.SameButLocations (Location.showEntry place countryPlace s).state := by
  unfold Location.showEntry
  split
  · rfl
  · split
    · rfl
    · split <;> rfl

theorem Location.showLines_sameButLocations (place : String) (s : State) :
    s.SameButLocations (Location.showLines place s).state := by
  unfold Location.showLines
  split
  · rfl
  · exact forEachOutcome_sameButLocations _ (fun a t => Location.showEntry_sameButLocations _ _ t) _ _

theorem Location.renderMap_sameButLocations (s : State) :
    s.SameButLocations (Location.renderMap s).state := by
  unfold Location.renderMap Outcome.andThen
  have h1 : s.SameButLocations
      (forEachOutcome Location.addEventCounts s.events (Location.clearCounts s)).state :=
    (Location.clearCounts_sameButLocations s).andThen
      (forEachOutcome_sameButLocations _ Location.addEventCounts_sameButLocations _ _)
  split
  · exact h1.andThen (forEachOutcome_sameButLocations _ Location.showLines_sameButLocations _ _)
  · exact h1

/-- C2. When the name pattern compiles, `Event.filter` gives every event the flag
`filtered` = name test and date test and location test and origin test, and changes nothing
else of `Event.events`.  The name test passes for every event when the pattern is empty, the
date test when the range is inactive (start not before finish), the location and origin tests
when their patterns are empty; with all four so, every event ends with `filtered = true`. -/
theorem filter_sets_flags (host : Host) (input : FilterInput) (s : State) (test : String → Bool)
    (hre : host.regExp (Event.patternSource input.eventPattern) = some test) :
    (Event.filter host input s).state.events =
      s.events.map (fun event =>
        { event with
          filtered :=
            Event.passesName s.const test input event && Event.passesDate input event &&
              Event.passesLocation input event && Event.passesOrigin input event }) ∧
    (input.eventPattern = "" → ∀ event, Event.passesName s.const test input event = true) ∧
    (¬ input.startTime < input.finishTime → ∀ event, Event.passesDate input event = true) ∧
    (input.locationPattern = "" → ∀ event, Event.passesLocation input event = true) ∧
    (input.originPattern = "" → ∀ event, Event.passesOrigin input event = true) ∧
    (input.eventPattern = "" → ¬ input.startTime < input.finishTime →
      input.locationPattern = "" → input.originPattern = "" →
      (Event.filter host input s).state.events.length = s.events.length ∧
      ∀ event ∈ (Event.filter host input s).state.events, event.filtered = true) := by
  have hev : (Event.filter host input s).state.events =
      s.events.map (fun event =>
        { event with
          filtered :=
            Event.passesName s.const test input event && Event.passesDate input event &&
              Event.passesLocation input event && Event.passesOrigin input event }) := by
    unfold Event.filter
    simp only [hre]
    rw [(Location.renderMap_sameButLocations _).events]
    rfl
  have hname : input.eventPattern = "" → ∀ event, Event.passesName s.const test input event = true := by
    intro h event; simp [Event.passesName, h]
  have hdate : ¬ input.startTime < input.finishTime → ∀ event, Event.passesDate input event = true := by
    intro h event; simp [Event.passesDate, h]
  have hloc : input.locationPattern = "" → ∀ event, Event.passesLocation input event = true := by
    intro h event; simp [Event.passesLocation, h]
  have hori : input.originPattern = "" → ∀ event, Event.passesOrigin input event = true := by
    intro h event; simp [Event.passesOrigin, h]
  refine ⟨hev, hname, hdate, hloc, hori, ?_⟩
  intro h1 h2 h3 h4
  rw [hev]
  refine ⟨by simp, ?_⟩
  intro event hmem
  obtain ⟨e0, _, rfl⟩ := List.mem_map.mp hmem
  simp [hname h1, hdate h2, hloc h3, hori h4]

/-- Witness of C2: no filter on the loaded example. -/
theorem filter_sets_flags_witness :
    Example.host.regExp (Event.patternSource Example.noFilter.eventPattern) =
      some (fun _ => true) ∧
    ((Event.filter Example.host Example.noFilter Example.loaded).state.events.length =
        Example.loaded.events.length ∧
      ∀ event ∈ (Event.filter Example.host Example.noFilter Example.loaded).state.events,
        event.filtered = true) :=
  ⟨rfl,
    (filter_sets_flags Example.host Example.noFilter Example.loaded (fun _ => true) rfl).2.2.2.2.2
      rfl (by decide) rfl rfl⟩

/-! ## The attendance join -/

theorem PeopleAtEvents.new_of_blank_uid (fi : FieldIndexes) (row : Row) (s : State)
    (h : isBlank ((Param.copyFields fi row).get "UID") = true) :
    PeopleAtEvents.new fi row s = { state := s, thrown := none } := by
  unfold PeopleAtEvents.new
  simp [h]

theorem PeopleAtEvents.new_of_unresolved (fi : FieldIndexes) (row : Row) (s : State)
    (h : isBlank ((Param.copyFields fi row).get "UID") = false)
    (hu : (s.people.get (jsString ((Param.copyFields fi row).get "UID")) = none ∧
        isInheritedName (jsString ((Param.copyFields fi row).get "UID")) = false) ∨
      Event.findById s.events ((Param.copyFields fi row).get "Acronym") = none) :
    PeopleAtEvents.new fi row s =
      { state := Load.message
          ("Unknown PersonAtEvents " ++ jsString ((Param.copyFields fi row).get "UID") ++ ", " ++
            jsString ((Param.copyFields fi row).get "Acronym")) s,
        thrown := none } := by
  unfold PeopleAtEvents.new
  simp only [h, Bool.false_eq_true, if_false]
  rcases hu with ⟨hu, hi⟩ | hu
  · rw [hu]
    cases Event.findById s.events ((Param.copyFields fi row).get "Acronym") with
    | none => rfl
    | some index => simp only [hi, Bool.false_eq_true, if_false]
  · rw [hu]
    cases s.people.get (jsString ((Param.copyFields fi row).get "UID")) <;> rfl

theorem PeopleAtEvents.new_of_inherited (fi : FieldIndexes) (row : Row) (s : State)
    (index : Nat)
    (h : isBlank ((Param.copyFields fi row).get "UID") = false)
    (hp : s.people.get (jsString ((Param.copyFields fi row).get "UID")) = none)
    (hi : isInheritedName (jsString ((Param.copyFields fi row).get "UID")) = true)
    (he : Event.findById s.events ((Param.copyFields fi row).get "Acronym") = some index) :
    PeopleAtEvents.new fi row s = { state := s, thrown := some "TypeError" } := by
  unfold PeopleAtEvents.new
  simp only [h, Bool.false_eq_true, if_false, hp, he, hi, if_true]

theorem PeopleAtEvents.new_of_resolved (fi : FieldIndexes) (row : Row) (s : State)
    (person : Person) (index : Nat)
    (h : isBlank ((Param.copyFields fi row).get "UID") = false)
    (hp : s.people.get (jsString ((Param.copyFields fi row).get "UID")) = some person)
    (he : Event.findById s.events ((Param.copyFields fi row).get "Acronym") = some index) :
    PeopleAtEvents.new fi row s =
      Event.addDelegate index (person.fields.get "Origin")
        ((Param.copyFields fi row).get "Acronym")
        (jsString ((Param.copyFields fi row).get "UID"))
        { s with
          people := s.people.set (jsString ((Param.copyFields fi row).get "UID"))
            { person with
              peopleAtEvents := person.peopleAtEvents ++
                [{ fields := Param.copyFields fi row,
                   event := ((s.events.get? index).map Event.oid).getD 0 }] } } := by
  unfold PeopleAtEvents.new
  simp only [h, Bool.false_eq_true, if_false, hp, he]

theorem joinText_message (text msg : String) (hmsg : msg ≠ "") :
    joinText [some text, some "\n", some msg] =
      if text = "" then msg else text ++ "\n" ++ msg := by
  unfold joinText
  by_cases ht : text = ""
  · subst ht
    simp [joinTextFrom, isBlank, hmsg]
  · simp [joinTextFrom, isBlank, hmsg, ht]

theorem PeopleAtEvents.diagnostic_ne_empty (fields : Fields) :
    PeopleAtEvents.diagnostic fields ≠ "" := by
  intro h
  have := congrArg String.length h
  simp only [PeopleAtEvents.diagnostic, String.length_append] at this
  have h0 : "Unknown PersonAtEvents ".length = 23 := by decide
  have h1 : "".length = 0 := by decide
  omega

/-- C4 (as amended). For every PeopleAtEvents row with a non-blank UID whose UID does not
resolve to a Person, and does not name a member inherited from `Object.prototype` either, or
whose acronym does not resolve to an Event, the constructor throws nothing, appends exactly
one diagnostic naming both identifiers to the message buffer (after a line break when the
buffer is not empty), and changes nothing else: no attendance list, no Country aggregate, no
origin-line mapping; the remaining rows are then processed. -/
theorem unresolved_row (fieldIndexes : FieldIndexes) (row : Row) (rest : List Row) (s : State)
    (hblank : isBlank ((Param.copyFields fieldIndexes row).get "UID") = false)
    (hu : (s.people.get (jsString ((Param.copyFields fieldIndexes row).get "UID")) = none ∧
        isInheritedName (jsString ((Param.copyFields fieldIndexes row).get "UID")) = false) ∨
      Event.findById s.events ((Param.copyFields fieldIndexes row).get "Acronym") = none) :
    (PeopleAtEvents.new fieldIndexes row s).thrown = none ∧
    (PeopleAtEvents.new fieldIndexes row s).state =
      { s with
        messageText :=
          if s.messageText = "" then
            PeopleAtEvents.diagnostic (Param.copyFields fieldIndexes row)
          else
            s.messageText ++ "\n" ++
              PeopleAtEvents.diagnostic (Param.copyFields fieldIndexes row) } ∧
    (PeopleAtEvents.new fieldIndexes row s).state.people = s.people ∧
    (PeopleAtEvents.new fieldIndexes row s).state.events = s.events ∧
    (PeopleAtEvents.new fieldIndexes row s).state.locations = s.locations ∧
    forEachOutcome (PeopleAtEvents.new fieldIndexes) (row :: rest) s =
      forEachOutcome (PeopleAtEvents.new fieldIndexes) rest
        (PeopleAtEvents.new fieldIndexes row s).state := by
  have hnew := PeopleAtEvents.new_of_unresolved fieldIndexes row s hblank hu
  have hstate : (PeopleAtEvents.new fieldIndexes row s).state =
      { s with
        messageText :=
          if s.messageText = "" then
            PeopleAtEvents.diagnostic (Param.copyFields fieldIndexes row)
          else
            s.messageText ++ "\n" ++
              PeopleAtEvents.diagnostic (Param.copyFields fieldIndexes row) } := by
    rw [hnew]
    simp only [Load.message]
    rw [← joinText_message _ _ (PeopleAtEvents.diagnostic_ne_empty _)]
    rfl
  refine ⟨by rw [hnew], hstate, by rw [hstate], by rw [hstate], by rw [hstate], ?_⟩
  exact forEachOutcome_cons_of_ok _ _ _ _ (by rw [hnew])

/-- Witness of C4: the row `U9, E1` after the load of the scenario of the specification. -/
theorem unresolved_row_witness :
    (isBlank ((Param.copyFields Example.attendanceIndexes ["U9", "E1"]).get "UID") = false ∧
      (((Load.sheets Example.host Example.parisDoc State.initial).people.get
          (jsString ((Param.copyFields Example.attendanceIndexes ["U9", "E1"]).get "UID")) =
            none ∧
          isInheritedName
            (jsString ((Param.copyFields Example.attendanceIndexes ["U9", "E1"]).get "UID")) =
            false) ∨
        Event.findById (Load.sheets Example.host Example.parisDoc State.initial).events
          ((Param.copyFields Example.attendanceIndexes ["U9", "E1"]).get "Acronym") = none)) ∧
    (PeopleAtEvents.new Example.attendanceIndexes ["U9", "E1"]
        (Load.sheets Example.host Example.parisDoc State.initial)).state.events =
      (Load.sheets Example.host Example.parisDoc State.initial).events :=
  ⟨⟨by decide, Or.inl ⟨by decide!, by decide⟩⟩,
    (unresolved_row Example.attendanceIndexes ["U9", "E1"] []
      (Load.sheets Example.host Example.parisDoc State.initial) (by decide)
      (Or.inl ⟨by decide!, by decide⟩)).2.2.2.1⟩

/-- C4, counterexample. After the load of the scenario of the specification, the row with a
blank UID and the acronym `E1` has a UID that resolves to no Person, and the constructor
returns without any diagnostic: the state, message buffer included, is unchanged.  The row
`constructor, E1` has a UID that resolves to no Person either; the read
`Person.people['constructor']` finds the member inherited from `Object.prototype`, the
constructor throws a `TypeError`, no diagnostic is appended and the next row `U9, E1` is not
processed. -/
theorem unresolved_row_without_diagnostic :
    ((Load.sheets Example.host Example.parisDoc State.initial).people.get
        (jsString ((Param.copyFields Example.attendanceIndexes ["", "E1"]).get "UID")) = none ∧
      PeopleAtEvents.new Example.attendanceIndexes ["", "E1"]
          (Load.sheets Example.host Example.parisDoc State.initial) =
        { state := Load.sheets Example.host Example.parisDoc State.initial, thrown := none } ∧
      (PeopleAtEvents.new Example.attendanceIndexes ["", "E1"]
          (Load.sheets Example.host Example.parisDoc State.initial)).state.messageText = "") ∧
    ((Load.sheets Example.host Example.parisDoc State.initial).people.get
        (jsString ((Param.copyFields Example.attendanceIndexes ["constructor", "E1"]).get
          "UID")) = none ∧
      (forEachOutcome (PeopleAtEvents.new Example.attendanceIndexes)
          [["constructor", "E1"], ["U9", "E1"]]
          (Load.sheets Example.host Example.parisDoc State.initial)).thrown =
        some "TypeError" ∧
      (forEachOutcome (PeopleAtEvents.new Example.attendanceIndexes)
          [["constructor", "E1"], ["U9", "E1"]]
          (Load.sheets Example.host Example.parisDoc State.initial)).state.messageText =
        "") := by
  refine ⟨⟨by decide!, ?_, by decide!⟩, by decide!, by decide!, by decide!⟩
  exact PeopleAtEvents.new_of_blank_uid _ _ _ (by decide)

theorem State.SameIdentities.unchanged (s : State) : s.SameIdentities s :=
  ⟨rfl, fun _ => rfl⟩

theorem State.SameIdentities.followedBy {s t u : State} (h1 : s.SameIdentities t)
    (h2 : t.SameIdentities u) : s.SameIdentities u :=
  ⟨h2.events.trans h1.events, fun uid => (h2.people uid).trans (h1.people uid)⟩

theorem findIdx_map_fields (p : Fields → Bool) (events : List Event) :
    events.findIdx (fun event => p event.fields) = (events.map Event.fields).findIdx p := by
  induction events with
  | nil => rfl
  | cons e rest ih => simp [List.findIdx_cons, ih]

theorem Event.findById_congr (l1 l2 : List Event) (h : l1.map Event.fields = l2.map Event.fields)
    (acronym : Option String) : Event.findById l1 acronym = Event.findById l2 acronym := by
  unfold Event.findById
  cases acronym with
  | none => rfl
  | some a =>
    have hlen : l1.length = l2.length := by
      have := congrArg List.length h
      simpa using this
    simp only
    rw [findIdx_map_fields (fun fields => fields.get "Acronym" == some a) l1,
      findIdx_map_fields (fun fields => fields.get "Acronym" == some a) l2, h, hlen]

theorem Event.findById_lt (events : List Event) (acronym : Option String) (index : Nat)
    (h : Event.findById events acronym = some index) : index < events.length := by
  unfold Event.findById at h
  cases acronym with
  | none => simp at h
  | some a =>
    simp only at h
    split at h
    · rename_i hlt
      simp only [Option.some.injEq] at h
      rw [← h]; exact hlt
    · simp at h

theorem PeopleAtEvents.joins_congr (s t : State) (h : s.SameIdentities t) (index : Nat)
    (origin : String) (fields : Fields) :
    PeopleAtEvents.joins t index origin fields = PeopleAtEvents.joins s index origin fields := by
  unfold PeopleAtEvents.joins
  rw [Event.findById_congr t.events s.events h.events]
  have hp := h.people (jsString (fields.get "UID"))
  cases ht : t.people.get (jsString (fields.get "UID")) with
  | none =>
    rw [ht] at hp
    cases hs : s.people.get (jsString (fields.get "UID")) with
    | none => rfl
    | some p => rw [hs] at hp; simp at hp
  | some q =>
    rw [ht] at hp
    cases hs : s.people.get (jsString (fields.get "UID")) with
    | none => rw [hs] at hp; simp at hp
    | some p =>
      rw [hs] at hp
      simp only [Option.map_some', Option.some.injEq] at hp
      simp only [hp]

theorem Event.addDelegate_of_blank (index : Nat) (origin acronym : Option String) (uid : String)
    (s : State) (h : isBlank origin = true) :
    Event.addDelegate index origin acronym uid s = { state := s, thrown := none } := by
  unfold Event.addDelegate
  cases s.events.get? index with
  | none => rfl
  | some this => simp [h]

theorem Event.addDelegate_of_inherited (index : Nat) (key : String) (acronym : Option String)
    (uid : String) (s : State) (this : Event) (hthis : s.events.get? index = some this)
    (hkey : key ≠ "") (hnone : this.countries.get key = none)
    (hi : isInheritedName key = true) :
    Event.addDelegate index (some key) acronym uid s =
      { state := s, thrown := some "TypeError" } := by
  unfold Event.addDelegate
  have hb : isBlank (some key) = false := by simp [isBlank, hkey]
  simp only [hthis, hb, Bool.not_false, if_true, jsString, Option.getD_some, hnone, hi,
    and_self]

theorem Country.joined_delegates (countries : Dict Country) (key : String)
    (acronym : Option String) (uid : String) :
    (Country.joined countries key acronym uid).delegates =
      (match countries.get key with
        | none => []
        | some c => c.delegates) ++ [uid] := by
  unfold Country.joined
  cases countries.get key <;> rfl

theorem Event.addDelegate_of_entry (index : Nat) (key : String) (acronym : Option String)
    (uid : String) (s : State) (this : Event) (hthis : s.events.get? index = some this)
    (hkey : key ≠ "")
    (hentry : ¬ (this.countries.get key = none ∧ isInheritedName key = true)) :
    Event.addDelegate index (some key) acronym uid s =
      { state :=
          { s with
            events := s.events.set index
              { this with
                countries :=
                  this.countries.set key (Country.joined this.countries key acronym uid) },
            locations :=
              match s.locations.get this.location with
              | none => s.locations
              | some location =>
                s.locations.set this.location
                  { location with
                    countryLines :=
                      location.countryLines.set key (CountryLine.placeholder key) } },
        thrown := none } := by
  unfold Event.addDelegate
  have hb : isBlank (some key) = false := by simp [isBlank, hkey]
  simp only [hthis, hb, Bool.not_false, if_true, jsString, Option.getD_some]
  rw [if_neg hentry]
  rfl

theorem Event.addDelegate_of_plain (index : Nat) (key : String) (acronym : Option String)
    (uid : String) (s : State) (this : Event) (hthis : s.events.get? index = some this)
    (hkey : key ≠ "") (hplain : isInheritedName key = false) :
    Event.addDelegate index (some key) acronym uid s =
      { state :=
          { s with
            events := s.events.set index
              { this with
                countries :=
                  this.countries.set key (Country.joined this.countries key acronym uid) },
            locations :=
              match s.locations.get this.location with
              | none => s.locations
              | some location =>
                s.locations.set this.location
                  { location with
                    countryLines :=
                      location.countryLines.set key (CountryLine.placeholder key) } },
        thrown := none } :=
  Event.addDelegate_of_entry index key acronym uid s this hthis hkey
    (fun h => by rw [hplain] at h; exact Bool.noConfusion h.2)

theorem Event.addDelegate_events (index : Nat) (key : String) (acronym : Option String)
    (uid : String) (s : State) (this : Event) (hthis : s.events.get? index = some this)
    (hkey : key ≠ "") (hplain : isInheritedName key = false) :
    (Event.addDelegate index (some key) acronym uid s).state.events =
      s.events.set index
        { this with
          countries := this.countries.set key (Country.joined this.countries key acronym uid) } := by
  rw [Event.addDelegate_of_plain index key acronym uid s this hthis hkey hplain]

theorem Event.addDelegate_people (index : Nat) (origin acronym : Option String)
    (uid : String) (s : State) :
    (Event.addDelegate index origin acronym uid s).state.people = s.people := by
  unfold Event.addDelegate
  cases s.events.get? index with
  | none => rfl
  | some this =>
    simp only
    split
    · split <;> rfl
    · rfl

theorem Event.addDelegate_delegatesOf (index0 : Nat) (key : String) (acronym : Option String)
    (uid : String) (s : State) (hlt : index0 < s.events.length) (hkey : key ≠ "")
    (hplain : isInheritedName key = false) (index : Nat) (origin : String) :
    (Event.addDelegate index0 (some key) acronym uid s).state.delegatesOf index origin =
      s.delegatesOf index origin ++ (if index = index0 ∧ origin = key then [uid] else []) := by
  have hthis : s.events.get? index0 = some (s.events.get ⟨index0, hlt⟩) := List.get?_eq_get hlt
  unfold State.delegatesOf
  rw [Event.addDelegate_events index0 key acronym uid s _ hthis hkey hplain]
  by_cases hi : index = index0
  · subst hi
    have hset : (s.events.set index
        { s.events.get ⟨index, hlt⟩ with
          countries := (s.events.get ⟨index, hlt⟩).countries.set key
            (Country.joined (s.events.get ⟨index, hlt⟩).countries key acronym uid) }).get? index =
        some { s.events.get ⟨index, hlt⟩ with
          countries := (s.events.get ⟨index, hlt⟩).countries.set key
            (Country.joined (s.events.get ⟨index, hlt⟩).countries key acronym uid) } := by
      rw [List.get?_eq_getElem?, List.getElem?_set_self hlt]
    rw [hset, hthis]
    simp only [Dict.get_set]
    by_cases ho : origin = key
    · subst ho
      simp only [if_true, true_and, Country.joined_delegates]
    · simp [ho]
  · have hne : index0 ≠ index := fun e => hi e.symm
    have hset : ∀ x : Event, (s.events.set index0 x).get? index = s.events.get? index := by
      intro x
      rw [List.get?_eq_getElem?, List.getElem?_set_ne hne, ← List.get?_eq_getElem?]
    rw [hset]
    simp [hi]

theorem Event.addDelegate_fields (index : Nat) (origin acronym : Option String) (uid : String)
    (s : State) :
    (Event.addDelegate index origin acronym uid s).state.events.map Event.fields =
      s.events.map Event.fields := by
  cases hb : isBlank origin with
  | true => rw [Event.addDelegate_of_blank _ _ _ _ _ hb]
  | false =>
    cases origin with
    | none => simp [isBlank] at hb
    | some key =>
      have hkey : key ≠ "" := by
        intro e; subst e; simp [isBlank] at hb
      cases hthis : s.events.get? index with
      | none =>
        unfold Event.addDelegate
        rw [hthis]
      | some this =>
        by_cases hentry : this.countries.get key = none ∧ isInheritedName key = true
        · rw [Event.addDelegate_of_inherited index key acronym uid s this hthis hkey
            hentry.1 hentry.2]
        · rw [Event.addDelegate_of_entry index key acronym uid s this hthis hkey hentry]
          simp only
          rw [List.map_set]
          apply List.ext_get?
          intro i
          simp only [List.get?_eq_getElem?, List.getElem?_set]
          by_cases hi : index = i
          · subst hi
            rw [List.get?_eq_getElem?] at hthis
            by_cases hlt : index < s.events.length
            · have : s.events[index] = this := by
                rw [List.getElem?_eq_getElem hlt] at hthis
                exact Option.some.inj hthis
              simp [hlt, this]
            · rw [List.getElem?_eq_none (by omega)] at hthis
              exact Option.noConfusion hthis
          · simp [hi]

theorem PeopleAtEvents.new_joins (fi : FieldIndexes) (row : Row) (s : State) (index : Nat)
    (origin : String) (horigin : origin ≠ "")
    (huid : isInheritedName (jsString ((Param.copyFields fi row).get "UID")) = false)
    (hplace : ∀ uid person, s.people.get uid = some person →
      isInheritedName (jsString (person.fields.get "Origin")) = false) :
    (PeopleAtEvents.new fi row s).thrown = none ∧
    s.SameIdentities (PeopleAtEvents.new fi row s).state ∧
    (PeopleAtEvents.new fi row s).state.delegatesOf index origin =
      s.delegatesOf index origin ++
        (if PeopleAtEvents.joins s index origin (Param.copyFields fi row) then
          [jsString ((Param.copyFields fi row).get "UID")]
        else []) := by
  cases hblank : isBlank ((Param.copyFields fi row).get "UID") with
  | true =>
    rw [PeopleAtEvents.new_of_blank_uid fi row s hblank]
    exact ⟨rfl, State.SameIdentities.unchanged s, by simp [PeopleAtEvents.joins, hblank]⟩
  | false =>
    cases hp : s.people.get (jsString ((Param.copyFields fi row).get "UID")) with
    | none =>
      rw [PeopleAtEvents.new_of_unresolved fi row s hblank (Or.inl ⟨hp, huid⟩)]
      exact ⟨rfl, ⟨rfl, fun _ => rfl⟩, by
        simp [PeopleAtEvents.joins, hp, State.delegatesOf, Load.message]⟩
    | some person =>
      cases he : Event.findById s.events ((Param.copyFields fi row).get "Acronym") with
      | none =>
        rw [PeopleAtEvents.new_of_unresolved fi row s hblank (Or.inr he)]
        exact ⟨rfl, ⟨rfl, fun _ => rfl⟩, by
          simp [PeopleAtEvents.joins, he, State.delegatesOf, Load.message]⟩
      | some index0 =>
        rw [PeopleAtEvents.new_of_resolved fi row s person index0 hblank hp he]
        have hlt := Event.findById_lt _ _ _ he
        have hpeople : ∀ (t : State) (uid : String),
            t.people = s.people.set (jsString ((Param.copyFields fi row).get "UID"))
              { person with
                peopleAtEvents := person.peopleAtEvents ++
                  [{ fields := Param.copyFields fi row,
                     event := ((s.events.get? index0).map Event.oid).getD 0 }] } →
            (t.people.get uid).map Person.fields = (s.people.get uid).map Person.fields := by
          intro t uid ht
          rw [ht]
          simp only [Dict.get_set]
          split
          · rename_i hu
            rw [hu, hp]
            rfl
          · rfl
        generalize hs1 : ({ s with
            people := s.people.set (jsString ((Param.copyFields fi row).get "UID"))
              { person with
                peopleAtEvents := person.peopleAtEvents ++
                  [{ fields := Param.copyFields fi row,
                     event := ((s.events.get? index0).map Event.oid).getD 0 }] } } : State) = s1
        have he1 : s1.events = s.events := by rw [← hs1]
        have hp1 : s1.people = s.people.set (jsString ((Param.copyFields fi row).get "UID"))
            { person with
              peopleAtEvents := person.peopleAtEvents ++
                [{ fields := Param.copyFields fi row,
                   event := ((s.events.get? index0).map Event.oid).getD 0 }] } := by
          rw [← hs1]
        have hlt1 : index0 < s1.events.length := by rw [he1]; exact hlt
        have hd : s1.delegatesOf index origin = s.delegatesOf index origin := by
          unfold State.delegatesOf
          rw [he1]
        cases hb : isBlank (person.fields.get "Origin") with
        | true =>
          rw [Event.addDelegate_of_blank _ _ _ _ _ hb]
          refine ⟨rfl, ⟨by rw [he1], fun uid => hpeople s1 uid hp1⟩, ?_⟩
          have : (person.fields.get "Origin" == some origin) = false := by
            cases ho : person.fields.get "Origin" with
            | none => rfl
            | some o =>
              rw [ho] at hb
              have : o = "" := by simpa [isBlank] using hb
              subst this
              simp [Ne.symm horigin]
          simp only [hd]
          simp [PeopleAtEvents.joins, hp, this]
        | false =>
          cases ho : person.fields.get "Origin" with
          | none => rw [ho] at hb; simp [isBlank] at hb
          | some key =>
            have hkey : key ≠ "" := by
              intro e; subst e; rw [ho] at hb; simp [isBlank] at hb
            have hplain : isInheritedName key = false := by
              have := hplace _ person hp
              rw [ho] at this
              exact this
            have hthis1 : s1.events.get? index0 = some (s1.events.get ⟨index0, hlt1⟩) :=
              List.get?_eq_get hlt1
            refine ⟨?_, ⟨?_, ?_⟩, ?_⟩
            · rw [Event.addDelegate_of_plain index0 key _ _ s1 _ hthis1 hkey hplain]
            · rw [Event.addDelegate_fields, he1]
            · intro uid
              rw [Event.addDelegate_people]
              exact hpeople s1 uid hp1
            · rw [Event.addDelegate_delegatesOf index0 key _ _ s1 hlt1 hkey hplain index origin,
                hd]
              congr 1
              simp only [PeopleAtEvents.joins, hblank, hp, ho, he, Bool.not_false, Bool.true_and]
              by_cases h1 : index = index0
              · subst h1
                by_cases h2 : origin = key
                · subst h2
                  simp
                · have h2' : ¬ key = origin := fun e => h2 e.symm
                  simp [h2, h2']
              · have h1' : ¬ index0 = index := fun e => h1 e.symm
                simp [h1, h1']

theorem State.SameIdentities.origins {s t : State} (h : s.SameIdentities t)
    (hplace : ∀ uid person, s.people.get uid = some person →
      isInheritedName (jsString (person.fields.get "Origin")) = false) :
    ∀ uid person, t.people.get uid = some person →
      isInheritedName (jsString (person.fields.get "Origin")) = false := by
  intro uid person ht
  have hp := h.people uid
  rw [ht] at hp
  cases hs : s.people.get uid with
  | none => rw [hs] at hp; simp at hp
  | some q =>
    rw [hs] at hp
    simp only [Option.map_some', Option.some.injEq] at hp
    rw [hp]
    exact hplace uid q hs

theorem PeopleAtEvents.replay_joins (fi : FieldIndexes) (rows : List Row) (s : State)
    (index : Nat) (origin : String) (horigin : origin ≠ "")
    (huid : ∀ row ∈ rows,
      isInheritedName (jsString ((Param.copyFields fi row).get "UID")) = false)
    (hplace : ∀ uid person, s.people.get uid = some person →
      isInheritedName (jsString (person.fields.get "Origin")) = false) :
    (forEachOutcome (PeopleAtEvents.new fi) rows s).thrown = none ∧
    s.SameIdentities (forEachOutcome (PeopleAtEvents.new fi) rows s).state ∧
    (forEachOutcome (PeopleAtEvents.new fi) rows s).state.delegatesOf index origin =
      s.delegatesOf index origin ++
        ((rows.map (Param.copyFields fi)).filter (PeopleAtEvents.joins s index origin)).map
          (fun fields => jsString (fields.get "UID")) := by
  induction rows generalizing s with
  | nil => exact ⟨rfl, State.SameIdentities.unchanged s, by simp [forEachOutcome]⟩
  | cons row rest ih =>
    obtain ⟨h1, h2, h3⟩ := PeopleAtEvents.new_joins fi row s index origin horigin
      (huid row (List.mem_cons_self _ _)) hplace
    rw [forEachOutcome_cons_of_ok _ _ _ _ h1]
    obtain ⟨i1, i2, i3⟩ := ih (PeopleAtEvents.new fi row s).state
      (fun r hr => huid r (List.mem_cons_of_mem _ hr)) (h2.origins hplace)
    refine ⟨i1, h2.followedBy i2, ?_⟩
    rw [i3, h3, List.map_cons, List.filter_cons, List.append_assoc]
    have hcongr : PeopleAtEvents.joins (PeopleAtEvents.new fi row s).state index origin =
        PeopleAtEvents.joins s index origin := by
      funext fields
      exact PeopleAtEvents.joins_congr s _ h2 index origin fields
    rw [hcongr]
    cases PeopleAtEvents.joins s index origin (Param.copyFields fi row) <;> simp

/-- C3 (as amended). When no UID of a row and no `Origin` of a person is the name of a member
inherited from `Object.prototype`, replaying any sequence of PeopleAtEvents rows throws
nothing and, for every event (position `index` of `Event.events`) and every non-blank origin,
appends to `event.countries[origin].delegates` exactly the UIDs, in row order, of the rows
that have a non-blank UID naming a Person whose `Origin` is that origin and an acronym
resolving to that event; so the list grows by the number of such rows. -/
theorem delegates_are_joined_rows (fieldIndexes : FieldIndexes) (rows : List Row) (s : State)
    (index : Nat) (origin : String) (horigin : origin ≠ "")
    (huid : ∀ row ∈ rows,
      isInheritedName (jsString ((Param.copyFields fieldIndexes row).get "UID")) = false)
    (hplace : ∀ uid person, s.people.get uid = some person →
      isInheritedName (jsString (person.fields.get "Origin")) = false) :
    (forEachOutcome (PeopleAtEvents.new fieldIndexes) rows s).thrown = none ∧
    (forEachOutcome (PeopleAtEvents.new fieldIndexes) rows s).state.delegatesOf index origin =
      s.delegatesOf index origin ++
        ((rows.map (Param.copyFields fieldIndexes)).filter
          (PeopleAtEvents.joins s index origin)).map
          (fun fields => jsString (fields.get "UID")) ∧
    ((forEachOutcome (PeopleAtEvents.new fieldIndexes) rows s).state.delegatesOf index
        origin).length =
      (s.delegatesOf index origin).length +
        ((rows.map (Param.copyFields fieldIndexes)).filter
          (PeopleAtEvents.joins s index origin)).length := by
  obtain ⟨h1, _, h3⟩ :=
    PeopleAtEvents.replay_joins fieldIndexes rows s index origin horigin huid hplace
  refine ⟨h1, h3, ?_⟩
  rw [h3, List.length_append, List.length_map]

theorem Example.parisDoc_origins :
    ∀ uid person,
      (Load.entities Example.host Example.parisDoc State.initial).people.get uid =
        some person →
      isInheritedName (jsString (person.fields.get "Origin")) = false := by
  have hpeople : (Load.entities Example.host Example.parisDoc State.initial).people =
      [("U1", { fields := [("UID", "U1"), ("FirstName", "A"), ("LastName", "B"),
                  ("Origin", "Paris")],
                name := "A B", peopleAtEvents := [] })] := by decide!
  intro uid person h
  rw [hpeople] at h
  simp only [Dict.get] at h
  split at h
  · rw [← Option.some.inj h]
    decide
  · cases h

/-- Witness of C3: the scenario of the specification, where the row `U1, E1` gives
`E1.countries["Paris"].delegates = ["U1"]`. -/
theorem delegates_are_joined_rows_witness :
    "Paris" ≠ "" ∧
    (∀ row ∈ [["U1", "E1"]],
      isInheritedName (jsString ((Param.copyFields Example.attendanceIndexes row).get "UID")) =
        false) ∧
    (forEachOutcome (PeopleAtEvents.new Example.attendanceIndexes) [["U1", "E1"]]
        (Load.entities Example.host Example.parisDoc State.initial)).state.delegatesOf 0
        "Paris" =
      (Load.entities Example.host Example.parisDoc State.initial).delegatesOf 0 "Paris" ++
        (([["U1", "E1"]].map (Param.copyFields Example.attendanceIndexes)).filter
          (PeopleAtEvents.joins (Load.entities Example.host Example.parisDoc State.initial) 0
            "Paris")).map
          (fun fields => jsString (fields.get "UID")) ∧
    (Load.sheets Example.host Example.parisDoc State.initial).delegatesOf 0 "Paris" = ["U1"] :=
  ⟨by decide, by decide,
    (delegates_are_joined_rows Example.attendanceIndexes [["U1", "E1"]]
      (Load.entities Example.host Example.parisDoc State.initial) 0 "Paris" (by decide)
      (by decide) Example.parisDoc_origins).2.1,
    by decide!⟩

/-- C3, counterexample. With a person of blank UID and origin Paris in the People sheet, the
rows `("", E1)` and `(U1, E1)` both have a resolved person of origin Paris and a resolved
event, so the specification lists the UIDs `""` and `U1`; the code skips the row with the
blank UID and `E1.countries["Paris"].delegates` is `["U1"]`.  In the scenario of the
specification the rows `(constructor, E1)` and `(U1, E1)` hold one row with a resolved
person, `(U1, E1)`; the read `Person.people['constructor']` finds the member inherited from
`Object.prototype`, the constructor throws a `TypeError` on the first row and the second is
not replayed: `E1.countries["Paris"]` has no delegate. -/
theorem joined_rows_are_not_delegates :
    (((([["", "E1"], ["U1", "E1"]] : List Row).map
          (Param.copyFields Example.attendanceIndexes)).filter
          (Spec.joins (Load.entities Example.host Example.blankUidDoc State.initial) 0
            "Paris")).map (fun fields => jsString (fields.get "UID")) = ["", "U1"] ∧
      (forEachOutcome (PeopleAtEvents.new Example.attendanceIndexes) [["", "E1"], ["U1", "E1"]]
          (Load.entities Example.host Example.blankUidDoc State.initial)).state.delegatesOf 0
          "Paris" = ["U1"] ∧
      (Load.sheets Example.host Example.blankUidDoc State.initial).delegatesOf 0 "Paris" ≠
        ((([["", "E1"], ["U1", "E1"]] : List Row).map
          (Param.copyFields Example.attendanceIndexes)).filter
          (Spec.joins (Load.entities Example.host Example.blankUidDoc State.initial) 0
            "Paris")).map (fun fields => jsString (fields.get "UID"))) ∧
    (((([["constructor", "E1"], ["U1", "E1"]] : List Row).map
          (Param.copyFields Example.attendanceIndexes)).filter
          (Spec.joins (Load.entities Example.host Example.parisDoc State.initial) 0
            "Paris")).map (fun fields => jsString (fields.get "UID")) = ["U1"] ∧
      (forEachOutcome (PeopleAtEvents.new Example.attendanceIndexes)
          [["constructor", "E1"], ["U1", "E1"]]
          (Load.entities Example.host Example.parisDoc State.initial)).thrown =
        some "TypeError" ∧
      (forEachOutcome (PeopleAtEvents.new Example.attendanceIndexes)
          [["constructor", "E1"], ["U1", "E1"]]
          (Load.entities Example.host Example.parisDoc State.initial)).state.delegatesOf 0
          "Paris" = []) := by
  refine ⟨⟨by decide!, by decide!, by decide!⟩, by decide!, by decide!, by decide!⟩

theorem Dict.get_map_values {β γ : Type} (d : Dict β) (g : β → γ) (k : String) :
    Dict.get (d.map (fun entry => (entry.1, g entry.2))) k = (d.get k).map g := by
  induction d with
  | nil => rfl
  | cons hd tl ih =>
    obtain ⟨k0, v⟩ := hd
    by_cases h : k0 = k
    · simp [Dict.get, h]
    · simp only [List.map_cons, Dict.get, h, if_false]
      exact ih

theorem State.lineOf_set (s : State) (place : String) (location : Location) (p o : String) :
    State.lineOf { s with locations := s.locations.set place location } p o =
      if p = place then location.countryLines.get o else s.lineOf p o := by
  unfold State.lineOf
  simp only [Dict.get_set]
  split <;> rfl

theorem Location.clearLines_get (location : Location) (o : String) :
    location.clearLines.countryLines.get o =
      (location.countryLines.get o).map CountryLine.cleared := by
  show Dict.get (location.countryLines.map
    (fun entry => (entry.1, CountryLine.cleared entry.2))) o = _
  exact Dict.get_map_values _ _ _

theorem CountryLine.cleared_cleared (line : Option CountryLine) :
    (line.map CountryLine.cleared).map CountryLine.cleared = line.map CountryLine.cleared := by
  cases line <;> rfl

theorem Location.clearCounts_lineOf (s : State) (p o : String) :
    (Location.clearCounts s).lineOf p o =
      if p ∈ s.eventLocations then (s.lineOf p o).map CountryLine.cleared else s.lineOf p o := by
  unfold Location.clearCounts
  generalize s.eventLocations = places
  induction places generalizing s with
  | nil => simp
  | cons place rest ih =>
    rw [List.foldl_cons, ih]
    have hstep : ∀ q : String,
        State.lineOf
          (match s.locations.get place with
            | none => s
            | some location =>
              { s with locations := s.locations.set place location.clearLines }) q o =
          if q = place then (s.lineOf q o).map CountryLine.cleared else s.lineOf q o := by
      intro q
      cases hl : s.locations.get place with
      | none =>
        simp only
        split
        · rename_i hq
          subst hq
          simp [State.lineOf, hl]
        · rfl
      | some location =>
        simp only
        rw [State.lineOf_set]
        split
        · rename_i hq
          subst hq
          rw [Location.clearLines_get]
          simp [State.lineOf, hl]
        · rfl
    rw [hstep]
    by_cases h1 : p = place
    · subst h1
      by_cases h2 : p ∈ rest
      · simp only [h2, if_true, List.mem_cons, true_or, CountryLine.cleared_cleared]
      · simp [h2]
    · by_cases h2 : p ∈ rest <;> simp [h1, h2]

theorem CountryLine.added_zero (line : Option CountryLine) :
    line.map (CountryLine.added 0) = line := by
  cases line with
  | none => rfl
  | some l =>
    cases l with
    | mk place location isCountryLine delegateCount line weight =>
      cases delegateCount <;> simp [CountryLine.added]

theorem CountryLine.added_added (a b : Nat) (line : Option CountryLine) :
    (line.map (CountryLine.added a)).map (CountryLine.added b) =
      line.map (CountryLine.added (a + b)) := by
  cases line with
  | none => rfl
  | some l =>
    cases l with
    | mk place location isCountryLine delegateCount line weight =>
      cases delegateCount <;> simp [CountryLine.added, Nat.add_assoc]

theorem Location.addCount_lineOf (place countryPlace : String) (n : Nat) (s : State)
    (h : (s.lineOf place countryPlace).isSome = true) :
    (Location.addCount place countryPlace n s).thrown = none ∧
    ∀ p o, (Location.addCount place countryPlace n s).state.lineOf p o =
      (s.lineOf p o).map (CountryLine.added (if p = place ∧ o = countryPlace then n else 0)) := by
  unfold Location.addCount
  cases hl : s.locations.get place with
  | none => simp [State.lineOf, hl] at h
  | some location =>
    cases hc : location.countryLines.get countryPlace with
    | none => simp [State.lineOf, hl, hc] at h
    | some line =>
      simp only [hc, true_and]
      intro p o
      rw [State.lineOf_set]
      by_cases hp : p = place
      · subst hp
        simp only [if_true, true_and, Dict.get_set]
        by_cases ho : o = countryPlace
        · subst ho
          simp [State.lineOf, hl, hc, CountryLine.added]
        · simp only [ho, if_false, CountryLine.added_zero]
          simp [State.lineOf, hl]
      · simp only [hp, if_false, false_and, CountryLine.added_zero]

theorem Location.addCounts_lineOf (place : String) (entries : Dict Country) (s : State)
    (h : ∀ entry ∈ entries, (s.lineOf place entry.1).isSome = true) :
    (forEachOutcome (fun (entry : String × Country) =>
        Location.addCount place entry.1 entry.2.delegates.length) entries s).thrown = none ∧
    ∀ p o, (forEachOutcome (fun (entry : String × Country) =>
        Location.addCount place entry.1 entry.2.delegates.length) entries s).state.lineOf p o =
      (s.lineOf p o).map
        (CountryLine.added (if p = place then Country.keySum entries o else 0)) := by
  induction entries generalizing s with
  | nil =>
    refine ⟨rfl, fun p o => ?_⟩
    simp [forEachOutcome, Country.keySum, CountryLine.added_zero]
  | cons entry rest ih =>
    obtain ⟨h1, h2⟩ := Location.addCount_lineOf place entry.1 entry.2.delegates.length s
      (h entry (List.mem_cons_self _ _))
    rw [forEachOutcome_cons_of_ok (fun (entry : String × Country) =>
      Location.addCount place entry.1 entry.2.delegates.length) entry rest s h1]
    have hrest : ∀ e ∈ rest,
        ((Location.addCount place entry.1 entry.2.delegates.length s).state.lineOf place
          e.1).isSome = true := by
      intro e he
      rw [h2]
      have := h e (List.mem_cons_of_mem _ he)
      cases hx : s.lineOf place e.1 with
      | none => rw [hx] at this; simp at this
      | some l => rfl
    obtain ⟨i1, i2⟩ := ih _ hrest
    refine ⟨i1, fun p o => ?_⟩
    rw [i2, h2, CountryLine.added_added]
    congr 2
    by_cases hp : p = place
    · subst hp
      by_cases ho : o = entry.1
      · subst ho
        simp [Country.keySum, List.filter_cons]
      · have ho' : ¬ entry.1 = o := fun e => ho e.symm
        simp [Country.keySum, List.filter_cons, ho, ho']
    · simp [hp]

theorem Country.keySum_of_nodup (entries : Dict Country) (origin : String)
    (h : entries.keys.Nodup) :
    Country.keySum entries origin =
      match entries.get origin with
      | some country => country.delegates.length
      | none => 0 := by
  induction entries with
  | nil => rfl
  | cons entry rest ih =>
    obtain ⟨k, c⟩ := entry
    have hn : k ∉ Dict.keys rest := by
      have := (List.nodup_cons.mp h).1
      simpa [Dict.keys] using this
    have hrest := ih (List.nodup_cons.mp h).2
    by_cases hk : k = origin
    · subst hk
      have hnone : Dict.get rest k = none := (Dict.get_eq_none_iff rest k).mpr hn
      rw [hnone] at hrest
      simp only [Country.keySum] at hrest
      simp [Country.keySum, List.filter_cons, Dict.get, hrest]
    · simp only [Country.keySum] at hrest
      simp [Country.keySum, List.filter_cons, Dict.get, hk, hrest]

theorem State.LinesAgree.unchanged_lines (s : State) : s.LinesAgree s := fun _ _ => rfl

theorem State.LinesAgree.thenAgree {s t u : State} (h1 : s.LinesAgree t) (h2 : t.LinesAgree u) :
    s.LinesAgree u := fun p o => (h2 p o).trans (h1 p o)

theorem forEachOutcome_ok_invariant {α : Type} (P : State → Prop) (body : α → State → Outcome)
    (h : ∀ a s, P s → (body a s).thrown = none ∧ P (body a s).state) (l : List α) (s : State)
    (hs : P s) :
    (forEachOutcome body l s).thrown = none ∧ P (forEachOutcome body l s).state := by
  induction l generalizing s with
  | nil => exact ⟨rfl, hs⟩
  | cons a rest ih =>
    obtain ⟨h1, h2⟩ := h a s hs
    rw [forEachOutcome_cons_of_ok body a rest s h1]
    exact ih _ h2

theorem Location.addEventCounts_lineOf (event : Event) (s : State)
    (hnodup : event.countries.keys.Nodup)
    (h : ∀ origin ∈ event.countries.keys, (s.lineOf event.location origin).isSome = true) :
    (Location.addEventCounts event s).thrown = none ∧
    ∀ p o, (Location.addEventCounts event s).state.lineOf p o =
      (s.lineOf p o).map (CountryLine.added (Spec.shownDelegates [event] p o)) := by
  unfold Location.addEventCounts
  by_cases hv : (event.filtered && event.shownOnMap) = true
  · simp only [hv, if_true]
    obtain ⟨h1, h2⟩ := Location.addCounts_lineOf event.location event.countries s
      (fun entry he => h entry.1 (List.mem_map_of_mem Prod.fst he))
    refine ⟨h1, fun p o => ?_⟩
    rw [h2, Country.keySum_of_nodup _ _ hnodup]
    congr 2
    by_cases hp : p = event.location
    · subst hp
      simp [Spec.shownDelegates, hv]
    · have hp' : ¬ event.location = p := fun e => hp e.symm
      simp [Spec.shownDelegates, hp, hp']
  · simp only [hv, if_false]
    refine ⟨rfl, fun p o => ?_⟩
    have : Spec.shownDelegates [event] p o = 0 := by
      simp only [Bool.not_eq_true] at hv
      simp [Spec.shownDelegates, List.filter_cons, hv]
    rw [this, CountryLine.added_zero]
    rfl

theorem Spec.shownDelegates_cons (event : Event) (rest : List Event) (p o : String) :
    Spec.shownDelegates (event :: rest) p o =
      Spec.shownDelegates [event] p o + Spec.shownDelegates rest p o := by
  unfold Spec.shownDelegates
  by_cases h : (event.filtered && event.shownOnMap && event.location == p) = true
  · simp [List.filter_cons, h]
  · simp [List.filter_cons, h]

theorem Location.addEvents_lineOf (events : List Event) (s : State)
    (h : ∀ event ∈ events, event.countries.keys.Nodup ∧
      ∀ origin ∈ event.countries.keys, (s.lineOf event.location origin).isSome = true) :
    (forEachOutcome Location.addEventCounts events s).thrown = none ∧
    ∀ p o, (forEachOutcome Location.addEventCounts events s).state.lineOf p o =
      (s.lineOf p o).map (CountryLine.added (Spec.shownDelegates events p o)) := by
  induction events generalizing s with
  | nil =>
    refine ⟨rfl, fun p o => ?_⟩
    simp [forEachOutcome, Spec.shownDelegates, CountryLine.added_zero]
  | cons event rest ih =>
    obtain ⟨hn, hl⟩ := h event (List.mem_cons_self _ _)
    obtain ⟨h1, h2⟩ := Location.addEventCounts_lineOf event s hn hl
    rw [forEachOutcome_cons_of_ok Location.addEventCounts event rest s h1]
    have hrest : ∀ e ∈ rest, e.countries.keys.Nodup ∧
        ∀ origin ∈ e.countries.keys,
          ((Location.addEventCounts event s).state.lineOf e.location origin).isSome = true := by
      intro e he
      obtain ⟨hn', hl'⟩ := h e (List.mem_cons_of_mem _ he)
      refine ⟨hn', fun origin ho => ?_⟩
      rw [h2]
      have := hl' origin ho
      cases hx : s.lineOf e.location origin with
      | none => rw [hx] at this; simp at this
      | some l => rfl
    obtain ⟨i1, i2⟩ := ih _ hrest
    refine ⟨i1, fun p o => ?_⟩
    rw [i2, h2, CountryLine.added_added, ← Spec.shownDelegates_cons]

theorem Location.showEntry_agree (place countryPlace : String) (s : State)
    (hflag : ∀ line, s.lineOf place countryPlace = some line → line.isCountryLine = true) :
    (Location.showEntry place countryPlace s).thrown = none ∧
    s.LinesAgree (Location.showEntry place countryPlace s).state := by
  unfold Location.showEntry
  cases hl : s.locations.get place with
  | none => exact ⟨rfl, State.LinesAgree.unchanged_lines s⟩
  | some location =>
    cases hc : location.countryLines.get countryPlace with
    | none => simp only [hc, true_and]; exact State.LinesAgree.unchanged_lines s
    | some line =>
      have hline : s.lineOf place countryPlace = some line := by
        simp [State.lineOf, hl, hc]
      have ht := hflag line hline
      simp only [hc, ht, if_true, true_and]
      intro p o
      rw [State.lineOf_set]
      by_cases hp : p = place
      · subst hp
        simp only [if_true, Dict.get_set]
        by_cases ho : o = countryPlace
        · subst ho
          rw [hline]
          simp only [if_true, Option.map_some', Option.some.injEq, Prod.mk.injEq]
          unfold CountryLine.showLine
          split <;> simp
        · simp only [ho, if_false]
          simp [State.lineOf, hl]
      · simp only [hp, if_false]

theorem State.Drawn.of_agree {s t : State} (h : s.LinesAgree t) (place : String)
    (hd : s.Drawn place) : t.Drawn place := by
  intro o line hline
  have := h place o
  rw [hline] at this
  cases hs : s.lineOf place o with
  | none => rw [hs] at this; simp at this
  | some l =>
    rw [hs] at this
    simp only [Option.map_some', Option.some.injEq, Prod.mk.injEq] at this
    rw [this.2]
    exact hd o l hs

theorem Location.showLines_agree (place : String) (s : State) (hd : s.Drawn place) :
    (Location.showLines place s).thrown = none ∧
    s.LinesAgree (Location.showLines place s).state := by
  unfold Location.showLines
  cases hl : s.locations.get place with
  | none => exact ⟨rfl, State.LinesAgree.unchanged_lines s⟩
  | some location =>
    exact forEachOutcome_ok_invariant (fun t => s.LinesAgree t)
      (fun countryPlace => Location.showEntry place countryPlace)
      (fun cp t ht => by
        obtain ⟨h1, h2⟩ := Location.showEntry_agree place cp t
          (fun line hline => (State.Drawn.of_agree ht place hd) cp line hline)
        exact ⟨h1, ht.thenAgree h2⟩)
      _ s (State.LinesAgree.unchanged_lines s)

theorem Location.showAll_agree (places : List String) (s : State)
    (hd : ∀ place ∈ places, s.Drawn place) :
    (forEachOutcome Location.showLines places s).thrown = none ∧
    s.LinesAgree (forEachOutcome Location.showLines places s).state := by
  induction places generalizing s with
  | nil => exact ⟨rfl, State.LinesAgree.unchanged_lines s⟩
  | cons place rest ih =>
    obtain ⟨h1, h2⟩ := Location.showLines_agree place s (hd place (List.mem_cons_self _ _))
    rw [forEachOutcome_cons_of_ok Location.showLines place rest s h1]
    obtain ⟨i1, i2⟩ := ih _ (fun q hq =>
      State.Drawn.of_agree h2 q (hd q (List.mem_cons_of_mem _ hq)))
    exact ⟨i1, h2.thenAgree i2⟩

theorem State.Renderable.drawn (s : State) (h : s.Renderable) (place : String)
    (hp : place ∈ s.eventLocations) : s.Drawn place := by
  intro o line hline
  unfold State.lineOf at hline
  cases hl : s.locations.get place with
  | none => rw [hl] at hline; simp at hline
  | some location =>
    rw [hl] at hline
    exact h.2 place hp (place, location) (Dict.mem_of_get _ _ _ hl) rfl (o, line)
      (Dict.mem_of_get _ _ _ hline)

/-- C1. In a renderable state (every event sits at a Location of `Event.locations` holding a
line for each of its origins, the lines being `CountryLine` objects), `Location.renderMap`
throws nothing, leaves `Event.events` and `Event.locations` as they are, and for every place
of `Event.locations` and every origin registered in its `countryLines` the `delegateCount` is
the sum, over the events at that place that are `filtered` and `shownOnMap` and have a Country
for the origin, of the length of that Country's delegate list (`0` when there is none). -/
theorem renderMap_counts (s : State) (h : s.Renderable) :
    (Location.renderMap s).thrown = none ∧
    (Location.renderMap s).state.events = s.events ∧
    (Location.renderMap s).state.eventLocations = s.eventLocations ∧
    ∀ place ∈ s.eventLocations, ∀ location,
      (Location.renderMap s).state.locations.get place = some location →
      ∀ origin ∈ location.countryLines.keys,
        (Location.renderMap s).state.countOf place origin =
          some (Spec.shownDelegates s.events place origin) := by
  have hsame := Location.renderMap_sameButLocations s
  -- the counts after the reset
  have hclear := Location.clearCounts_lineOf s
  have hclear_some : ∀ p o, ((Location.clearCounts s).lineOf p o).isSome = (s.lineOf p o).isSome := by
    intro p o
    rw [hclear]
    split <;> cases s.lineOf p o <;> rfl
  -- the sums
  obtain ⟨hadd1, hadd2⟩ := Location.addEvents_lineOf s.events (Location.clearCounts s)
    (fun event he => ⟨(h.1 event he).2.1, fun origin ho => by
      rw [hclear_some]; exact (h.1 event he).2.2 origin ho⟩)
  -- the weights
  have hdrawn : ∀ place ∈ s.eventLocations,
      (forEachOutcome Location.addEventCounts s.events (Location.clearCounts s)).state.Drawn
        place := by
    intro place hp o line hline
    rw [hadd2, hclear, if_pos hp] at hline
    cases hs : s.lineOf place o with
    | none => rw [hs] at hline; simp at hline
    | some l =>
      rw [hs] at hline
      simp only [Option.map_some', Option.some.injEq] at hline
      rw [← hline]
      exact h.drawn s place hp o l hs
  have hel : (forEachOutcome Location.addEventCounts s.events
      (Location.clearCounts s)).state.eventLocations = s.eventLocations :=
    ((Location.clearCounts_sameButLocations s).andThen
      (forEachOutcome_sameButLocations _ Location.addEventCounts_sameButLocations _ _)).eventLocations
  obtain ⟨hshow1, hshow2⟩ := Location.showAll_agree s.eventLocations
    (forEachOutcome Location.addEventCounts s.events (Location.clearCounts s)).state hdrawn
  have hrender : Location.renderMap s =
      forEachOutcome Location.showLines s.eventLocations
        (forEachOutcome Location.addEventCounts s.events (Location.clearCounts s)).state := by
    unfold Location.renderMap Outcome.andThen
    simp only [hadd1, hel]
  refine ⟨by rw [hrender]; exact hshow1, hsame.events, hsame.eventLocations, ?_⟩
  intro place hp location hloc origin horigin
  have hline : ((Location.renderMap s).state.lineOf place origin).isSome = true := by
    unfold State.lineOf
    rw [hloc]
    exact (Dict.get_isSome_iff _ _).mpr horigin
  have hagree := hshow2 place origin
  rw [← hrender, hadd2, hclear, if_pos hp] at hagree
  unfold State.countOf
  cases hfin : (Location.renderMap s).state.lineOf place origin with
  | none => rw [hfin] at hline; simp at hline
  | some line =>
    rw [hfin] at hagree
    cases hs : s.lineOf place origin with
    | none => rw [hs] at hagree; simp at hagree
    | some l =>
      rw [hs] at hagree
      simp only [Option.map_some', Option.some.injEq, Prod.mk.injEq] at hagree
      show line.delegateCount = _
      rw [hagree.1]
      simp [CountryLine.added, CountryLine.cleared]

/-- Witness of C1: the loaded example with every event shown; Paris receives one delegate from
Paris and one from Rome, Rome one from Paris. -/
theorem renderMap_counts_witness :
    Example.shown.Renderable ∧
    ((Location.renderMap Example.shown).thrown = none ∧
      (Location.renderMap Example.shown).state.events = Example.shown.events) ∧
    (Location.renderMap Example.shown).state.countOf "Paris" "Rome" = some 1 ∧
    (Location.renderMap Example.shown).state.countOf "Paris" "Paris" = some 1 ∧
    (Location.renderMap Example.shown).state.countOf "Rome" "Paris" = some 1 :=
  ⟨by decide!,
    ⟨(renderMap_counts Example.shown (by decide!)).1,
      (renderMap_counts Example.shown (by decide!)).2.1⟩,
    by decide!, by decide!, by decide!⟩

theorem Dict.mem_set {β : Type} (d : Dict β) (k : String) (v : β) (entry : String × β)
    (h : entry ∈ d.set k v) : entry ∈ d ∨ entry = (k, v) := by
  induction d with
  | nil =>
    simp only [Dict.set, List.mem_singleton] at h
    exact Or.inr h
  | cons hd tl ih =>
    obtain ⟨k0, w⟩ := hd
    by_cases h0 : k0 = k
    · simp only [Dict.set, h0, if_true, List.mem_cons] at h
      rcases h with h | h
      · exact Or.inr h
      · exact Or.inl (List.mem_cons_of_mem _ h)
    · simp only [Dict.set, h0, if_false, List.mem_cons] at h
      rcases h with h | h
      · exact Or.inl (by rw [h]; exact List.mem_cons_self _ _)
      · rcases ih h with h' | h'
        · exact Or.inl (List.mem_cons_of_mem _ h')
        · exact Or.inr h'

theorem Location.new_unranked (fi : FieldIndexes) (row : Row) (s : State) (h : s.Unranked) :
    (Location.new fi row s).state.Unranked := by
  unfold Location.new
  simp only
  split
  · refine ⟨h.1, h.2.1, ?_⟩
    intro entry he
    rcases Dict.mem_set _ _ _ _ he with h' | h'
    · exact h.2.2 entry h'
    · rw [h']
  · exact h

theorem Location.load_leaves_unranked (sheet : Option (List Row)) :
    (Param.load Location.sheet sheet State.initial).state.Unranked := by
  have h0 : State.initial.Unranked := ⟨rfl, rfl, by intro entry he; cases he⟩
  unfold Param.load
  cases sheet with
  | none => exact h0
  | some rows =>
    cases rows with
    | nil => exact h0
    | cons header rows =>
      simp only
      split
      · exact forEachOutcome_invariant State.Unranked _
          (fun row t ht => Location.new_unranked _ row t ht) rows _ h0
      · exact h0

theorem Organiser.load_keeps_unranked (sheet : Option (List Row)) (s : State) (h : s.Unranked) :
    (Param.load Organiser.sheet sheet s).state.Unranked := by
  unfold Param.load
  cases sheet with
  | none => exact h
  | some rows =>
    cases rows with
    | nil => exact h
    | cons header rows =>
      simp only
      split
      · exact forEachOutcome_invariant State.Unranked _
          (fun row t ht => ht) rows _ h
      · exact h

theorem State.Unranked.toRanksOrdered (s : State) (h : s.Unranked) : s.RanksOrdered :=
  State.RanksOrdered.of_unranked s h.1 h.2.1 h.2.2

/-- Starting from a state whose ranks are those of discovery, replaying any sequence of
Events rows leaves the ranks (`hasEvent`) of the locations of `Event.locations` pairwise
distinct and exactly `1..Event.locationsCount` in the order in which the locations were put
in `Event.locations`, which is the order of their first reference by a registered event; and
a rank that was set never changes.  The state left by the Locations and Organisers sheets,
where no Location has a rank, is such a state. -/
theorem event_ranks (host : Host) (fieldIndexes : FieldIndexes) (rows : List Row) (s : State)
    (h : s.RanksOrdered) :
    ((forEachOutcome (Event.new host fieldIndexes) rows s).state.RanksOrdered ∧
      ((forEachOutcome (Event.new host fieldIndexes) rows s).state.eventLocations.map
          (forEachOutcome (Event.new host fieldIndexes) rows s).state.rankOf).Nodup ∧
      (forEachOutcome (Event.new host fieldIndexes) rows s).state.eventLocations.map
          (forEachOutcome (Event.new host fieldIndexes) rows s).state.rankOf =
        (List.range' 1
          (forEachOutcome (Event.new host fieldIndexes) rows s).state.locationsCount).map some ∧
      (∃ newEvents,
        (forEachOutcome (Event.new host fieldIndexes) rows s).state.events =
          s.events ++ newEvents ∧
        (forEachOutcome (Event.new host fieldIndexes) rows s).state.eventLocations =
          firstReferences s.eventLocations (newEvents.map Event.location)) ∧
      (∀ place rank, s.rankOf place = some rank →
        (forEachOutcome (Event.new host fieldIndexes) rows s).state.rankOf place = some rank)) ∧
    (∀ locations organisers : Option (List Row),
      (Param.load Organiser.sheet organisers
        (Param.load Location.sheet locations State.initial).state).state.RanksOrdered) :=
  ⟨Event.replay_ranks host fieldIndexes rows s h,
    fun locations organisers =>
      (Organiser.load_keeps_unranked organisers _ (Location.load_leaves_unranked locations)).toRanksOrdered⟩

/-! ## C11: the weight of a line -/

theorem CountryLine.shownWeight_eq (const : Const) (this : CountryLine) (n : Nat) :
    CountryLine.shownWeight const this n =
      if n = 0 then 0 else clampRange (n : ℚ) const.lineMinWidth const.lineMaxWidth := by
  simp [CountryLine.shownWeight, CountryLine.showLine]

theorem clampRange_mem (x lo hi : ℚ) (h : lo ≤ hi) :
    lo ≤ clampRange x lo hi ∧ clampRange x lo hi ≤ hi := by
  unfold clampRange
  exact ⟨le_min (le_max_right _ _) h, min_le_right _ _⟩

theorem clampRange_of_mem (x lo hi : ℚ) (h1 : lo ≤ x) (h2 : x ≤ hi) :
    clampRange x lo hi = x := by
  unfold clampRange
  rw [max_eq_left h1, min_eq_left h2]

theorem clampRange_mono (x y lo hi : ℚ) (h : x ≤ y) :
    clampRange x lo hi ≤ clampRange y lo hi := by
  unfold clampRange
  exact min_le_min (max_le_max h le_rfl) le_rfl

theorem clampRange_pos (x lo hi : ℚ) (hx : 0 < x) (hhi : 0 < hi) :
    0 < clampRange x lo hi := by
  unfold clampRange
  exact lt_min (lt_of_lt_of_le hx (le_max_left _ _)) hhi

/-- C11, counterexample. With both width bounds configured to 0 (so that
`lineMinWidth <= lineMaxWidth`), a line that counts 5 delegates gets the weight 0. -/
theorem showLine_weight_zero_bounds :
    Example.flatConst.lineMinWidth ≤ Example.flatConst.lineMaxWidth ∧
    CountryLine.shownWeight Example.flatConst (CountryLine.placeholder "Rome") 5 = 0 := by
  constructor
  · simp [Example.flatConst]
  · rw [CountryLine.shownWeight_eq]
    simp [Example.flatConst, clampRange]

/-- C11, amended. With bounds `lineMinWidth <= lineMaxWidth` and `0 < lineMaxWidth`, the
weight `showLine` gives to a line with `n` delegates is 0 exactly when `n = 0`; for `n > 0`
it is `clampRange(n, lineMinWidth, lineMaxWidth)`, which lies between the bounds and is `n`
when `n` lies between them; and the weight is non-decreasing in `n`. -/
theorem showLine_weight (const : Const) (this : CountryLine) (n m : Nat)
    (hb : const.lineMinWidth ≤ const.lineMaxWidth) (hpos : 0 < const.lineMaxWidth) :
    (CountryLine.shownWeight const this n = 0 ↔ n = 0) ∧
    (0 < n →
      CountryLine.shownWeight const this n =
          clampRange (n : ℚ) const.lineMinWidth const.lineMaxWidth ∧
        const.lineMinWidth ≤ CountryLine.shownWeight const this n ∧
        CountryLine.shownWeight const this n ≤ const.lineMaxWidth ∧
        (const.lineMinWidth ≤ (n : ℚ) → (n : ℚ) ≤ const.lineMaxWidth →
          CountryLine.shownWeight const this n = (n : ℚ))) ∧
    (n ≤ m → CountryLine.shownWeight const this n ≤ CountryLine.shownWeight const this m) := by
  have hposn : ∀ k : Nat, k ≠ 0 →
      0 < clampRange (k : ℚ) const.lineMinWidth const.lineMaxWidth := by
    intro k hk
    exact clampRange_pos _ _ _ (by exact_mod_cast Nat.pos_of_ne_zero hk) hpos
  refine ⟨?_, ?_, ?_⟩
  · rw [CountryLine.shownWeight_eq]
    by_cases hn : n = 0
    · simp [hn]
    · simp only [hn, if_false, iff_false]
      exact ne_of_gt (hposn n hn)
  · intro hn
    have hn0 : n ≠ 0 := Nat.pos_iff_ne_zero.mp hn
    rw [CountryLine.shownWeight_eq]
    simp only [hn0, if_false]
    exact ⟨trivial, (clampRange_mem _ _ _ hb).1, (clampRange_mem _ _ _ hb).2,
      fun h1 h2 => clampRange_of_mem _ _ _ h1 h2⟩
  · intro hnm
    rw [CountryLine.shownWeight_eq, CountryLine.shownWeight_eq]
    by_cases hn : n = 0
    · by_cases hm : m = 0
      · simp [hn, hm]
      · simp only [hn, hm, if_true, if_false]
        exact le_of_lt (hposn m hm)
    · have hm : m ≠ 0 := by omega
      simp only [hn, hm, if_false]
      exact clampRange_mono _ _ _ _ (by exact_mod_cast hnm)

/-- Witness of C11: the default bounds 2 and 17, counts 3 and 20. -/
theorem showLine_weight_witness :
    (Const.default.lineMinWidth ≤ Const.default.lineMaxWidth ∧
      0 < Const.default.lineMaxWidth) ∧
    (CountryLine.shownWeight Const.default (CountryLine.placeholder "Rome") 3 ≤
      CountryLine.shownWeight Const.default (CountryLine.placeholder "Rome") 20) :=
  ⟨⟨by norm_num [Const.default], by norm_num [Const.default]⟩,
    (showLine_weight Const.default (CountryLine.placeholder "Rome") 3 20
      (by norm_num [Const.default]) (by norm_num [Const.default])).2.2 (by decide)⟩

/-! ## C14: the date range -/

/-- C14. The date sub-predicate of `Event.filter` excludes no event when the start bound is
not strictly less than the finish bound; when it is, an event passes exactly when its start
time is a number `t` with `start <= t <= finish` (an event with the start time `-Infinity`
does not pass); and an event that fails it gets `filtered = false`. -/
theorem filter_date_range (const : Const) (test : String → Bool) (input : FilterInput)
    (event : Event) :
    (¬ input.startTime < input.finishTime → Event.passesDate input event = true) ∧
    (input.startTime < input.finishTime →
      (Event.passesDate input event = true ↔
        ∃ t, event.startTime = .ms t ∧ input.startTime ≤ t ∧ t ≤ input.finishTime)) ∧
    (Event.passesDate input event = false → Event.passes const test input event = false) := by
  refine ⟨?_, ?_, ?_⟩
  · intro h
    simp [Event.passesDate, h]
  · intro h
    unfold Event.passesDate
    cases hst : event.startTime with
    | negInfinity => simp [h, StartTime.le]
    | ms t => simp [h, StartTime.le]
  · intro h
    simp [Event.passes, h]

/-- Witness of C14: the range from 0 to 10 and an event that starts at 10. -/
theorem filter_date_range_witness :
    Event.passesDate
        { eventPattern := "", startTime := 0, finishTime := 10, locationPattern := "",
          originPattern := "" }
        { oid := 0, fields := [], countries := [], filtered := true, startTime := .ms 10,
          location := "", organiser := none, shownOnMap := false, cellIndex := none } = true :=
  ((filter_date_range Const.default (fun _ => true)
      { eventPattern := "", startTime := 0, finishTime := 10, locationPattern := "",
        originPattern := "" }
      { oid := 0, fields := [], countries := [], filtered := true, startTime := .ms 10,
        location := "", organiser := none, shownOnMap := false, cellIndex := none }).2.1
    (by decide)).mpr ⟨10, rfl, by decide, by decide⟩

/-! ## C20: a person with a blank origin -/

/-- C20. A row with a non-blank UID whose person and event both resolve, the person having
a blank `Origin` (empty or absent), is appended to the attendance list of the person and
changes nothing else: `Event.events` (hence every `countries` mapping) and
`Location.locations` (hence every `countryLines` mapping) are as they were, nothing is
thrown and the loop goes on with the next row. -/
theorem blank_origin_row (fieldIndexes : FieldIndexes) (row : Row) (rest : List Row)
    (s : State) (person : Person) (index : Nat)
    (hblank : isBlank ((Param.copyFields fieldIndexes row).get "UID") = false)
    (hp : s.people.get (jsString ((Param.copyFields fieldIndexes row).get "UID")) = some person)
    (he : Event.findById s.events ((Param.copyFields fieldIndexes row).get "Acronym") =
      some index)
    (ho : isBlank (person.fields.get "Origin") = true) :
    PeopleAtEvents.new fieldIndexes row s =
      { state :=
          { s with
            people := s.people.set (jsString ((Param.copyFields fieldIndexes row).get "UID"))
              { person with
                peopleAtEvents := person.peopleAtEvents ++
                  [{ fields := Param.copyFields fieldIndexes row,
                     event := ((s.events.get? index).map Event.oid).getD 0 }] } },
        thrown := none } ∧
    (PeopleAtEvents.new fieldIndexes row s).state.events = s.events ∧
    (PeopleAtEvents.new fieldIndexes row s).state.locations = s.locations ∧
    forEachOutcome (PeopleAtEvents.new fieldIndexes) (row :: rest) s =
      forEachOutcome (PeopleAtEvents.new fieldIndexes) rest
        (PeopleAtEvents.new fieldIndexes row s).state := by
  have hnew := PeopleAtEvents.new_of_resolved fieldIndexes row s person index hblank hp he
  rw [Event.addDelegate_of_blank _ _ _ _ _ ho] at hnew
  refine ⟨hnew, by rw [hnew], by rw [hnew], ?_⟩
  exact forEachOutcome_cons_of_ok _ _ _ _ (by rw [hnew])

/-- Witness of C20: the row `U1, E1` of a document whose person `U1` has an empty `Origin`. -/
theorem blank_origin_row_witness :
    (PeopleAtEvents.new Example.attendanceIndexes ["U1", "E1"]
        (Load.entities Example.host Example.blankOriginDoc State.initial)).state.events =
      (Load.entities Example.host Example.blankOriginDoc State.initial).events :=
  (blank_origin_row Example.attendanceIndexes ["U1", "E1"] []
    (Load.entities Example.host Example.blankOriginDoc State.initial)
    { fields := [("UID", "U1"), ("FirstName", "A"), ("LastName", "B"), ("Origin", "")],
      name := "A B", peopleAtEvents := [] } 0
    (by decide) (by decide!) (by decide!) (by decide)).2.1

/-! ## C17, C18: the Events rows and the `Start` column -/

theorem Event.new_of_unknown_frame (host : Host) (fi : FieldIndexes) (row : Row)
    (rest : List Row) (s : State) (start : String)
    (h : isBlank ((Param.copyFields fi row).get "Acronym") = false)
    (hs : (Param.copyFields fi row).get "Start" = some start)
    (hl : s.locations.get (jsString ((Param.copyFields fi row).get "Location")) = none) :
    (Event.new host fi row s).state =
      Load.message
        ("Unknown location " ++ jsString ((Param.copyFields fi row).get "Location") ++ " for " ++
          jsString ((Param.copyFields fi row).get "Acronym")) s ∧
    (Event.new host fi row s).state.events = s.events ∧
    (Event.new host fi row s).state.eventLocations = s.eventLocations ∧
    (Event.new host fi row s).state.locationsCount = s.locationsCount ∧
    (Event.new host fi row s).state.locations = s.locations ∧
    forEachOutcome (Event.new host fi) (row :: rest) s =
      forEachOutcome (Event.new host fi) rest (Event.new host fi row s).state := by
  have hnew := Event.new_of_unknown host fi row s start h hs hl
  refine ⟨by rw [hnew], by rw [hnew]; rfl, by rw [hnew]; rfl, by rw [hnew]; rfl,
    by rw [hnew]; rfl, ?_⟩
  exact forEachOutcome_cons_of_ok _ _ _ _ (by rw [hnew])

/-- C17, failing input. On an Events sheet with the header `Acronym, Location` (no `Start`
column), the row `E4, Oslo` names a location that is not in `Location.locations`; the
constructor throws a `TypeError` at `this.Start.replace` before the lookup: no diagnostic is
recorded and the next row `E1, Paris` is not processed. -/
theorem unknown_location_without_start :
    (Example.afterLocations.locations.get "Oslo" = none ∧
      (Example.afterLocations.locations.get "Paris").isSome = true) ∧
    (Param.load (Event.sheet Example.host) (some Example.noStartUnknown)
        Example.afterLocations).thrown = some "TypeError" ∧
    (Param.load (Event.sheet Example.host) (some Example.noStartUnknown)
        Example.afterLocations).state.messageText = "" ∧
    (Param.load (Event.sheet Example.host) (some Example.noStartUnknown)
        Example.afterLocations).state.events = [] := by
  refine ⟨⟨by decide!, by decide!⟩, by decide!, by decide!, by decide!⟩

/-- C18, failing input. On an Events sheet with the header `Acronym, Location` (no `Start`
column) and the rows `E1, Paris` and `E2, Rome`, both locations known, the constructor
throws a `TypeError` on the first row: no event is registered and the load of the sheet
stops. -/
theorem events_without_start_column :
    Param.extracts (Event.sheet Example.host) ["Acronym", "Location"] ∧
    (Param.load (Event.sheet Example.host) (some Example.noStartEvents)
        Example.afterLocations).thrown = some "TypeError" ∧
    (Param.load (Event.sheet Example.host) (some Example.noStartEvents)
        Example.afterLocations).state.events = [] ∧
    (Param.load (Event.sheet Example.host) (some Example.noStartEvents)
        Example.afterLocations).state.locationsCount = 0 := by
  refine ⟨by decide!, by decide!, by decide!, by decide!⟩

/-- C6, failing input. In the document of the two sites with an Events sheet whose header
is `Acronym, Location` (no `Start` column), the rows `E1, Paris` and `E2, Rome` both have an
acronym that is not blank and a location that resolves, but the constructor throws on the
first of them: after the load in boot order and `Event.initialise`, which throws nothing,
`Event.events` is empty and holds neither event. -/
theorem initialise_without_start_column :
    ((Example.noStartEvents.tail.map
        (Param.copyFields (Param.scanHeader (Event.sheet Example.host).requiredFields
          (Event.sheet Example.host).optionalFields ["Acronym", "Location"]).fieldIndexes)).filter
        (Event.registers Example.afterLocations)).map (fun fields => fields.get "Acronym") =
      [some "E1", some "E2"] ∧
    (Event.initialise (Load.sheets Example.host Example.noStartDoc State.initial)).thrown =
      none ∧
    (Event.initialise (Load.sheets Example.host Example.noStartDoc State.initial)).state.events =
      [] := by
  refine ⟨by decide!, by decide!, by decide!⟩

/-! ## C19: a person whose origin is not a Location -/

theorem Event.addDelegate_frame (index : Nat) (origin acronym : Option String) (uid : String)
    (s : State) :
    (Event.addDelegate index origin acronym uid s).state.messageText = s.messageText ∧
    (Event.addDelegate index origin acronym uid s).state.alerts = s.alerts := by
  unfold Event.addDelegate
  cases s.events.get? index with
  | none => exact ⟨rfl, rfl⟩
  | some this =>
    simp only
    split
    · split <;> exact ⟨rfl, rfl⟩
    · exact ⟨rfl, rfl⟩

theorem Event.addDelegate_unknown (index : Nat) (origin acronym : Option String) (uid : String)
    (s : State) (place : String) (h : s.locations.get place = none) :
    (Event.addDelegate index origin acronym uid s).state.locations.get place = none := by
  unfold Event.addDelegate
  cases s.events.get? index with
  | none => exact h
  | some this =>
    simp only
    split
    · split
      · exact h
      · cases hl : s.locations.get this.location with
        | none => exact h
        | some location =>
          simp only
          rw [Dict.get_set_ne _ _ _ _ (by intro e; subst e; rw [h] at hl; cases hl)]
          exact h
    · exact h

theorem CountryLine.new_of_unknown_place (place eventLocation : String) (s : State)
    (h : s.locations.get place = none) :
    (CountryLine.new place eventLocation s).alerts =
      s.alerts ++ ["People Origin: " ++ place ++ " not in Locations"] ∧
    (CountryLine.new place eventLocation s).messageText = s.messageText ∧
    (∀ location, s.locations.get eventLocation = some location →
      (CountryLine.new place eventLocation s).lineOf eventLocation place =
        some { place := place, location := eventLocation, isCountryLine := true,
               delegateCount := some 0, line := false, weight := 0 }) := by
  unfold CountryLine.new
  simp only [h, Bool.false_eq_true, if_false]
  cases hl : s.locations.get eventLocation with
  | none => exact ⟨rfl, rfl, fun _ hx => Option.noConfusion hx⟩
  | some location =>
    refine ⟨rfl, rfl, fun _ _ => ?_⟩
    simp [State.lineOf, Dict.get_set_self]

/-- C19, counterexample. In a document whose person `U1` declares the origin `Atlantis`,
which is not a Location, the attendance row `U1, E1` is joined: `U1` becomes a delegate of
the Country `Atlantis` of the event, and the message buffer stays empty.  In a document whose
person `U1` declares the origin `constructor`, which is not a Location either, the read
`this.countries['constructor']` finds the member inherited from `Object.prototype`: the row
throws a `TypeError`, and nothing is written in the message buffer. -/
theorem unknown_origin_row_is_joined :
    ((Load.entities Example.host Example.unknownOriginDoc State.initial).locations.get
        "Atlantis" = none ∧
      (Load.entities Example.host Example.unknownOriginDoc State.initial).delegatesOf 0
        "Atlantis" = [] ∧
      (PeopleAtEvents.new Example.attendanceIndexes ["U1", "E1"]
          (Load.entities Example.host Example.unknownOriginDoc State.initial)).state.delegatesOf
          0 "Atlantis" = ["U1"] ∧
      (PeopleAtEvents.new Example.attendanceIndexes ["U1", "E1"]
          (Load.entities Example.host Example.unknownOriginDoc State.initial)).state.messageText =
        "") ∧
    ((Load.entities Example.host Example.inheritedOriginDoc State.initial).locations.get
        "constructor" = none ∧
      (PeopleAtEvents.new Example.attendanceIndexes ["U1", "E1"]
          (Load.entities Example.host Example.inheritedOriginDoc State.initial)).thrown =
        some "TypeError" ∧
      (PeopleAtEvents.new Example.attendanceIndexes ["U1", "E1"]
          (Load.entities Example.host Example.inheritedOriginDoc
            State.initial)).state.delegatesOf 0 "constructor" = [] ∧
      (PeopleAtEvents.new Example.attendanceIndexes ["U1", "E1"]
          (Load.entities Example.host Example.inheritedOriginDoc
            State.initial)).state.messageText = "") := by
  refine ⟨⟨by decide!, by decide!, by decide!, by decide!⟩,
    by decide!, by decide!, by decide!, by decide!⟩

/-- C19, amended. A row with a non-blank UID whose person and event both resolve, the person
declaring a non-blank origin that is not a key of `Location.locations` (and not the name of a
member inherited from `Object.prototype`), is joined like any other row: nothing is thrown,
the UID is appended to the delegates of the event's Country of that origin, the message
buffer is unchanged, the origin is still no key of `Location.locations`, and the loop goes on
with the next row. -/
theorem unknown_origin_row (fieldIndexes : FieldIndexes) (row : Row) (rest : List Row)
    (s : State) (person : Person) (index : Nat) (origin : String)
    (hblank : isBlank ((Param.copyFields fieldIndexes row).get "UID") = false)
    (hp : s.people.get (jsString ((Param.copyFields fieldIndexes row).get "UID")) = some person)
    (he : Event.findById s.events ((Param.copyFields fieldIndexes row).get "Acronym") =
      some index)
    (ho : person.fields.get "Origin" = some origin) (horigin : origin ≠ "")
    (hunknown : s.locations.get origin = none)
    (hplain : isInheritedName origin = false) :
    (PeopleAtEvents.new fieldIndexes row s).thrown = none ∧
    (PeopleAtEvents.new fieldIndexes row s).state.delegatesOf index origin =
      s.delegatesOf index origin ++ [jsString ((Param.copyFields fieldIndexes row).get "UID")] ∧
    (PeopleAtEvents.new fieldIndexes row s).state.messageText = s.messageText ∧
    (PeopleAtEvents.new fieldIndexes row s).state.locations.get origin = none ∧
    forEachOutcome (PeopleAtEvents.new fieldIndexes) (row :: rest) s =
      forEachOutcome (PeopleAtEvents.new fieldIndexes) rest
        (PeopleAtEvents.new fieldIndexes row s).state := by
  have hnew := PeopleAtEvents.new_of_resolved fieldIndexes row s person index hblank hp he
  rw [ho] at hnew
  have hlt := Event.findById_lt _ _ _ he
  generalize hs1 : ({ s with
      people := s.people.set (jsString ((Param.copyFields fieldIndexes row).get "UID"))
        { person with
          peopleAtEvents := person.peopleAtEvents ++
            [{ fields := Param.copyFields fieldIndexes row,
               event := ((s.events.get? index).map Event.oid).getD 0 }] } } : State) = s1
    at hnew
  have he1 : s1.events = s.events := by rw [← hs1]
  have hm1 : s1.messageText = s.messageText := by rw [← hs1]
  have hl1 : s1.locations = s.locations := by rw [← hs1]
  have hlt1 : index < s1.events.length := by rw [he1]; exact hlt
  have hthis1 : s1.events.get? index = some (s1.events.get ⟨index, hlt1⟩) :=
    List.get?_eq_get hlt1
  have hthrown : (PeopleAtEvents.new fieldIndexes row s).thrown = none := by
    rw [hnew, Event.addDelegate_of_plain index origin _ _ s1 _ hthis1 horigin hplain]
  refine ⟨hthrown, ?_, ?_, ?_, forEachOutcome_cons_of_ok _ _ _ _ hthrown⟩
  · rw [hnew, Event.addDelegate_delegatesOf index origin _ _ s1 hlt1 horigin hplain index origin]
    have hd : s1.delegatesOf index origin = s.delegatesOf index origin := by
      unfold State.delegatesOf
      rw [he1]
    rw [hd]
    simp
  · rw [hnew, (Event.addDelegate_frame _ _ _ _ _).1, hm1]
  · rw [hnew]
    exact Event.addDelegate_unknown _ _ _ _ _ _ (by rw [hl1]; exact hunknown)

/-- Witness of C19: the row `U1, E1` of the document whose person `U1` comes from
`Atlantis`. -/
theorem unknown_origin_row_witness :
    (Load.entities Example.host Example.unknownOriginDoc State.initial).locations.get
        "Atlantis" = none ∧
    isInheritedName "Atlantis" = false ∧
    (PeopleAtEvents.new Example.attendanceIndexes ["U1", "E1"]
        (Load.entities Example.host Example.unknownOriginDoc State.initial)).state.delegatesOf 0
        "Atlantis" =
      (Load.entities Example.host Example.unknownOriginDoc State.initial).delegatesOf 0
          "Atlantis" ++
        [jsString ((Param.copyFields Example.attendanceIndexes ["U1", "E1"]).get "UID")] :=
  ⟨by decide!, by decide,
    (unknown_origin_row Example.attendanceIndexes ["U1", "E1"] []
      (Load.entities Example.host Example.unknownOriginDoc State.initial)
      { fields := [("UID", "U1"), ("FirstName", "A"), ("LastName", "B"), ("Origin", "Atlantis")],
        name := "A B", peopleAtEvents := [] } 0 "Atlantis"
      (by decide) (by decide!) (by decide!) (by decide) (by decide) (by decide!)
      (by decide)).2.1⟩

/-! ## C15, C16: the delimited lists of the location and origin filters -/

theorem jsIncludes_iff (hay needle : String) :
    jsIncludes hay needle = true ↔ needle.data <:+: hay.data := by
  unfold jsIncludes
  rw [List.any_eq_true, List.infix_iff_prefix_suffix]
  constructor
  · rintro ⟨t, ht, hp⟩
    exact ⟨t, List.isPrefixOf_iff_prefix.mp hp, (List.mem_tails _ _).mp ht⟩
  · rintro ⟨t, hp, ht⟩
    exact ⟨t, (List.mem_tails _ _).mpr ht, List.isPrefixOf_iff_prefix.mpr hp⟩

theorem barJoined_data : ∀ names : List String, names ≠ [] →
    (Spec.barJoined names).data ++ ['|'] =
      (names.map String.data).flatMap (fun p => p ++ ['|'])
  | [], h => absurd rfl h
  | [p], _ => by simp [Spec.barJoined]
  | p :: q :: rest, _ => by
    have ih := barJoined_data (q :: rest) (by simp)
    rw [Spec.barJoined, String.data_append, String.data_append, List.append_assoc,
      List.append_assoc, ih]
    simp

theorem barJoined_ne_empty (names : List String) (hne : names ≠ [])
    (h : ∀ p ∈ names, p ≠ "") : Spec.barJoined names ≠ "" := by
  match names, hne, h with
  | [p], _, h =>
    simpa [Spec.barJoined] using h p (by simp)
  | p :: q :: rest, _, h =>
    intro e
    have hp : p ≠ "" := h p (by simp)
    have hd := congrArg String.data e
    rw [Spec.barJoined, String.data_append, String.data_append] at hd
    have : p.data = [] := by
      cases hpd : p.data with
      | nil => rfl
      | cons c cs => rw [hpd] at hd; simp at hd
    exact hp (String.ext this)

theorem bar_prefix_iff (l p x y : List Char) (hl : '|' ∉ l) (hp : '|' ∉ p) :
    l ++ '|' :: x <+: p ++ '|' :: y ↔ l = p ∧ x <+: y := by
  induction l generalizing p with
  | nil =>
    cases p with
    | nil => simp
    | cons c p' =>
      have hc : ¬ '|' = c := fun e => hp (by rw [e]; exact List.mem_cons_self _ _)
      simp [hc]
  | cons a l' ih =>
    have ha : ¬ a = '|' := fun e => hl (by simp [e])
    cases p with
    | nil => simp [ha]
    | cons c p' =>
      have hl' : '|' ∉ l' := fun h => hl (List.mem_cons_of_mem _ h)
      have hp' : '|' ∉ p' := fun h => hp (List.mem_cons_of_mem _ h)
      simp only [List.cons_append, List.cons_prefix_cons, ih p' hl' hp', List.cons.injEq]
      tauto

theorem bar_infix_skip (n p r : List Char) (hp : '|' ∉ p) :
    '|' :: n <:+: p ++ r ↔ '|' :: n <:+: r := by
  induction p with
  | nil => simp
  | cons c p' ih =>
    have hc : ¬ '|' = c := fun e => hp (by rw [e]; exact List.mem_cons_self _ _)
    have hp' : '|' ∉ p' := fun h => hp (List.mem_cons_of_mem _ h)
    rw [List.cons_append, List.infix_cons_iff, ih hp']
    simp [hc]

theorem bar_delimited_iff (l : List Char) (ps : List (List Char)) (hl : '|' ∉ l)
    (hps : ∀ p ∈ ps, '|' ∉ p) :
    '|' :: (l ++ ['|']) <:+: '|' :: ps.flatMap (fun p => p ++ ['|']) ↔ l ∈ ps := by
  induction ps with
  | nil =>
    simp only [List.flatMap_nil, List.not_mem_nil, iff_false]
    intro h
    have := h.length_le
    simp at this
  | cons p rest ih =>
    have hp : '|' ∉ p := hps p (by simp)
    have hrest : ∀ q ∈ rest, '|' ∉ q := fun q hq => hps q (List.mem_cons_of_mem _ hq)
    rw [List.flatMap_cons, List.append_assoc, List.singleton_append, List.infix_cons_iff,
      List.cons_prefix_cons, bar_prefix_iff l p [] _ hl hp, bar_infix_skip _ p _ hp, ih hrest]
    simp

theorem bar_includes_iff (names : List String) (name : String) (hne : names ≠ [])
    (hnames : ∀ p ∈ names, Spec.barFree p = true) (hname : Spec.barFree name = true) :
    jsIncludes ("|" ++ Spec.barJoined names ++ "|") ("|" ++ name ++ "|") = true ↔
      name ∈ names := by
  rw [jsIncludes_iff]
  simp only [String.data_append]
  rw [List.singleton_append, List.singleton_append, List.cons_append, List.cons_append,
    barJoined_data names hne]
  rw [bar_delimited_iff]
  · constructor
    · intro h
      obtain ⟨q, hq, e⟩ := List.mem_map.mp h
      rw [String.ext e] at hq
      exact hq
    · intro h
      exact List.mem_map_of_mem _ h
  · simpa [Spec.barFree] using hname
  · intro p hp
    obtain ⟨q, hq, e⟩ := List.mem_map.mp hp
    subst e
    simpa [Spec.barFree] using hnames q hq

/-- C15. When the location pattern is the `|`-joined list of one or more names, each
non-empty and without `|`, and the Location name of the event holds no `|`, the pattern is
not empty and the location sub-predicate of `Event.filter` passes exactly when the Location
name of the event is one of the names; an event that fails it gets `filtered = false`. -/
theorem filter_location_set (const : Const) (test : String → Bool) (input : FilterInput)
    (event : Event) (names : List String) (hne : names ≠ [])
    (hnames : ∀ p ∈ names, p ≠ "" ∧ Spec.barFree p = true)
    (hpattern : input.locationPattern = Spec.barJoined names)
    (hevent : Spec.barFree (jsString (event.fields.get "Location")) = true) :
    input.locationPattern ≠ "" ∧
    (Event.passesLocation input event = true ↔
      jsString (event.fields.get "Location") ∈ names) ∧
    (Event.passesLocation input event = false → Event.passes const test input event = false) := by
  have hnonempty : input.locationPattern ≠ "" := by
    rw [hpattern]
    exact barJoined_ne_empty names hne (fun p hp => (hnames p hp).1)
  refine ⟨hnonempty, ?_, ?_⟩
  · unfold Event.passesLocation
    simp only [hnonempty, decide_False, Bool.false_or]
    rw [hpattern]
    exact bar_includes_iff names _ hne (fun p hp => (hnames p hp).2) hevent
  · intro h
    simp [Event.passes, h]

/-- Witness of C15: the selection `Paris|Rome` and an event at `Rome`. -/
theorem filter_location_set_witness :
    Event.passesLocation
        { eventPattern := "", startTime := 0, finishTime := 0, locationPattern := "Paris|Rome",
          originPattern := "" }
        { oid := 0, fields := [("Acronym", "E2"), ("Location", "Rome")], countries := [],
          filtered := true, startTime := .negInfinity, location := "Rome", organiser := none,
          shownOnMap := false, cellIndex := none } = true :=
  (filter_location_set Const.default (fun _ => true)
    { eventPattern := "", startTime := 0, finishTime := 0, locationPattern := "Paris|Rome",
      originPattern := "" }
    { oid := 0, fields := [("Acronym", "E2"), ("Location", "Rome")], countries := [],
      filtered := true, startTime := .negInfinity, location := "Rome", organiser := none,
      shownOnMap := false, cellIndex := none }
    ["Paris", "Rome"] (by decide) (by decide) (by decide) (by decide)).2.1.mpr (by decide)

/-- C16, counterexample. In a document whose person `U1` declares the origin `A|B`, the
event `E1` gets the single Country key `A|B`; with the origin pattern `A|B`, the joined list
of the names `A` and `B`, `hasOrigin` returns true although no key is `A` or `B`. -/
theorem hasOrigin_key_with_bar :
    Spec.barJoined ["A", "B"] = "A|B" ∧
    (Load.sheets Example.host Example.barOriginDoc State.initial).events.map
        (fun event => (event.countries.keys, event.hasOrigin (Spec.barJoined ["A", "B"]))) =
      [(["A|B"], true)] ∧
    ¬ ("A|B" ∈ ["A", "B"]) := by
  refine ⟨by decide, by decide!, by decide⟩

/-- C16, amended. When the origin pattern is the `|`-joined list of one or more names, each
non-empty and without `|`, and no key of the event's `countries` holds a `|`, the pattern is
not empty and `hasOrigin` returns true exactly when some key of `countries` is one of the
names; an event with no Country fails every non-empty origin filter. -/
theorem hasOrigin_set (event : Event) (names : List String) (hne : names ≠ [])
    (hnames : ∀ p ∈ names, p ≠ "" ∧ Spec.barFree p = true)
    (hkeys : ∀ key ∈ event.countries.keys, Spec.barFree key = true) :
    Spec.barJoined names ≠ "" ∧
    (event.hasOrigin (Spec.barJoined names) = true ↔
      ∃ key ∈ event.countries.keys, key ∈ names) ∧
    (event.countries = [] →
      ∀ input : FilterInput, input.originPattern ≠ "" →
        Event.passesOrigin input event = false) := by
  refine ⟨barJoined_ne_empty names hne (fun p hp => (hnames p hp).1), ?_, ?_⟩
  · unfold Event.hasOrigin
    rw [List.any_eq_true]
    constructor
    · rintro ⟨key, hkey, h⟩
      exact ⟨key, hkey,
        (bar_includes_iff names key hne (fun p hp => (hnames p hp).2) (hkeys key hkey)).mp h⟩
    · rintro ⟨key, hkey, h⟩
      exact ⟨key, hkey,
        (bar_includes_iff names key hne (fun p hp => (hnames p hp).2) (hkeys key hkey)).mpr h⟩
  · intro hnone input hinput
    simp [Event.passesOrigin, Event.hasOrigin, hnone, hinput, Dict.keys]

/-- Witness of C16: the selection `Paris|Rome` and an event with delegates from Rome. -/
theorem hasOrigin_set_witness :
    Event.hasOrigin Example.romeDelegates (Spec.barJoined ["Paris", "Rome"]) = true :=
  (hasOrigin_set Example.romeDelegates ["Paris", "Rome"] (by decide) (by decide)
    (by decide)).2.1.mpr ⟨"Rome", by decide, by decide⟩

/-! ## C12, C13: the name pattern -/

theorem RegExp.syntaxCharacter_codes :
    (['^', '$', '\\', '.', '*', '+', '?', '(', ')', '[', ']', '\x7b', '\x7d', '|'].map
        Char.toNat =
      [0x5E, 0x24, 0x5C, 0x2E, 0x2A, 0x2B, 0x3F, 0x28, 0x29, 0x5B, 0x5D, 0x7B, 0x7D, 0x7C]) ∧
    (['\n', '\r', '\u2028', '\u2029'].map Char.toNat = [0x0A, 0x0D, 0x2028, 0x2029]) := by
  constructor <;> decide

theorem Char.eq_of_toNat_eq (c d : Char) (h : c.toNat = d.toNat) : c = d := by
  apply Char.ext
  apply UInt32.ext
  exact h

theorem jsCodeUnits_mem_small (c : Char) (n : Nat) (hn : n < 0xD800) (h : n ∈ jsCodeUnits c) :
    c.toNat = n := by
  unfold jsCodeUnits at h
  split at h
  · exact (List.mem_singleton.mp h).symm
  · simp only [List.mem_cons, List.mem_singleton, List.not_mem_nil, or_false] at h
    omega

theorem Char.toNat_lt (c : Char) : c.toNat < 0x110000 := by
  have := c.valid
  rcases this with h1 | ⟨_, h2⟩
  · have h3 : c.toNat < 0xD800 := h1
    omega
  · exact h2

theorem jsCodeUnits_surrogates (c : Char) (h : ¬ c.toNat < 0x10000) :
    ∀ u ∈ jsCodeUnits c, 0xD800 ≤ u ∧ u ≤ 0xDFFF := by
  intro u hu
  have hv : c.toNat < 0x110000 := Char.toNat_lt c
  unfold jsCodeUnits at hu
  rw [if_neg h] at hu
  simp only [List.mem_cons, List.mem_singleton, List.not_mem_nil, or_false] at hu
  generalize c.toNat = n at *
  rcases hu with e | e
  · rw [e]; omega
  · rw [e]; omega

theorem Char.toNat_not_surrogate (c : Char) : ¬ (0xD800 ≤ c.toNat ∧ c.toNat ≤ 0xDFFF) := by
  have := c.valid
  rcases this with h1 | ⟨h1, _⟩
  · have h2 : c.toNat < 0xD800 := h1
    omega
  · have h2 : 0xDFFF < c.toNat := h1
    omega

theorem Event.patternSource_data (eventPattern : String) :
    (Event.patternSource eventPattern).data = eventPattern.data.flatMap Event.escapeChar := by
  unfold Event.patternSource replaceAll
  simp only [List.flatMap_assoc]
  congr 1
  funext c
  unfold Event.escapeChar
  by_cases h1 : c = '.'
  · subst h1; decide
  by_cases h2 : c = '+'
  · subst h2; decide
  by_cases h3 : c = '*'
  · subst h3; decide
  by_cases h4 : c = '?'
  · subst h4; decide
  simp [h1, h2, h3, h4]

theorem Event.escapeChar_units (c : Char) :
    (Event.escapeChar c).flatMap jsCodeUnits = (jsCodeUnits c).flatMap Event.escapeUnit := by
  by_cases h1 : c = '.'
  · subst h1; decide
  by_cases h2 : c = '+'
  · subst h2; decide
  by_cases h3 : c = '*'
  · subst h3; decide
  by_cases h4 : c = '?'
  · subst h4; decide
  have hesc : Event.escapeChar c = [c] := by simp [Event.escapeChar, h1, h2, h3, h4]
  have hunit : ∀ u ∈ jsCodeUnits c, Event.escapeUnit u = [u] := by
    intro u hu
    have g1 : u ≠ 0x2E := by
      intro e; subst e
      exact h1 (Char.eq_of_toNat_eq c '.' (jsCodeUnits_mem_small c _ (by decide) hu))
    have g2 : u ≠ 0x2B := by
      intro e; subst e
      exact h2 (Char.eq_of_toNat_eq c '+' (jsCodeUnits_mem_small c _ (by decide) hu))
    have g3 : u ≠ 0x2A := by
      intro e; subst e
      exact h3 (Char.eq_of_toNat_eq c '*' (jsCodeUnits_mem_small c _ (by decide) hu))
    have g4 : u ≠ 0x3F := by
      intro e; subst e
      exact h4 (Char.eq_of_toNat_eq c '?' (jsCodeUnits_mem_small c _ (by decide) hu))
    simp [Event.escapeUnit, g1, g2, g3, g4]
  rw [hesc, List.flatMap_cons, List.flatMap_nil, List.append_nil]
  have : ∀ l : List Nat, (∀ u ∈ l, Event.escapeUnit u = [u]) → l.flatMap Event.escapeUnit = l := by
    intro l
    induction l with
    | nil => intro _; rfl
    | cons a t ih =>
      intro h
      rw [List.flatMap_cons, h a (List.mem_cons_self _ _),
        ih (fun u hu => h u (List.mem_cons_of_mem _ hu))]
      rfl
  exact (this _ hunit).symm

theorem jsUnits_patternSource (eventPattern : String) :
    jsUnits (Event.patternSource eventPattern) =
      (jsUnits eventPattern).flatMap Event.escapeUnit := by
  unfold jsUnits
  rw [Event.patternSource_data, List.flatMap_assoc, List.flatMap_assoc]
  congr 1
  funext c
  exact Event.escapeChar_units c

theorem Event.isRawUnit_of_char (c : Char) (h : Event.isRawSyntax c = false) :
    ∀ u ∈ jsCodeUnits c, Event.isRawUnit u = false := by
  intro u hu
  cases hraw : Event.isRawUnit u with
  | false => rfl
  | true =>
    exfalso
    simp only [Event.isRawUnit, List.contains_eq_any_beq, List.any_cons, List.any_nil,
      Bool.or_false, Bool.or_eq_true, beq_iff_eq] at hraw
    have key : ∀ d : Char, d.toNat < 0xD800 → u = d.toNat → c = d := by
      intro d hd e
      subst e
      exact Char.eq_of_toNat_eq c d (jsCodeUnits_mem_small c _ hd hu)
    have hc : c = '^' ∨ c = '$' ∨ c = '\\' ∨ c = '(' ∨ c = ')' ∨ c = '[' ∨ c = ']' ∨
        c = '\x7b' ∨ c = '\x7d' ∨ c = '|' := by
      rcases hraw with e | e | e | e | e | e | e | e | e | e
      · exact Or.inl (key '^' (by decide) e)
      · exact Or.inr (Or.inl (key '$' (by decide) e))
      · exact Or.inr (Or.inr (Or.inl (key '\\' (by decide) e)))
      · exact Or.inr (Or.inr (Or.inr (Or.inl (key '(' (by decide) e))))
      · exact Or.inr (Or.inr (Or.inr (Or.inr (Or.inl (key ')' (by decide) e)))))
      · exact Or.inr (Or.inr (Or.inr (Or.inr (Or.inr (Or.inl (key '[' (by decide) e))))))
      · exact Or.inr (Or.inr (Or.inr (Or.inr (Or.inr (Or.inr (Or.inl (key ']' (by decide) e)))))))
      · exact Or.inr (Or.inr (Or.inr (Or.inr (Or.inr (Or.inr (Or.inr
          (Or.inl (key '\x7b' (by decide) e))))))))
      · exact Or.inr (Or.inr (Or.inr (Or.inr (Or.inr (Or.inr (Or.inr
          (Or.inr (Or.inl (key '\x7d' (by decide) e)))))))))
      · exact Or.inr (Or.inr (Or.inr (Or.inr (Or.inr (Or.inr (Or.inr
          (Or.inr (Or.inr (key '|' (by decide) e)))))))))
    rcases hc with e | e | e | e | e | e | e | e | e | e <;> subst e <;> revert h <;> decide

theorem Event.isRawUnit_of_pattern (pattern : String)
    (h : ∀ c ∈ pattern.data, Event.isRawSyntax c = false) :
    ∀ u ∈ jsUnits pattern, Event.isRawUnit u = false := by
  intro u hu
  unfold jsUnits at hu
  rw [List.mem_flatMap] at hu
  obtain ⟨c, hc, huc⟩ := hu
  exact Event.isRawUnit_of_char c (h c hc) u huc

theorem RegExp.parse_char (c : Nat) (xs : List Nat)
    (h : RegExp.isSyntaxCharacter c = false) :
    RegExp.parse (c :: xs) = (RegExp.parse xs).map (fun terms => .char c :: terms) := by
  have h1 : c ≠ 0x2E := by intro e; subst e; revert h; decide
  have h2 : c ≠ 0x5C := by intro e; subst e; revert h; decide
  cases xs with
  | nil => simp [RegExp.parse, h, h1]
  | cons d rest => simp [RegExp.parse, h, h1, h2]

theorem RegExp.parse_escaped (d : Nat) (xs : List Nat) (h : d = 0x2E ∨ d = 0x2B) :
    RegExp.parse (0x5C :: d :: xs) = (RegExp.parse xs).map (fun terms => .char d :: terms) := by
  simp [RegExp.parse, h]

theorem RegExp.parse_anyStar (xs : List Nat) :
    RegExp.parse (0x2E :: 0x2A :: xs) =
      (RegExp.parse xs).map (fun terms => .anyStar :: terms) := by
  simp [RegExp.parse]

theorem RegExp.parse_any (xs : List Nat) (h : xs.head? ≠ some 0x2A) :
    RegExp.parse (0x2E :: xs) = (RegExp.parse xs).map (fun terms => .any :: terms) := by
  cases xs with
  | nil => simp [RegExp.parse]
  | cons d rest =>
    have hd : d ≠ 0x2A := by intro e; subst e; simp at h
    simp [RegExp.parse, hd]

theorem Event.escapeUnit_head (pattern : List Nat) :
    (pattern.flatMap Event.escapeUnit).head? ≠ some 0x2A := by
  cases pattern with
  | nil => simp
  | cons c rest =>
    rw [List.flatMap_cons]
    unfold Event.escapeUnit
    by_cases h1 : c = 0x2E
    · simp [h1]
    by_cases h2 : c = 0x2B
    · simp [h2]
    by_cases h3 : c = 0x2A
    · simp [h3]
    by_cases h4 : c = 0x3F
    · simp [h4]
    simp [h1, h2, h3, h4]

theorem RegExp.parse_source (pattern : List Nat)
    (h : ∀ c ∈ pattern, Event.isRawUnit c = false) :
    RegExp.parse (pattern.flatMap Event.escapeUnit) = some (pattern.map Event.globTerm) := by
  induction pattern with
  | nil => rfl
  | cons c rest ih =>
    have ih1 := ih (fun d hd => h d (List.mem_cons_of_mem _ hd))
    have hc : Event.isRawUnit c = false := h c (List.mem_cons_self _ _)
    rw [List.flatMap_cons, List.map_cons]
    by_cases h1 : c = 0x2E
    · subst h1
      have : Event.escapeUnit 0x2E = [0x5C, 0x2E] := by decide
      rw [this]
      simp only [List.cons_append, List.nil_append]
      rw [RegExp.parse_escaped _ _ (Or.inl rfl), ih1]
      rfl
    by_cases h2 : c = 0x2B
    · subst h2
      have : Event.escapeUnit 0x2B = [0x5C, 0x2B] := by decide
      rw [this]
      simp only [List.cons_append, List.nil_append]
      rw [RegExp.parse_escaped _ _ (Or.inr rfl), ih1]
      rfl
    by_cases h3 : c = 0x2A
    · subst h3
      have : Event.escapeUnit 0x2A = [0x2E, 0x2A] := by decide
      rw [this]
      simp only [List.cons_append, List.nil_append]
      rw [RegExp.parse_anyStar, ih1]
      rfl
    by_cases h4 : c = 0x3F
    · subst h4
      have : Event.escapeUnit 0x3F = [0x2E] := by decide
      rw [this]
      simp only [List.cons_append, List.nil_append]
      rw [RegExp.parse_any _ (Event.escapeUnit_head rest), ih1]
      rfl
    have hesc : Event.escapeUnit c = [c] := by simp [Event.escapeUnit, h1, h2, h3, h4]
    have hterm : Event.globTerm c = .char c := by simp [Event.globTerm, h3, h4]
    have hsyn : RegExp.isSyntaxCharacter c = false := by
      simp only [Event.isRawUnit, List.contains_eq_any_beq, List.any_cons, List.any_nil,
        Bool.or_false, Bool.or_eq_false_iff, beq_eq_false_iff_ne, ne_eq] at hc
      simp only [RegExp.isSyntaxCharacter, List.contains_eq_any_beq, List.any_cons, List.any_nil,
        Bool.or_false, Bool.or_eq_false_iff, beq_eq_false_iff_ne, ne_eq]
      tauto
    rw [hesc, hterm]
    simp only [List.cons_append, List.nil_append]
    rw [RegExp.parse_char _ _ hsyn, ih1]
    rfl

theorem RegExp.starLoop_iff (next : List Nat → Bool) (input : List Nat) :
    RegExp.starLoop next input = true ↔
      ∃ a b, input = a ++ b ∧ (∀ x ∈ a, RegExp.isLineTerminator x = false) ∧
        next b = true := by
  induction input with
  | nil =>
    simp only [RegExp.starLoop]
    constructor
    · intro h
      exact ⟨[], [], rfl, fun _ hx => absurd hx (List.not_mem_nil _), h⟩
    · rintro ⟨a, b, hab, _, hb⟩
      have hb0 : b = [] := (List.append_eq_nil.mp hab.symm).2
      rw [hb0] at hb
      exact hb
  | cons x xs ih =>
    simp only [RegExp.starLoop, Bool.or_eq_true, Bool.and_eq_true, Bool.not_eq_true', ih]
    constructor
    · rintro (h | ⟨hx, a, b, hab, ha, hb⟩)
      · exact ⟨[], x :: xs, rfl, fun _ hx => absurd hx (List.not_mem_nil _), h⟩
      · refine ⟨x :: a, b, by rw [hab]; rfl, ?_, hb⟩
        intro y hy
        rcases List.mem_cons.mp hy with e | hy
        · rw [e]; exact hx
        · exact ha y hy
    · rintro ⟨a, b, hab, ha, hb⟩
      cases a with
      | nil =>
        left
        rw [List.nil_append] at hab
        rw [hab]
        exact hb
      | cons y a' =>
        right
        rw [List.cons_append] at hab
        obtain ⟨e1, e2⟩ := List.cons.inj hab
        subst e1
        exact ⟨ha x (List.mem_cons_self _ _), a', b, e2,
          fun z hz => ha z (List.mem_cons_of_mem _ hz), hb⟩

theorem Spec.globMatches_star_iff {α : Type} [DecidableEq α] (star quest : α)
    (wild : α → Bool) (pattern text : List α) :
    Spec.globMatches star quest wild (star :: pattern) text = true ↔
      ∃ a b, text = a ++ b ∧ (∀ x ∈ a, wild x = true) ∧
        Spec.globMatches star quest wild pattern b = true := by
  simp only [Spec.globMatches, if_true, List.any_eq_true, List.mem_range, Bool.and_eq_true,
    List.all_eq_true]
  constructor
  · rintro ⟨k, _, hall, hrest⟩
    exact ⟨text.take k, text.drop k, (List.take_append_drop k text).symm, hall, hrest⟩
  · rintro ⟨a, b, hab, ha, hb⟩
    refine ⟨a.length, ?_, ?_, ?_⟩
    · rw [hab, List.length_append]
      omega
    · rw [hab, List.take_left]
      exact ha
    · rw [hab, List.drop_left]
      exact hb

theorem Spec.globMatches_cons_nil {α : Type} [DecidableEq α] (star quest : α)
    (wild : α → Bool) (c : α) (pattern : List α) (hc : c ≠ star) :
    Spec.globMatches star quest wild (c :: pattern) [] = false := by
  simp [Spec.globMatches, hc]

theorem Spec.globMatches_cons_cons {α : Type} [DecidableEq α] (star quest : α)
    (wild : α → Bool) (c x : α) (pattern rest : List α) (hc : c ≠ star) :
    Spec.globMatches star quest wild (c :: pattern) (x :: rest) =
      ((if c = quest then wild x else decide (x = c)) &&
        Spec.globMatches star quest wild pattern rest) := by
  simp [Spec.globMatches, hc]

theorem RegExp.matchesAt_iff (pattern input : List Nat) :
    RegExp.matchesAt (pattern.map Event.globTerm) input = true ↔
      ∃ u v, input = u ++ v ∧
        Spec.globMatches 0x2A 0x3F (fun c => !RegExp.isLineTerminator c) pattern u = true := by
  induction pattern generalizing input with
  | nil =>
    simp only [List.map_nil, RegExp.matchesAt, true_iff]
    exact ⟨[], input, rfl, rfl⟩
  | cons c rest ih =>
    rw [List.map_cons]
    by_cases h3 : c = 0x2A
    · subst h3
      have hterm : Event.globTerm 0x2A = .anyStar := by decide
      rw [hterm, RegExp.matchesAt, RegExp.starLoop_iff]
      constructor
      · rintro ⟨a, b, hab, ha, hb⟩
        obtain ⟨u, v, huv, hu⟩ := (ih b).mp hb
        refine ⟨a ++ u, v, by rw [hab, huv, List.append_assoc], ?_⟩
        exact (Spec.globMatches_star_iff _ _ _ _ _).mpr
          ⟨a, u, rfl, fun x hx => by simp [ha x hx], hu⟩
      · rintro ⟨u, v, huv, hu⟩
        obtain ⟨a, b, hab, ha, hb⟩ := (Spec.globMatches_star_iff _ _ _ _ _).mp hu
        refine ⟨a, b ++ v, by rw [huv, hab, List.append_assoc], ?_, ?_⟩
        · intro x hx
          simpa using ha x hx
        · exact (ih _).mpr ⟨b, v, rfl, hb⟩
    · by_cases h4 : c = 0x3F
      · subst h4
        have hterm : Event.globTerm 0x3F = .any := by decide
        rw [hterm]
        cases input with
        | nil =>
          simp only [RegExp.matchesAt, Bool.false_eq_true, false_iff]
          rintro ⟨u, v, huv, hu⟩
          have hu0 : u = [] := (List.append_eq_nil.mp huv.symm).1
          rw [hu0, Spec.globMatches_cons_nil _ _ _ _ _ h3] at hu
          exact Bool.noConfusion hu
        | cons x xs =>
          simp only [RegExp.matchesAt, Bool.and_eq_true, Bool.not_eq_true', ih]
          constructor
          · rintro ⟨hx, u, v, huv, hu⟩
            refine ⟨x :: u, v, by rw [huv]; rfl, ?_⟩
            rw [Spec.globMatches_cons_cons _ _ _ _ _ _ _ h3]
            simp [hx, hu]
          · rintro ⟨u, v, huv, hu⟩
            cases u with
            | nil =>
              rw [Spec.globMatches_cons_nil _ _ _ _ _ h3] at hu
              exact Bool.noConfusion hu
            | cons y u' =>
              rw [List.cons_append] at huv
              obtain ⟨e1, e2⟩ := List.cons.inj huv
              subst e1
              rw [Spec.globMatches_cons_cons _ _ _ _ _ _ _ h3] at hu
              simp only [if_true, Bool.and_eq_true, Bool.not_eq_true'] at hu
              exact ⟨hu.1, u', v, e2, hu.2⟩
      · have hterm : Event.globTerm c = .char c := by simp [Event.globTerm, h3, h4]
        rw [hterm]
        cases input with
        | nil =>
          simp only [RegExp.matchesAt, Bool.false_eq_true, false_iff]
          rintro ⟨u, v, huv, hu⟩
          have hu0 : u = [] := (List.append_eq_nil.mp huv.symm).1
          rw [hu0, Spec.globMatches_cons_nil _ _ _ _ _ h3] at hu
          exact Bool.noConfusion hu
        | cons x xs =>
          simp only [RegExp.matchesAt, Bool.and_eq_true, decide_eq_true_eq, ih]
          constructor
          · rintro ⟨hx, u, v, huv, hu⟩
            refine ⟨x :: u, v, by rw [huv]; rfl, ?_⟩
            rw [Spec.globMatches_cons_cons _ _ _ _ _ _ _ h3]
            simp [h4, hx, hu]
          · rintro ⟨u, v, huv, hu⟩
            cases u with
            | nil =>
              rw [Spec.globMatches_cons_nil _ _ _ _ _ h3] at hu
              exact Bool.noConfusion hu
            | cons y u' =>
              rw [List.cons_append] at huv
              obtain ⟨e1, e2⟩ := List.cons.inj huv
              subst e1
              rw [Spec.globMatches_cons_cons _ _ _ _ _ _ _ h3] at hu
              simp only [h4, if_false, Bool.and_eq_true, decide_eq_true_eq] at hu
              exact ⟨hu.1, u', v, e2, hu.2⟩

theorem RegExp.search_eq (pattern label : String) :
    RegExp.search ((jsUnits pattern).map Event.globTerm) (jsUnits label) =
      Spec.globSearchUnits (fun c => !RegExp.isLineTerminator c) pattern label := by
  unfold RegExp.search Spec.globSearchUnits
  congr 1
  funext tail
  rw [Bool.eq_iff_iff, RegExp.matchesAt_iff, List.any_eq_true]
  constructor
  · rintro ⟨u, v, huv, hu⟩
    exact ⟨u, (List.mem_inits _ _).mpr ⟨v, huv.symm⟩, hu⟩
  · rintro ⟨u, hmem, hu⟩
    obtain ⟨v, hv⟩ := (List.mem_inits _ _).mp hmem
    exact ⟨u, v, hv.symm, hu⟩

theorem Spec.globMatches_congr {α : Type} [DecidableEq α] (star quest : α)
    (wild1 wild2 : α → Bool) (pattern text : List α)
    (h : ∀ x ∈ text, wild1 x = wild2 x) :
    Spec.globMatches star quest wild1 pattern text =
      Spec.globMatches star quest wild2 pattern text := by
  induction pattern generalizing text with
  | nil => simp [Spec.globMatches]
  | cons c rest ih =>
    by_cases h3 : c = star
    · subst h3
      rw [Bool.eq_iff_iff, Spec.globMatches_star_iff, Spec.globMatches_star_iff]
      constructor
      · rintro ⟨a, b, hab, ha, hb⟩
        refine ⟨a, b, hab, ?_, ?_⟩
        · intro x hx
          rw [← h x (by rw [hab]; exact List.mem_append_left _ hx)]
          exact ha x hx
        · rw [← ih b (fun x hx => h x (by rw [hab]; exact List.mem_append_right _ hx))]
          exact hb
      · rintro ⟨a, b, hab, ha, hb⟩
        refine ⟨a, b, hab, ?_, ?_⟩
        · intro x hx
          rw [h x (by rw [hab]; exact List.mem_append_left _ hx)]
          exact ha x hx
        · rw [ih b (fun x hx => h x (by rw [hab]; exact List.mem_append_right _ hx))]
          exact hb
    · cases text with
      | nil =>
        rw [Spec.globMatches_cons_nil _ _ _ _ _ h3, Spec.globMatches_cons_nil _ _ _ _ _ h3]
      | cons x xs =>
        rw [Spec.globMatches_cons_cons _ _ _ _ _ _ _ h3,
          Spec.globMatches_cons_cons _ _ _ _ _ _ _ h3,
          ih xs (fun y hy => h y (List.mem_cons_of_mem _ hy)), h x (List.mem_cons_self _ _)]

theorem Spec.globSearchUnits_congr (wild1 wild2 : Nat → Bool) (pattern label : String)
    (h : ∀ x ∈ jsUnits label, wild1 x = wild2 x) :
    Spec.globSearchUnits wild1 pattern label = Spec.globSearchUnits wild2 pattern label := by
  unfold Spec.globSearchUnits
  rw [Bool.eq_iff_iff, List.any_eq_true, List.any_eq_true]
  have key : ∀ tail ∈ (jsUnits label).tails, ∀ u ∈ tail.inits,
      Spec.globMatches 0x2A 0x3F wild1 (jsUnits pattern) u =
        Spec.globMatches 0x2A 0x3F wild2 (jsUnits pattern) u := by
    intro tail htail u hu
    apply Spec.globMatches_congr
    intro x hx
    have h1 : u <+: tail := (List.mem_inits _ _).mp hu
    have h2 : tail <:+ jsUnits label := (List.mem_tails _ _).mp htail
    exact h x (h2.subset (h1.subset hx))
  constructor
  · rintro ⟨tail, htail, hany⟩
    refine ⟨tail, htail, ?_⟩
    rw [List.any_eq_true] at hany ⊢
    obtain ⟨u, hu, hm⟩ := hany
    exact ⟨u, hu, by rw [← key tail htail u hu]; exact hm⟩
  · rintro ⟨tail, htail, hany⟩
    refine ⟨tail, htail, ?_⟩
    rw [List.any_eq_true] at hany ⊢
    obtain ⟨u, hu, hm⟩ := hany
    exact ⟨u, hu, by rw [key tail htail u hu]; exact hm⟩

theorem jsUnits_of_bmp (l : List Char) (h : ∀ x ∈ l, x.toNat < 0x10000) :
    l.flatMap jsCodeUnits = l.map Char.toNat := by
  induction l with
  | nil => rfl
  | cons c rest ih =>
    rw [List.flatMap_cons, List.map_cons, ih (fun x hx => h x (List.mem_cons_of_mem _ hx))]
    have hc : jsCodeUnits c = [c.toNat] := by
      unfold jsCodeUnits
      rw [if_pos (h c (List.mem_cons_self _ _))]
    rw [hc]
    rfl

theorem Spec.globMatches_units (pattern text : List Char)
    (h : ∀ x ∈ text, x.toNat < 0x10000) :
    Spec.globMatches 0x2A 0x3F (fun _ => true) (pattern.flatMap jsCodeUnits)
        (text.map Char.toNat) =
      Spec.globMatches '*' '?' (fun _ => true) pattern text := by
  induction pattern generalizing text with
  | nil =>
    cases text <;> rfl
  | cons c rest ih =>
    rw [List.flatMap_cons]
    by_cases h3 : c = '*'
    · subst h3
      have hu : jsCodeUnits '*' = [0x2A] := by decide
      rw [hu, List.singleton_append, Bool.eq_iff_iff, Spec.globMatches_star_iff,
        Spec.globMatches_star_iff]
      constructor
      · rintro ⟨a, b, hab, _, hb⟩
        obtain ⟨a', b', e, ea, eb⟩ := List.map_eq_append_iff.mp hab
        subst ea eb
        refine ⟨a', b', e, fun _ _ => rfl, ?_⟩
        rw [ih b' (fun x hx => h x (by rw [e]; exact List.mem_append_right _ hx))] at hb
        exact hb
      · rintro ⟨a, b, hab, _, hb⟩
        refine ⟨a.map Char.toNat, b.map Char.toNat, by rw [hab, List.map_append],
          fun _ _ => rfl, ?_⟩
        rw [ih b (fun x hx => h x (by rw [hab]; exact List.mem_append_right _ hx))]
        exact hb
    · by_cases h4 : c = '?'
      · subst h4
        have hu : jsCodeUnits '?' = [0x3F] := by decide
        rw [hu, List.singleton_append]
        cases text with
        | nil =>
          rw [List.map_nil, Spec.globMatches_cons_nil _ _ _ _ _ (by decide),
            Spec.globMatches_cons_nil _ _ _ _ _ (by decide)]
        | cons x xs =>
          rw [List.map_cons, Spec.globMatches_cons_cons _ _ _ _ _ _ _ (by decide),
            Spec.globMatches_cons_cons _ _ _ _ _ _ _ (by decide),
            ih xs (fun y hy => h y (List.mem_cons_of_mem _ hy))]
          simp
      · by_cases hb : c.toNat < 0x10000
        · have hu : jsCodeUnits c = [c.toNat] := by
            unfold jsCodeUnits
            rw [if_pos hb]
          have g3 : c.toNat ≠ 0x2A := fun e => h3 (Char.eq_of_toNat_eq c '*' e)
          have g4 : c.toNat ≠ 0x3F := fun e => h4 (Char.eq_of_toNat_eq c '?' e)
          rw [hu, List.singleton_append]
          cases text with
          | nil =>
            rw [List.map_nil, Spec.globMatches_cons_nil _ _ _ _ _ g3,
              Spec.globMatches_cons_nil _ _ _ _ _ h3]
          | cons x xs =>
            rw [List.map_cons, Spec.globMatches_cons_cons _ _ _ _ _ _ _ g3,
              Spec.globMatches_cons_cons _ _ _ _ _ _ _ h3,
              ih xs (fun y hy => h y (List.mem_cons_of_mem _ hy)), if_neg g4, if_neg h4]
            congr 1
            rw [Bool.eq_iff_iff, decide_eq_true_iff, decide_eq_true_iff]
            exact ⟨fun e => Char.eq_of_toNat_eq x c e, fun e => by rw [e]⟩
        · have hs := jsCodeUnits_surrogates c hb
          have hu : ∃ hi lo, jsCodeUnits c = [hi, lo] := by
            unfold jsCodeUnits
            rw [if_neg hb]
            exact ⟨_, _, rfl⟩
          obtain ⟨hi, lo, hu⟩ := hu
          have hhi := hs hi (by rw [hu]; exact List.mem_cons_self _ _)
          have g3 : hi ≠ 0x2A := by omega
          have g4 : hi ≠ 0x3F := by omega
          rw [hu]
          cases text with
          | nil =>
            rw [List.map_nil, List.cons_append, Spec.globMatches_cons_nil _ _ _ _ _ g3,
              Spec.globMatches_cons_nil _ _ _ _ _ h3]
          | cons x xs =>
            have hx : x.toNat < 0x10000 := h x (List.mem_cons_self _ _)
            have e1 : decide (x.toNat = hi) = false := by
              rw [decide_eq_false_iff_not]
              intro e
              exact Char.toNat_not_surrogate x (by rw [e]; exact hhi)
            have e2 : decide (x = c) = false := by
              rw [decide_eq_false_iff_not]
              intro e
              rw [e] at hx
              exact hb hx
            rw [List.map_cons, List.cons_append, Spec.globMatches_cons_cons _ _ _ _ _ _ _ g3,
              Spec.globMatches_cons_cons _ _ _ _ _ _ _ h3, if_neg g4, if_neg h4, e1, e2]
            rfl

theorem Spec.globSearch_units (pattern label : String)
    (h : ∀ x ∈ label.data, x.toNat < 0x10000) :
    Spec.globSearchUnits (fun _ => true) pattern label =
      Spec.globSearch (fun _ => true) pattern label := by
  unfold Spec.globSearchUnits Spec.globSearch jsUnits
  rw [jsUnits_of_bmp label.data h, Bool.eq_iff_iff, List.any_eq_true, List.any_eq_true]
  constructor
  · rintro ⟨tail, htail, hany⟩
    rw [List.any_eq_true] at hany
    obtain ⟨u, hu, hm⟩ := hany
    obtain ⟨front, hfront⟩ := (List.mem_tails _ _).mp htail
    obtain ⟨front', tail', e, _, etail⟩ := List.map_eq_append_iff.mp hfront.symm
    subst etail
    obtain ⟨back, hback⟩ := (List.mem_inits _ _).mp hu
    obtain ⟨u', back', e', eu, _⟩ := List.map_eq_append_iff.mp hback.symm
    subst eu
    have hsub : ∀ x ∈ u', x.toNat < 0x10000 := by
      intro x hx
      apply h x
      rw [e, e']
      exact List.mem_append_right _ (List.mem_append_left _ hx)
    refine ⟨tail', (List.mem_tails _ _).mpr ⟨front', e.symm⟩, ?_⟩
    rw [List.any_eq_true]
    refine ⟨u', (List.mem_inits _ _).mpr ⟨back', e'.symm⟩, ?_⟩
    rw [← Spec.globMatches_units pattern.data u' hsub]
    exact hm
  · rintro ⟨tail, htail, hany⟩
    rw [List.any_eq_true] at hany
    obtain ⟨u, hu, hm⟩ := hany
    obtain ⟨front, hfront⟩ := (List.mem_tails _ _).mp htail
    obtain ⟨back, hback⟩ := (List.mem_inits _ _).mp hu
    have hsub : ∀ x ∈ u, x.toNat < 0x10000 := by
      intro x hx
      apply h x
      rw [← hfront, ← hback]
      exact List.mem_append_right _ (List.mem_append_left _ hx)
    refine ⟨tail.map Char.toNat,
      (List.mem_tails _ _).mpr ⟨front.map Char.toNat, by rw [← hfront, List.map_append]⟩, ?_⟩
    rw [List.any_eq_true]
    refine ⟨u.map Char.toNat,
      (List.mem_inits _ _).mpr ⟨back.map Char.toNat, by rw [← hback, List.map_append]⟩, ?_⟩
    rw [Spec.globMatches_units pattern.data u hsub]
    exact hm

theorem Event.isRawSyntax_of_alphanum (c : Char)
    (h : c.isAlphanum = true ∨ c = '.' ∨ c = '+' ∨ c = '*' ∨ c = '?') :
    Event.isRawSyntax c = false := by
  cases hraw : Event.isRawSyntax c with
  | false => rfl
  | true =>
    exfalso
    simp only [Event.isRawSyntax, List.contains_eq_any_beq, List.any_cons, List.any_nil,
      Bool.or_false, Bool.or_eq_true, beq_iff_eq] at hraw
    rcases hraw with e | e | e | e | e | e | e | e | e | e <;> subst e <;> revert h <;> decide

theorem Example.globHost_standard : Example.globHost.Standard := by
  constructor
  · intro source terms h
    refine ⟨fun label => RegExp.search terms (jsUnits label), ?_, fun _ => rfl⟩
    simp [Example.globHost, h]
  · have hparse : RegExp.parse (jsUnits "(") = none := by decide
    simp [Example.globHost, hparse]

theorem Event.filter_of_open_group (host : Host) (hhost : host.Standard) (input : FilterInput)
    (s : State) (h : input.eventPattern = "(") :
    Event.filter host input s = { state := s, thrown := some "SyntaxError" } := by
  have hsource : Event.patternSource input.eventPattern = "(" := by rw [h]; decide
  unfold Event.filter
  rw [hsource, hhost.openGroup]

/-- C12, counterexample. With the pattern `a?b` and the label made of `a`, a line feed and
`b`, the name sub-predicate does not pass, although the whole label matches the glob in which
`?` stands for any one character: `.` does not match a line terminator.  With the same
pattern and the label made of `a`, the character U+1F600 and `b`, the name sub-predicate
does not pass either, although the whole label matches that glob: the host holds U+1F600 as
the two code units `0xD83D 0xDE00`, and `.` matches one code unit. -/
theorem name_pattern_one_character :
    ((Example.globHost.regExp (Event.patternSource "a?b")).map
          (fun test => Event.passesName Const.default test (Example.nameFilter "a?b")
            (Example.labelled "a\nb")) = some false ∧
      Spec.globSearch (fun _ => true) "a?b" "a\nb" = true) ∧
    (jsUnits (String.mk ['a', Char.ofNat 0x1F600, 'b']) = [0x61, 0xD83D, 0xDE00, 0x62] ∧
      (Example.globHost.regExp (Event.patternSource "a?b")).map
          (fun test => Event.passesName Const.default test (Example.nameFilter "a?b")
            (Example.labelled (String.mk ['a', Char.ofNat 0x1F600, 'b']))) = some false ∧
      Spec.globSearch (fun _ => true) "a?b" (String.mk ['a', Char.ofNat 0x1F600, 'b']) =
        true) := by
  refine ⟨⟨by decide!, by decide!⟩, by decide!, by decide!, by decide!⟩

/-- C12, amended. On a host whose `RegExp` follows the standard, for every non-empty name
pattern with none of the characters `^ $ \ ( ) [ ] { } |` (so for every pattern made only of
letters, digits, `.`, `+`, `*` and `?`) the pattern compiles, and for every event the name
sub-predicate passes exactly when some contiguous run of UTF-16 code units of the label
matches the code units of the pattern as a case-sensitive glob in which `*` matches any
sequence of code units that are not line terminators, `?` matches one code unit that is not
a line terminator, and every other code unit matches itself.  For a label made of characters
of the Basic Multilingual Plane (one code unit each) that are not line terminators, this is
the glob on characters in which the two wildcards accept every character. -/
theorem filter_name_glob (host : Host) (hhost : host.Standard) (const : Const)
    (input : FilterInput) (hpattern : input.eventPattern ≠ "")
    (hchars : ∀ c ∈ input.eventPattern.data, Event.isRawSyntax c = false) :
    ∃ test, host.regExp (Event.patternSource input.eventPattern) = some test ∧
      ∀ event : Event,
        Event.passesName const test input event =
            Spec.globSearchUnits (fun u => !RegExp.isLineTerminator u) input.eventPattern
              (jsString (event.getLabel const)) ∧
        ((∀ c ∈ (jsString (event.getLabel const)).data,
            c.toNat < 0x10000 ∧ RegExp.isLineTerminator c.toNat = false) →
          Event.passesName const test input event =
            Spec.globSearch (fun _ => true) input.eventPattern
              (jsString (event.getLabel const))) := by
  have hparse : RegExp.parse (jsUnits (Event.patternSource input.eventPattern)) =
      some ((jsUnits input.eventPattern).map Event.globTerm) := by
    rw [jsUnits_patternSource]
    exact RegExp.parse_source _ (Event.isRawUnit_of_pattern _ hchars)
  obtain ⟨test, htest, hsem⟩ := hhost.fragment _ _ hparse
  refine ⟨test, htest, fun event => ?_⟩
  have h1 : Event.passesName const test input event =
      Spec.globSearchUnits (fun u => !RegExp.isLineTerminator u) input.eventPattern
        (jsString (event.getLabel const)) := by
    unfold Event.passesName
    simp only [hpattern, decide_False, Bool.false_or]
    rw [hsem, RegExp.search_eq]
  refine ⟨h1, fun hlabel => ?_⟩
  have hbmp : ∀ c ∈ (jsString (event.getLabel const)).data, c.toNat < 0x10000 :=
    fun c hc => (hlabel c hc).1
  rw [h1, ← Spec.globSearch_units _ _ hbmp]
  apply Spec.globSearchUnits_congr
  intro x hx
  unfold jsUnits at hx
  rw [jsUnits_of_bmp _ hbmp, List.mem_map] at hx
  obtain ⟨c, hc, e⟩ := hx
  rw [← e]
  simp [(hlabel c hc).2]

/-- Witness of C12: the pattern `E*` passes the label `E1` and rejects the label `F1`. -/
theorem filter_name_glob_witness :
    ∃ test, Example.globHost.regExp (Event.patternSource "E*") = some test ∧
      Event.passesName Const.default test (Example.nameFilter "E*") (Example.labelled "E1") =
        true ∧
      Event.passesName Const.default test (Example.nameFilter "E*") (Example.labelled "F1") =
        false := by
  obtain ⟨test, htest, h⟩ :=
    filter_name_glob Example.globHost Example.globHost_standard Const.default
      (Example.nameFilter "E*") (by decide) (by decide)
  exact ⟨test, htest, (h (Example.labelled "E1")).1.trans (by decide!),
    (h (Example.labelled "F1")).1.trans (by decide!)⟩

/-- C13, failing input. The name pattern `(` is handed to `new RegExp` as it is; a group that
is not closed is a `SyntaxError`, so `Event.filter` throws before any flag is set and the
state is unchanged. -/
theorem filter_open_group_throws :
    Event.patternSource "(" = "(" ∧
    Event.filter Example.globHost (Example.nameFilter "(") Example.loaded =
      { state := Example.loaded, thrown := some "SyntaxError" } :=
  ⟨by decide, Event.filter_of_open_group Example.globHost Example.globHost_standard _ _ rfl⟩

/-! ## C21, C29: the normalisation of a cell -/

theorem jsTrim_data (s : String) :
    (jsTrim s).data = (s.data.dropWhile jsIsWhiteSpace).rdropWhile jsIsWhiteSpace := rfl

theorem trimmed_dropWhile (l : List Char) :
    ((l.dropWhile jsIsWhiteSpace).rdropWhile jsIsWhiteSpace).dropWhile jsIsWhiteSpace =
      (l.dropWhile jsIsWhiteSpace).rdropWhile jsIsWhiteSpace := by
  rw [List.dropWhile_eq_self_iff]
  intro hl
  have hpre : (l.dropWhile jsIsWhiteSpace).rdropWhile jsIsWhiteSpace <+:
      l.dropWhile jsIsWhiteSpace := List.rdropWhile_prefix _ _
  have hlen : 0 < (l.dropWhile jsIsWhiteSpace).length := lt_of_lt_of_le hl hpre.length_le
  have h0 := List.dropWhile_get_zero_not jsIsWhiteSpace l hlen
  have hget := hpre.getElem hl
  simp only [List.get_eq_getElem] at h0 ⊢
  rw [hget]
  exact h0

theorem jsTrim_idempotent (s : String) : jsTrim (jsTrim s) = jsTrim s := by
  apply String.ext
  rw [jsTrim_data (jsTrim s), jsTrim_data s, trimmed_dropWhile, List.rdropWhile_idempotent]

theorem jsTrim_split (s : String) :
    ∃ before after : List Char,
      s.data = before ++ (jsTrim s).data ++ after ∧
      (∀ c ∈ before, jsIsWhiteSpace c = true) ∧ (∀ c ∈ after, jsIsWhiteSpace c = true) := by
  refine ⟨s.data.takeWhile jsIsWhiteSpace,
    (s.data.dropWhile jsIsWhiteSpace).rtakeWhile jsIsWhiteSpace, ?_, ?_, ?_⟩
  · rw [jsTrim_data, List.append_assoc]
    have h1 : (s.data.dropWhile jsIsWhiteSpace).rdropWhile jsIsWhiteSpace ++
        (s.data.dropWhile jsIsWhiteSpace).rtakeWhile jsIsWhiteSpace =
        s.data.dropWhile jsIsWhiteSpace := by
      simp only [List.rdropWhile, List.rtakeWhile, ← List.reverse_append,
        List.takeWhile_append_dropWhile, List.reverse_reverse]
    rw [h1, List.takeWhile_append_dropWhile]
  · intro c hc
    exact List.mem_takeWhile_imp hc
  · intro c hc
    exact List.mem_rtakeWhile_imp hc

theorem jsTrim_ends (s : String) :
    (∀ c, (jsTrim s).data.head? = some c → jsIsWhiteSpace c = false) ∧
    (∀ c, (jsTrim s).data.getLast? = some c → jsIsWhiteSpace c = false) := by
  constructor
  · intro c hc
    rw [jsTrim_data, ← trimmed_dropWhile] at hc
    have := List.head?_dropWhile_not jsIsWhiteSpace
      ((s.data.dropWhile jsIsWhiteSpace).rdropWhile jsIsWhiteSpace)
    rw [hc] at this
    exact this
  · intro c hc
    rw [jsTrim_data] at hc
    cases hne : (s.data.dropWhile jsIsWhiteSpace).rdropWhile jsIsWhiteSpace with
    | nil => rw [hne] at hc; simp at hc
    | cons x xs =>
      have hne1 : (s.data.dropWhile jsIsWhiteSpace).rdropWhile jsIsWhiteSpace ≠ [] := by
        rw [hne]; simp
      have hlast := List.rdropWhile_last_not jsIsWhiteSpace
        (s.data.dropWhile jsIsWhiteSpace) hne1
      rw [List.getLast?_eq_getLast _ hne1] at hc
      rw [← Option.some.inj hc]
      simpa using hlast

theorem Param.normalise_of_bang (v : String) (h : startsWithBang v = true) :
    Param.normalise (some v) = "" := by
  simp [Param.normalise, h]

theorem Param.normalise_of_plain (v : String) (h : startsWithBang v = false) :
    Param.normalise (some v) = jsTrim v := by
  simp [Param.normalise, h]

theorem Param.normalise_empty : Param.normalise (some "") = "" := by decide

theorem Param.normalise_twice (cell : Option String) :
    Param.normalise (some (Param.normalise cell)) =
      if startsWithBang (Param.normalise cell) then "" else Param.normalise cell := by
  by_cases hb : startsWithBang (Param.normalise cell) = true
  · rw [if_pos hb, Param.normalise_of_bang _ hb]
  · rw [if_neg hb]
    have hb' : startsWithBang (Param.normalise cell) = false := by simpa using hb
    rw [Param.normalise_of_plain _ hb']
    unfold Param.normalise
    simp only
    split
    · decide
    · exact jsTrim_idempotent _

/-- C21. `copyFields` gives every field of `fieldIndexes` the normalised cell of its column:
an absent cell becomes the empty string, a value beginning with `!` becomes the empty string,
and normalising that empty string gives the empty string again; any other value becomes its
trimmed value, which is the value without a leading and a trailing run of white space
and neither starts nor ends with white space. -/
theorem copyFields_normalises (fieldIndexes : FieldIndexes) (row : Row) (fieldName : String) :
    (Param.copyFields fieldIndexes row).get fieldName =
      (fieldIndexes.get fieldName).map (fun index => Param.normalise (row.get? index)) ∧
    Param.normalise none = "" ∧
    (∀ v, startsWithBang v = true →
      Param.normalise (some v) = "" ∧
      Param.normalise (some (Param.normalise (some v))) = "") ∧
    (∀ v, startsWithBang v = false →
      Param.normalise (some v) = jsTrim v ∧
      (∃ before after : List Char,
        v.data = before ++ (Param.normalise (some v)).data ++ after ∧
        (∀ c ∈ before, jsIsWhiteSpace c = true) ∧ (∀ c ∈ after, jsIsWhiteSpace c = true)) ∧
      (∀ c, (Param.normalise (some v)).data.head? = some c → jsIsWhiteSpace c = false) ∧
      (∀ c, (Param.normalise (some v)).data.getLast? = some c → jsIsWhiteSpace c = false)) := by
  refine ⟨Param.copyFields_get fieldIndexes row fieldName, by decide, ?_, ?_⟩
  · intro v hv
    rw [Param.normalise_of_bang v hv]
    exact ⟨rfl, Param.normalise_empty⟩
  · intro v hv
    rw [Param.normalise_of_plain v hv]
    exact ⟨rfl, jsTrim_split v, (jsTrim_ends v).1, (jsTrim_ends v).2⟩

/-- Witness of C21: the cell `!hidden` of a Locations row. -/
theorem copyFields_normalises_witness :
    Param.normalise (some "!hidden") = "" ∧
    Param.normalise (some (Param.normalise (some "!hidden"))) = "" :=
  (copyFields_normalises [("Place", 0)] ["!hidden"] "Place").2.2.1 "!hidden" (by decide)

/-- C29, counterexample. The value made of a space, `!` and `x` does not begin with `!`; it is
trimmed to `!x`, and normalising `!x` gives the empty string. -/
theorem normalise_space_bang :
    Param.normalise (some " !x") = "!x" ∧
    Param.normalise (some (Param.normalise (some " !x"))) = "" := by
  constructor <;> decide

/-- C29, amended. Normalising the normalised value of a cell gives the empty string when the
normalised value begins with `!`, and the normalised value again when it does not; so the
normalisation is idempotent on a cell exactly when the normalised value does not begin with
`!`: on an absent cell, on a value that begins with `!`, and on a value whose trimmed form
does not begin with `!`. -/
theorem normalise_idempotent_iff (cell : Option String) :
    Param.normalise (some (Param.normalise cell)) =
      (if startsWithBang (Param.normalise cell) then "" else Param.normalise cell) ∧
    (Param.normalise (some (Param.normalise cell)) = Param.normalise cell ↔
      startsWithBang (Param.normalise cell) = false) ∧
    Param.normalise (some (Param.normalise none)) = Param.normalise none ∧
    (∀ v, startsWithBang v = true →
      Param.normalise (some (Param.normalise (some v))) = Param.normalise (some v)) ∧
    (∀ v, startsWithBang v = false → startsWithBang (jsTrim v) = false →
      Param.normalise (some (Param.normalise (some v))) = Param.normalise (some v)) := by
  refine ⟨Param.normalise_twice cell, ?_, by decide, ?_, ?_⟩
  · rw [Param.normalise_twice]
    cases hb : startsWithBang (Param.normalise cell) with
    | false => simp
    | true =>
      simp only [if_true, Bool.true_eq_false, iff_false]
      intro e
      rw [← e] at hb
      revert hb
      decide
  · intro v hv
    rw [Param.normalise_of_bang v hv]
    exact Param.normalise_empty
  · intro v hv ht
    rw [Param.normalise_of_plain v hv, Param.normalise_of_plain _ ht, jsTrim_idempotent]

/-- Witness of C29: the value `Paris` between two spaces. -/
theorem normalise_idempotent_iff_witness :
    Param.normalise (some (Param.normalise (some " Paris "))) =
      Param.normalise (some " Paris ") :=
  (normalise_idempotent_iff (some " Paris ")).2.2.2.2 " Paris " (by decide) (by decide)

/-! ## C22: the header cells -/

theorem Param.isFieldName_iff (fieldName : String) :
    Param.isFieldName fieldName = true ↔
      ∃ initial rest, fieldName.data = initial :: rest ∧ 'A' ≤ initial ∧ initial ≤ '[' := by
  unfold Param.isFieldName
  cases h : fieldName.data with
  | nil => simp
  | cons c rest => simp

theorem Param.headerStep_of_ignored (requiredFields optionalFields : List String)
    (acc : HeaderScan) (fieldName : String) (fieldIndex : Nat)
    (h : Param.isFieldName fieldName = false) :
    Param.headerStep requiredFields optionalFields acc fieldName fieldIndex = acc := by
  simp [Param.headerStep, h]

/-- C22, counterexample. On the Locations sheet the header cell `[draft]`, whose first
character is `[` and not a capital letter, passes the test `initial <= '['`: it gets the
column index 3 and is collected as an extra field. -/
theorem header_cell_bracket :
    Param.isFieldName "[draft]" = true ∧
    Param.scanHeader Location.sheet.requiredFields Location.sheet.optionalFields
        ["Place", "Lat", "Lng", "[draft]"] =
      { requiredCount := 3,
        fieldIndexes := [("Place", 0), ("Lat", 1), ("Lng", 2), ("[draft]", 3)],
        extraFields := ["[draft]"] } := by
  constructor <;> decide

theorem char_le_bracket_iff (c : Char) : c ≤ '[' ↔ c ≤ 'Z' ∨ c = '[' := by
  constructor
  · intro h
    by_cases hc : c = '['
    · exact Or.inr hc
    · left
      have h1 : c.val.toNat ≤ 91 := h
      have h2 : c.val.toNat ≠ 91 := by
        intro e
        apply hc
        apply Char.ext
        apply UInt32.ext
        exact e
      show c.val.toNat ≤ 90
      omega
  · rintro (h | h)
    · have h1 : c.val.toNat ≤ 90 := h
      show c.val.toNat ≤ 91
      omega
    · rw [h]

/-- C22 (as amended). `Param.load` considers a header cell exactly when its first character
is a capital letter `A`..`Z` or the character `[` (the test is
`initial >= 'A' && initial <= '['`): the empty cell and a cell with any other first character
leave the scan as it was; a cell that is considered gets its column index under its name
(reduced to its letters when the name is a required field), counts as required exactly when
it is a required field name, and is collected as an extra field exactly when it is neither a
required nor an optional field name. -/
theorem header_cell_considered (requiredFields optionalFields : List String)
    (acc : HeaderScan) (fieldName : String) (fieldIndex : Nat) :
    (Param.isFieldName fieldName = true ↔
      ∃ initial rest, fieldName.data = initial :: rest ∧
        (('A' ≤ initial ∧ initial ≤ 'Z') ∨ initial = '[')) ∧
    Param.isFieldName "" = false ∧
    (Param.isFieldName fieldName = false →
      Param.headerStep requiredFields optionalFields acc fieldName fieldIndex = acc) ∧
    (Param.isFieldName fieldName = true →
      (Param.headerStep requiredFields optionalFields acc fieldName fieldIndex).fieldIndexes.get
          (if requiredFields.contains fieldName then Param.lettersOnly fieldName
            else fieldName) = some fieldIndex ∧
      (Param.headerStep requiredFields optionalFields acc fieldName fieldIndex).requiredCount =
        acc.requiredCount + (if requiredFields.contains fieldName then 1 else 0) ∧
      (Param.headerStep requiredFields optionalFields acc fieldName fieldIndex).extraFields =
        acc.extraFields ++
          (if !requiredFields.contains fieldName && !optionalFields.contains fieldName
            then [fieldName] else [])) := by
  refine ⟨?_, by decide, Param.headerStep_of_ignored _ _ _ _ _, ?_⟩
  · rw [Param.isFieldName_iff]
    constructor
    · rintro ⟨initial, rest, h, h1, h2⟩
      refine ⟨initial, rest, h, ?_⟩
      rcases (char_le_bracket_iff initial).mp h2 with h3 | h3
      · exact Or.inl ⟨h1, h3⟩
      · exact Or.inr h3
    · rintro ⟨initial, rest, h, h1 | h1⟩
      · exact ⟨initial, rest, h, h1.1, (char_le_bracket_iff initial).mpr (Or.inl h1.2)⟩
      · subst h1
        exact ⟨_, rest, h, by decide, by decide⟩
  · intro h
    unfold Param.headerStep
    simp only [h, if_true]
    by_cases hr : fieldName ∈ requiredFields
    · simp [hr, Dict.get_set_self]
    · by_cases ho : fieldName ∈ optionalFields
      · simp [hr, ho, Dict.get_set_self]
      · simp [hr, ho, Dict.get_set_self]

/-- Witness of C22: the cell `[draft]` in column 3 of the Locations header is considered, the
cell `place` is not. -/
theorem header_cell_considered_witness :
    Param.isFieldName "place" = false ∧
    Param.headerStep Location.sheet.requiredFields Location.sheet.optionalFields
        { requiredCount := 3, fieldIndexes := [], extraFields := [] } "place" 3 =
      { requiredCount := 3, fieldIndexes := [], extraFields := [] } ∧
    Param.isFieldName "[draft]" = true ∧
    (Param.headerStep Location.sheet.requiredFields Location.sheet.optionalFields
        { requiredCount := 3, fieldIndexes := [], extraFields := [] } "[draft]"
        3).extraFields = ["[draft]"] :=
  ⟨by decide,
    (header_cell_considered Location.sheet.requiredFields Location.sheet.optionalFields
      { requiredCount := 3, fieldIndexes := [], extraFields := [] } "place" 3).2.2.1 (by decide),
    by decide,
    ((header_cell_considered Location.sheet.requiredFields Location.sheet.optionalFields
      { requiredCount := 3, fieldIndexes := [], extraFields := [] } "[draft]" 3).2.2.2
      (by decide)).2.2⟩

/-! ## C25: the name of a person -/

theorem joinText_name (first last : Option String) :
    joinText [first, some " ", last] = Spec.displayName first last := by
  unfold joinText Spec.displayName
  simp only [List.cons_append, List.nil_append, joinTextFrom, List.head?_cons, Option.bind_some,
    id_eq, List.head?_nil, Option.bind_none]
  have hnone : isBlank none = true := rfl
  by_cases h1 : isBlank first = true <;> by_cases h2 : isBlank last = true <;>
    simp [h1, h2, hnone]

/-- C25. For every People row the constructor throws nothing and registers the person in
`Person.people` under its UID, with the name: first name, one space, last name when both are
non-blank; the first name alone when the last name is blank; the last name alone when the
first name is blank; the empty string when both are blank. -/
theorem person_name (fieldIndexes : FieldIndexes) (row : Row) (s : State) :
    (Person.new fieldIndexes row s).thrown = none ∧
    (Person.new fieldIndexes row s).state.people.get
        (jsString ((Param.copyFields fieldIndexes row).get "UID")) =
      some
        { fields := Param.copyFields fieldIndexes row,
          name := Spec.displayName ((Param.copyFields fieldIndexes row).get "FirstName")
            ((Param.copyFields fieldIndexes row).get "LastName"),
          peopleAtEvents := [] } ∧
    (∀ first last : String, first ≠ "" → last ≠ "" →
      Spec.displayName (some first) (some last) = first ++ " " ++ last) ∧
    (∀ first last, isBlank last = true → Spec.displayName first last = first.getD "") ∧
    (∀ first last, isBlank first = true → Spec.displayName first last = last.getD "") := by
  refine ⟨rfl, ?_, ?_, ?_, ?_⟩
  · unfold Person.new
    simp only [Dict.get_set_self, joinText_name]
  · intro first last h1 h2
    simp [Spec.displayName, isBlank, h1, h2]
  · intro first last h
    unfold Spec.displayName
    by_cases h1 : isBlank first = true
    · simp only [h1, h, if_true]
      cases first with
      | none => rfl
      | some x =>
        have : x = "" := by simpa [isBlank] using h1
        simp [this]
    · simp [h1, h]
  · intro first last h
    unfold Spec.displayName
    by_cases h2 : isBlank last = true
    · simp only [h, h2, if_true]
      cases last with
      | none => rfl
      | some x =>
        have : x = "" := by simpa [isBlank] using h2
        simp [this]
    · simp [h, h2]

/-- Witness of C25: a row with the first name `Ada` and a blank last name. -/
theorem person_name_witness :
    Spec.displayName (some "Ada") (some "") = "Ada" :=
  (person_name [("UID", 0)] ["U1"] State.initial).2.2.2.1 (some "Ada") (some "") (by decide)

/-! ## C26: the place of an event without start date -/

theorem Event.parseStart_eq_negInfinity (host : Host) (start : String) :
    Event.parseStart host start = .negInfinity ↔
      host.dateParse (String.mk (swapDayMonth start.data)) = none ∧
      host.dateParse (String.mk (looseDelimiter start.data)) = none := by
  unfold Event.parseStart
  cases host.dateParse (String.mk (swapDayMonth start.data)) with
  | some t => simp
  | none =>
    cases host.dateParse (String.mk (looseDelimiter start.data)) with
    | some t => simp
    | none => simp

/-- C26, counterexample. In the loaded example the event `E3`, whose start date `?` is read
by neither stage, is the first of `Event.events`, before `E1` and `E2`, whose dates are
read. -/
theorem unparsed_start_sorts_first :
    Event.parseStart Example.host "?" = .negInfinity ∧
    Example.loaded.events.map (fun event => (event.fields.get "Acronym", event.startTime)) =
      [(some "E3", .negInfinity), (some "E1", .ms 946684800000),
        (some "E2", .ms 949363200000)] := by
  constructor <;> decide!

/-- C26, amended. A start date that neither stage of the fallback chain reads gives the start
time `-Infinity`, and after `Event.initialise` every event with the start time `-Infinity`
stands in `Event.events` before every event whose start time is a number: such events are
sorted first. -/
theorem unparsed_start_first (host : Host) (start : String) (s : State) :
    (Event.parseStart host start = .negInfinity ↔
      host.dateParse (String.mk (swapDayMonth start.data)) = none ∧
      host.dateParse (String.mk (looseDelimiter start.data)) = none) ∧
    ∀ i j a b t, (Event.initialise s).state.events.get? i = some a →
      (Event.initialise s).state.events.get? j = some b →
      a.startTime = .negInfinity → b.startTime = .ms t → i < j := by
  refine ⟨Event.parseStart_eq_negInfinity host start, ?_⟩
  intro i j a b t ha hb hna hnb
  have hsorted := (Event.initialise_sorted s).2.2.1
  rcases Nat.lt_trichotomy i j with h | h | h
  · exact h
  · subst h
    rw [ha] at hb
    have := Option.some.inj hb
    subst this
    rw [hna] at hnb
    exact StartTime.noConfusion hnb
  · have := hsorted j i b a h hb ha hna
    rw [hnb] at this
    exact StartTime.noConfusion this

/-- Witness of C26: in the loaded example the event at position 0 has the start time
`-Infinity` and the event at position 1 starts at a date that was read. -/
theorem unparsed_start_first_witness :
    (((Event.initialise (Load.sheets Example.host Example.twoSiteDoc
        State.initial)).state.events.get? 0).map Event.startTime = some .negInfinity ∧
      ((Event.initialise (Load.sheets Example.host Example.twoSiteDoc
        State.initial)).state.events.get? 1).map Event.startTime = some (.ms 946684800000)) ∧
    0 < 1 :=
  ⟨⟨by decide!, by decide!⟩,
    (unparsed_start_first Example.host "?" (Load.sheets Example.host Example.twoSiteDoc
      State.initial)).2 0 1
      { oid := 2, fields := [("Acronym", "E3"), ("Location", "Rome"), ("Start", "?")],
        countries := [], filtered := true, startTime := .negInfinity, location := "Rome",
        organiser := none, shownOnMap := false, cellIndex := some 1 }
      { oid := 1, fields := [("Acronym", "E1"), ("Location", "Paris"), ("Start", "1/1/2000")],
        countries :=
          [("Paris", { name := "Paris", eventID := some "E1", delegates := ["U1"] }),
            ("Rome", { name := "Rome", eventID := some "E1", delegates := ["U2"] })],
        filtered := true, startTime := .ms 946684800000, location := "Paris",
        organiser := none, shownOnMap := false, cellIndex := some 2 }
      946684800000 (by decide!) (by decide!) rfl rfl⟩

/-! ## C28: the colours of the first and the last rank -/

theorem getColor_zero : Location.getColor (some 0) = some "#ff00ff" := by
  decide!

theorem getColor_one : Location.getColor (some 1) = some "#ff00ff" := by
  decide!

theorem Location.rankRatio_first (n : Nat) (hn : 2 ≤ n) :
    Location.rankRatio (some 1) n = some 0 := by
  unfold Location.rankRatio jsDivide
  have h : ((n : Int) - 1 = 0) = False := by
    apply eq_false
    omega
  simp [h]

theorem Location.rankRatio_last (n : Nat) (hn : 2 ≤ n) :
    Location.rankRatio (some n) n = some 1 := by
  unfold Location.rankRatio jsDivide
  have h : ((n : Int) - 1 = 0) = False := by
    apply eq_false
    omega
  simp only [h, if_false, Option.some.injEq]
  have hq : ((n : ℚ) - 1) ≠ 0 := by
    have : (2 : ℚ) ≤ (n : ℚ) := by exact_mod_cast hn
    intro e
    linarith
  push_cast
  exact div_self hq

/-- C28, counterexample. In the loaded example, with the two event-bearing locations Rome
(rank 1) and Paris (rank 2) and no `Color`, both locations get the colour `#ff00ff`. -/
theorem two_sites_share_colour :
    Example.loaded.rankOf "Rome" = some 1 ∧ Example.loaded.rankOf "Paris" = some 2 ∧
    Example.loaded.locationsCount = 2 ∧
    Example.loaded.colorOf "Rome" = some "#ff00ff" ∧
    Example.loaded.colorOf "Paris" = some "#ff00ff" := by
  refine ⟨by decide!, by decide!, by decide!, by decide!, by decide!⟩

/-- C28, amended. For every load with `n >= 2` event-bearing locations, the location of
rank 1 and the location of rank `n`, when neither has a `Color`, get the same colour from
`setup`: the ratios `0` and `1` both give `#ff00ff`, because section 6 wraps to section 0. -/
theorem first_and_last_rank_share_colour (n : Nat) (first last : Location) (hn : 2 ≤ n)
    (hfirst : first.hasEvent = some 1) (hlast : last.hasEvent = some n)
    (hc1 : isBlank (first.fields.get "Color") = true)
    (hc2 : isBlank (last.fields.get "Color") = true) :
    Location.rankRatio first.hasEvent n = some 0 ∧
    Location.rankRatio last.hasEvent n = some 1 ∧
    Location.setupColor first n = some "#ff00ff" ∧
    Location.setupColor last n = some "#ff00ff" := by
  have h1 : Location.rankRatio first.hasEvent n = some 0 := by
    rw [hfirst]; exact Location.rankRatio_first n hn
  have h2 : Location.rankRatio last.hasEvent n = some 1 := by
    rw [hlast]; exact Location.rankRatio_last n hn
  refine ⟨h1, h2, ?_, ?_⟩
  · unfold Location.setupColor
    simp only [hc1, Bool.not_true, Bool.false_eq_true, if_false]
    rw [h1]
    exact getColor_zero
  · unfold Location.setupColor
    simp only [hc2, Bool.not_true, Bool.false_eq_true, if_false]
    rw [h2]
    exact getColor_one

/-- Witness of C28: three event-bearing locations, the first and the third. -/
theorem first_and_last_rank_share_colour_witness :
    Location.setupColor (Example.site "Rome" 1) 3 = some "#ff00ff" ∧
    Location.setupColor (Example.site "Oslo" 3) 3 = some "#ff00ff" :=
  (first_and_last_rank_share_colour 3 (Example.site "Rome" 1) (Example.site "Oslo" 3)
    (by decide) rfl rfl (by decide) (by decide)).2.2

/-! ## C24: the two flags -/

theorem map_set_of_same {α β : Type} (f : α → β) (l : List α) (i : Nat) (a b : α)
    (h : l.get? i = some a) (hf : f b = f a) : (l.set i b).map f = l.map f := by
  rw [List.map_set]
  apply List.ext_get?
  intro k
  simp only [List.get?_eq_getElem?, List.getElem?_set, List.length_map, List.getElem?_map]
  by_cases hk : i = k
  · subst hk
    rw [List.get?_eq_getElem?] at h
    have hlt : i < l.length := by
      by_contra hc
      rw [List.getElem?_eq_none (by omega)] at h
      cases h
    simp [hlt, h, hf]
  · simp [hk]

theorem Event.showMapEvent_butShown (index : Nat) (state : Bool) (s : State) :
    (Event.showMapEvent index state s).events.map Event.butShown =
      s.events.map Event.butShown := by
  unfold Event.showMapEvent
  cases h : s.events.get? index with
  | none => rfl
  | some this => exact map_set_of_same _ _ _ this _ h rfl

theorem Event.showMapEvent_frame (index : Nat) (state : Bool) (s : State) :
    (Event.showMapEvent index state s).locations = s.locations ∧
    (Event.showMapEvent index state s).eventLocations = s.eventLocations ∧
    (Event.showMapEvent index state s).const = s.const := by
  unfold Event.showMapEvent
  cases s.events.get? index with
  | none => exact ⟨rfl, rfl, rfl⟩
  | some this => exact ⟨rfl, rfl, rfl⟩

/-- C24. `Event.filter` leaves every event of `Event.events` as it was but for its `filtered`
flag, at the same position; `showMapEvent`, `toggleMap`, the show-all and the hide-all
actions leave every event as it was but for its `shownOnMap` flag, at the same position.  So
no action reorders the events or changes a `cellIndex` or a `countries` mapping. -/
theorem flags_are_independent (host : Host) (input : FilterInput) (index : Nat)
    (state : Option Bool) (shown : Bool) (s : State) :
    (Event.filter host input s).state.events.map Event.butFiltered =
      s.events.map Event.butFiltered ∧
    (Event.showMapEvent index shown s).events.map Event.butShown =
      s.events.map Event.butShown ∧
    (Event.toggleMap index state s).state.events.map Event.butShown =
      s.events.map Event.butShown ∧
    (Event.selectMapAllEvents s).state.events.map Event.butShown =
      s.events.map Event.butShown ∧
    (Event.clearMapAllEvents s).state.events.map Event.butShown =
      s.events.map Event.butShown := by
  refine ⟨?_, Event.showMapEvent_butShown index shown s, ?_, ?_, ?_⟩
  · unfold Event.filter
    cases host.regExp (Event.patternSource input.eventPattern) with
    | none => rfl
    | some test =>
      simp only
      rw [(Location.renderMap_sameButLocations _).events]
      simp only [List.map_map]
      rfl
  · unfold Event.toggleMap
    cases s.events.get? index with
    | none => rfl
    | some this =>
      simp only
      rw [(Location.renderMap_sameButLocations _).events]
      exact Event.showMapEvent_butShown _ _ _
  · unfold Event.selectMapAllEvents
    rw [(Location.renderMap_sameButLocations _).events]
    simp only [List.map_map]
    rfl
  · unfold Event.clearMapAllEvents
    rw [(Location.renderMap_sameButLocations _).events]
    simp only [List.map_map]
    rfl

/-! ## C30: the items of a drop-down pattern -/

theorem replaceFirst_skip (n by_ p r : List Char) (hp : '|' ∉ p) :
    replaceFirst ('|' :: n) by_ (p ++ r) = p ++ replaceFirst ('|' :: n) by_ r := by
  induction p with
  | nil => rfl
  | cons c p' ih =>
    have hc : ¬ '|' = c := fun e => hp (by rw [e]; exact List.mem_cons_self _ _)
    have hp' : '|' ∉ p' := fun h => hp (List.mem_cons_of_mem _ h)
    rw [List.cons_append, replaceFirst]
    have hpre : List.isPrefixOf ('|' :: n) (c :: (p' ++ r)) = false := by
      simp [List.isPrefixOf, hc]
    rw [hpre]
    simp only [Bool.false_eq_true, if_false, List.cons_append, List.cons.injEq, true_and]
    exact ih hp'

theorem replaceFirst_last_item (x : List Char) (items : List (List Char)) (hx : '|' ∉ x)
    (hitems : ∀ p ∈ items, '|' ∉ p) (hnot : x ∉ items) :
    replaceFirst ('|' :: (x ++ ['|'])) ['|']
        ('|' :: (items ++ [x]).flatMap (fun p => p ++ ['|'])) =
      '|' :: items.flatMap (fun p => p ++ ['|']) := by
  induction items with
  | nil =>
    simp only [List.nil_append, List.flatMap_cons, List.flatMap_nil, List.append_nil]
    rw [replaceFirst]
    have hpre : List.isPrefixOf ('|' :: (x ++ ['|'])) ('|' :: (x ++ ['|'])) = true :=
      List.isPrefixOf_iff_prefix.mpr (List.prefix_refl _)
    rw [hpre]
    simp
  | cons p rest ih =>
    have hp : '|' ∉ p := hitems p (List.mem_cons_self _ _)
    have hrest : ∀ q ∈ rest, '|' ∉ q := fun q hq => hitems q (List.mem_cons_of_mem _ hq)
    have hxp : x ≠ p := fun e => hnot (by rw [e]; exact List.mem_cons_self _ _)
    have hnot' : x ∉ rest := fun h => hnot (List.mem_cons_of_mem _ h)
    rw [List.cons_append, List.flatMap_cons, List.flatMap_cons, List.append_assoc,
      List.singleton_append, replaceFirst]
    have hpre : List.isPrefixOf ('|' :: (x ++ ['|']))
        ('|' :: (p ++ '|' :: (rest ++ [x]).flatMap (fun p => p ++ ['|']))) = false := by
      rw [Bool.eq_false_iff]
      intro h
      have h1 := List.isPrefixOf_iff_prefix.mp h
      rw [List.cons_prefix_cons] at h1
      exact hxp ((bar_prefix_iff x p [] _ hx hp).mp h1.2).1
    rw [hpre]
    simp only [Bool.false_eq_true, if_false, List.cons.injEq, true_and]
    rw [replaceFirst_skip _ _ p _ hp, ih hrest hnot', List.append_assoc, List.singleton_append]

theorem barJoined_concat (names : List String) (x : String) (hne : names ≠ []) :
    Spec.barJoined (names ++ [x]) = Spec.barJoined names ++ "|" ++ x := by
  apply String.ext
  have h1 := barJoined_data (names ++ [x]) (by simp)
  have h2 := barJoined_data names hne
  rw [List.map_append, List.flatMap_append, ← h2] at h1
  simp only [List.map_cons, List.map_nil, List.flatMap_cons, List.flatMap_nil,
    List.append_nil] at h1
  rw [← List.append_assoc] at h1
  have h3 := List.append_cancel_right h1
  rw [h3]
  simp [String.data_append]

theorem barJoined_head (names : List String) (hne : names ≠ [])
    (h : ∀ p ∈ names, p ≠ "" ∧ Spec.barFree p = true) :
    ∃ c rest, (Spec.barJoined names).data = c :: rest ∧ c ≠ '|' := by
  match names, hne, h with
  | [p], _, h =>
    obtain ⟨hp, hfree⟩ := h p (List.mem_cons_self _ _)
    cases hd : p.data with
    | nil => exact absurd (String.ext hd) hp
    | cons c rest =>
      refine ⟨c, rest, by rw [Spec.barJoined, hd], ?_⟩
      intro e
      rw [Spec.barFree, hd, e] at hfree
      simp at hfree
  | p :: q :: tail, _, h =>
    obtain ⟨hp, hfree⟩ := h p (List.mem_cons_self _ _)
    cases hd : p.data with
    | nil => exact absurd (String.ext hd) hp
    | cons c rest =>
      refine ⟨c, rest ++ ("|" ++ Spec.barJoined (q :: tail)).data, ?_, ?_⟩
      · rw [Spec.barJoined, String.append_assoc, String.data_append, hd]
        rfl
      · intro e
        rw [Spec.barFree, hd, e] at hfree
        simp at hfree

theorem barJoined_last (names : List String) (hne : names ≠ [])
    (h : ∀ p ∈ names, p ≠ "" ∧ Spec.barFree p = true) :
    stripTrailingBars (Spec.barJoined names).data = (Spec.barJoined names).data := by
  obtain ⟨front, last, hsplit⟩ : ∃ front last, names = front ++ [last] := by
    rcases List.eq_nil_or_concat names with h0 | ⟨front, last, h1⟩
    · exact absurd h0 hne
    · exact ⟨front, last, by rw [h1, List.concat_eq_append]⟩
  obtain ⟨hlast, hfree⟩ := h last (by rw [hsplit]; simp)
  have hdata : ∃ pre, (Spec.barJoined names).data = pre ++ last.data := by
    by_cases hf : front = []
    · refine ⟨[], ?_⟩
      rw [hsplit, hf]
      rfl
    · refine ⟨(Spec.barJoined front ++ "|").data, ?_⟩
      rw [hsplit, barJoined_concat front last hf, String.data_append]
  obtain ⟨pre, hpre⟩ := hdata
  have hne_last : last.data ≠ [] := fun e => hlast (String.ext e)
  obtain ⟨init, c, hc⟩ : ∃ init c, last.data = init ++ [c] := by
    rcases List.eq_nil_or_concat last.data with h0 | ⟨init, c, h1⟩
    · exact absurd h0 hne_last
    · exact ⟨init, c, by rw [h1, List.concat_eq_append]⟩
  have hcbar : c ≠ '|' := by
    intro e
    rw [Spec.barFree, hc, e] at hfree
    simp at hfree
  unfold stripTrailingBars
  rw [hpre, hc, ← List.append_assoc, List.reverse_append]
  simp [hcbar]

theorem stripLeadingBars_of_head (c : Char) (rest : List Char) (hc : c ≠ '|') :
    stripLeadingBars (c :: rest) = c :: rest := by
  simp [stripLeadingBars, hc]

theorem bar_includes_general (names : List String) (name : String)
    (hnames : ∀ p ∈ names, Spec.barFree p = true) (hname : Spec.barFree name = true)
    (hne : name ≠ "") :
    jsIncludes ("|" ++ Spec.barJoined names ++ "|") ("|" ++ name ++ "|") = true ↔
      name ∈ names := by
  by_cases h0 : names = []
  · subst h0
    simp only [List.not_mem_nil, iff_false]
    intro h
    rw [jsIncludes_iff] at h
    have hlen := h.length_le
    simp only [String.data_append, List.length_append] at hlen
    have : name.data ≠ [] := fun e => hne (String.ext e)
    have hpos : 0 < name.data.length := List.length_pos.mpr this
    have h1 : ("|" : String).data.length = 1 := rfl
    have h2 : (Spec.barJoined []).data.length = 0 := rfl
    omega
  · exact bar_includes_iff names name h0 hnames hname

theorem barFree_data (name : String) (h : Spec.barFree name = true) : '|' ∉ name.data := by
  simpa [Spec.barFree] using h

theorem DropDown.add_of_new (items : List String) (x : String)
    (hitems : ∀ p ∈ items, p ≠ "" ∧ Spec.barFree p = true)
    (hx : x ≠ "") (hfree : Spec.barFree x = true) (hnot : x ∉ items) :
    DropDown.add (Spec.barJoined items) x = (true, Spec.barJoined (items ++ [x])) := by
  have hinc : jsIncludes ("|" ++ Spec.barJoined items ++ "|") ("|" ++ x ++ "|") = false := by
    rw [Bool.eq_false_iff]
    intro h
    exact hnot ((bar_includes_general items x (fun p hp => (hitems p hp).2) hfree hx).mp h)
  unfold DropDown.add
  simp only [hinc, Bool.false_eq_true, if_false, Prod.mk.injEq, true_and]
  apply String.ext
  simp only [String.data_append]
  obtain ⟨cx, restx, hxd, hcx⟩ : ∃ c rest, x.data = c :: rest ∧ c ≠ '|' := by
    have := barJoined_head [x] (by simp) (by simpa using ⟨hx, hfree⟩)
    simpa [Spec.barJoined] using this
  by_cases h0 : items = []
  · subst h0
    have he : (Spec.barJoined []).data = [] := rfl
    rw [he, hxd]
    simp [stripLeadingBars, hcx, Spec.barJoined, hxd]
  · obtain ⟨c, rest, hv, hc⟩ := barJoined_head items h0 hitems
    rw [barJoined_concat items x h0, hv]
    simp [stripLeadingBars, hc, String.data_append, hv]

theorem DropDown.remove_of_last (items : List String) (x : String)
    (hitems : ∀ p ∈ items, p ≠ "" ∧ Spec.barFree p = true)
    (hfree : Spec.barFree x = true) (hnot : x ∉ items) :
    DropDown.remove (Spec.barJoined (items ++ [x])) x = Spec.barJoined items := by
  unfold DropDown.remove
  apply String.ext
  simp only [String.data_append]
  rw [List.singleton_append, List.singleton_append, List.cons_append, List.cons_append,
    barJoined_data (items ++ [x]) (by simp), List.map_append, List.map_cons, List.map_nil]
  rw [replaceFirst_last_item x.data (items.map String.data) (barFree_data x hfree)]
  · by_cases h0 : items = []
    · subst h0
      simp [stripLeadingBars, stripTrailingBars, Spec.barJoined]
    · obtain ⟨c, rest, hv, hc⟩ := barJoined_head items h0 hitems
      rw [← barJoined_data items h0]
      have h1 : stripLeadingBars ('|' :: ((Spec.barJoined items).data ++ ['|'])) =
          (Spec.barJoined items).data ++ ['|'] := by
        rw [hv]
        simp [stripLeadingBars, hc]
      rw [h1]
      have h2 : stripTrailingBars ((Spec.barJoined items).data ++ ['|']) =
          stripTrailingBars (Spec.barJoined items).data := by
        simp [stripTrailingBars]
      rw [h2, barJoined_last items h0 hitems]
  · intro p hp
    obtain ⟨q, hq, e⟩ := List.mem_map.mp hp
    rw [← e]
    exact barFree_data q (hitems q hq).2
  · intro h
    obtain ⟨q, hq, e⟩ := List.mem_map.mp h
    rw [String.ext e] at hq
    exact hnot hq

/-- C30. For a pattern that is the `|`-joined list of items, each non-empty and without `|`
(the empty pattern for no item), and a non-empty item `x` without `|`: when `x` is not one of
the items, `add(x)` returns true and the pattern becomes the list with `x` appended as its
last item, and `remove(x)` on that pattern gives back the former pattern; when `x` is one of
the items, `add(x)` returns false and the pattern is unchanged. -/
theorem dropDown_add_remove (items : List String) (x : String)
    (hitems : ∀ p ∈ items, p ≠ "" ∧ Spec.barFree p = true)
    (hx : x ≠ "") (hfree : Spec.barFree x = true) :
    (x ∉ items →
      DropDown.add (Spec.barJoined items) x = (true, Spec.barJoined (items ++ [x])) ∧
      DropDown.remove (DropDown.add (Spec.barJoined items) x).2 x = Spec.barJoined items) ∧
    (x ∈ items → DropDown.add (Spec.barJoined items) x = (false, Spec.barJoined items)) := by
  constructor
  · intro hnot
    have hadd := DropDown.add_of_new items x hitems hx hfree hnot
    refine ⟨hadd, ?_⟩
    rw [hadd]
    exact DropDown.remove_of_last items x hitems hfree hnot
  · intro hmem
    have hinc : jsIncludes ("|" ++ Spec.barJoined items ++ "|") ("|" ++ x ++ "|") = true :=
      (bar_includes_general items x (fun p hp => (hitems p hp).2) hfree hx).mpr hmem
    unfold DropDown.add
    simp only [hinc, if_true]

/-- Witness of C30: the pattern `Paris|Rome` and the item `Oslo`. -/
theorem dropDown_add_remove_witness :
    DropDown.add (Spec.barJoined ["Paris", "Rome"]) "Oslo" =
        (true, Spec.barJoined (["Paris", "Rome"] ++ ["Oslo"])) ∧
      DropDown.remove (DropDown.add (Spec.barJoined ["Paris", "Rome"]) "Oslo").2 "Oslo" =
        Spec.barJoined ["Paris", "Rome"] :=
  (dropDown_add_remove ["Paris", "Rome"] "Oslo" (by decide) (by decide) (by decide)).1
    (by decide)

/-! ## C23: the counts are recomputed -/

theorem State.Renderable.ready (s : State) (h : s.Renderable) : s.Ready :=
  ⟨h.1, fun place hp => State.Renderable.drawn s h place hp⟩

theorem Spec.shownDelegates_of_absent (events : List Event) (p o : String)
    (h : ∀ event ∈ events, event.location ≠ p) : Spec.shownDelegates events p o = 0 := by
  unfold Spec.shownDelegates
  have hfilter : events.filter
      (fun event => event.filtered && event.shownOnMap && event.location == p) = [] := by
    rw [List.filter_eq_nil_iff]
    intro event he
    simp [h event he]
  rw [hfilter]
  rfl

theorem Location.renderMap_lines (s : State) (h : s.Ready) :
    (Location.renderMap s).thrown = none ∧
    ∀ p o, ((Location.renderMap s).state.lineOf p o).map
        (fun line => (line.delegateCount, line.isCountryLine)) =
      (s.lineOf p o).map (fun line =>
        (if p ∈ s.eventLocations then some (Spec.shownDelegates s.events p o)
          else line.delegateCount, line.isCountryLine)) := by
  have hclear := Location.clearCounts_lineOf s
  have hclear_some : ∀ p o,
      ((Location.clearCounts s).lineOf p o).isSome = (s.lineOf p o).isSome := by
    intro p o
    rw [hclear]
    split <;> cases s.lineOf p o <;> rfl
  obtain ⟨hadd1, hadd2⟩ := Location.addEvents_lineOf s.events (Location.clearCounts s)
    (fun event he => ⟨(h.events event he).2.1, fun origin ho => by
      rw [hclear_some]; exact (h.events event he).2.2 origin ho⟩)
  have hdrawn : ∀ place ∈ s.eventLocations,
      (forEachOutcome Location.addEventCounts s.events (Location.clearCounts s)).state.Drawn
        place := by
    intro place hp o line hline
    rw [hadd2, hclear, if_pos hp] at hline
    cases hs : s.lineOf place o with
    | none => rw [hs] at hline; simp at hline
    | some l =>
      rw [hs] at hline
      simp only [Option.map_some', Option.some.injEq] at hline
      rw [← hline]
      exact h.drawn place hp o l hs
  have hel : (forEachOutcome Location.addEventCounts s.events
      (Location.clearCounts s)).state.eventLocations = s.eventLocations :=
    ((Location.clearCounts_sameButLocations s).andThen
      (forEachOutcome_sameButLocations _ Location.addEventCounts_sameButLocations _ _)).eventLocations
  obtain ⟨hshow1, hshow2⟩ := Location.showAll_agree s.eventLocations
    (forEachOutcome Location.addEventCounts s.events (Location.clearCounts s)).state hdrawn
  have hrender : Location.renderMap s =
      forEachOutcome Location.showLines s.eventLocations
        (forEachOutcome Location.addEventCounts s.events (Location.clearCounts s)).state := by
    unfold Location.renderMap Outcome.andThen
    simp only [hadd1, hel]
  refine ⟨by rw [hrender]; exact hshow1, fun p o => ?_⟩
  have hagree := hshow2 p o
  rw [← hrender, hadd2, hclear] at hagree
  rw [hagree]
  by_cases hp : p ∈ s.eventLocations
  · simp only [hp, if_true]
    cases s.lineOf p o with
    | none => rfl
    | some l => simp [CountryLine.added, CountryLine.cleared]
  · simp only [hp, if_false]
    have hzero : Spec.shownDelegates s.events p o = 0 :=
      Spec.shownDelegates_of_absent _ _ _ (fun event he e => hp (e ▸ (h.events event he).1))
    rw [hzero, CountryLine.added_zero]

theorem Location.renderMap_isSome (s : State) (h : s.Ready) (p o : String) :
    ((Location.renderMap s).state.lineOf p o).isSome = (s.lineOf p o).isSome := by
  have := congrArg Option.isSome ((Location.renderMap_lines s h).2 p o)
  simpa using this

theorem Location.renderMap_ready (s : State) (h : s.Ready) :
    (Location.renderMap s).state.Ready := by
  have hsame := Location.renderMap_sameButLocations s
  constructor
  · intro event he
    rw [hsame.events] at he
    rw [hsame.eventLocations]
    obtain ⟨h1, h2, h3⟩ := h.events event he
    exact ⟨h1, h2, fun origin ho => by rw [Location.renderMap_isSome s h]; exact h3 origin ho⟩
  · intro place hp o line hline
    rw [hsame.eventLocations] at hp
    have hl := (Location.renderMap_lines s h).2 place o
    rw [hline] at hl
    cases hs : s.lineOf place o with
    | none => rw [hs] at hl; simp at hl
    | some l =>
      rw [hs] at hl
      simp only [Option.map_some', Option.some.injEq, Prod.mk.injEq] at hl
      rw [hl.2]
      exact h.drawn place hp o l hs

theorem Location.renderMap_countOf (s : State) (h : s.Ready) (p o : String) :
    (Location.renderMap s).state.countOf p o =
      if p ∈ s.eventLocations then
        (s.lineOf p o).map (fun _ => Spec.shownDelegates s.events p o)
      else s.countOf p o := by
  have hl := (Location.renderMap_lines s h).2 p o
  unfold State.countOf
  cases hr : (Location.renderMap s).state.lineOf p o with
  | none =>
    rw [hr] at hl
    cases hs : s.lineOf p o with
    | none => simp
    | some l => rw [hs] at hl; simp at hl
  | some line =>
    rw [hr] at hl
    cases hs : s.lineOf p o with
    | none => rw [hs] at hl; simp at hl
    | some l =>
      rw [hs] at hl
      simp only [Option.map_some', Option.some.injEq, Prod.mk.injEq] at hl
      show line.delegateCount = _
      rw [hl.1]
      split <;> rfl

theorem State.Ready.of_same_lines (u v : State) (h : u.Ready)
    (hloc : v.locations = u.locations) (hel : v.eventLocations = u.eventLocations)
    (hev : v.events.map Event.butFlags = u.events.map Event.butFlags) : v.Ready := by
  have hline : ∀ p o, v.lineOf p o = u.lineOf p o := by
    intro p o
    unfold State.lineOf
    rw [hloc]
  constructor
  · intro event he
    have hmem : event.butFlags ∈ u.events.map Event.butFlags := by
      rw [← hev]
      exact List.mem_map_of_mem _ he
    obtain ⟨e, heu, hee⟩ := List.mem_map.mp hmem
    have hlocation : e.location = event.location := by
      have h0 : e.butFlags.location = event.butFlags.location := congrArg Event.location hee
      exact h0
    have hcountries : e.countries = event.countries := by
      have h0 : e.butFlags.countries = event.butFlags.countries :=
        congrArg Event.countries hee
      exact h0
    obtain ⟨h1, h2, h3⟩ := h.events e heu
    rw [hel, ← hlocation, ← hcountries]
    exact ⟨h1, h2, fun origin ho => by rw [hline]; exact h3 origin ho⟩
  · intro place hp o line hl
    rw [hel] at hp
    rw [hline] at hl
    exact h.drawn place hp o line hl

theorem Event.showMapEvent_butFlags (index : Nat) (state : Bool) (s : State) :
    (Event.showMapEvent index state s).events.map Event.butFlags =
      s.events.map Event.butFlags := by
  unfold Event.showMapEvent
  cases h : s.events.get? index with
  | none => rfl
  | some this => exact map_set_of_same _ _ _ this _ h rfl

theorem MapAction.run_redrawn (host : Host) (action : MapAction) (u : State) :
    u.Redrawn (action.run host u).state := by
  cases action with
  | filter input =>
    simp only [MapAction.run, Event.filter]
    cases host.regExp (Event.patternSource input.eventPattern) with
    | none => exact Or.inl rfl
    | some test =>
      simp only
      refine Or.inr
        ⟨{ u with
            events := u.events.map
              (fun event => { event with filtered := Event.passes u.const test input event }) },
          rfl, rfl, ?_, rfl⟩
      simp only [List.map_map]
      rfl
  | toggle index state =>
    simp only [MapAction.run, Event.toggleMap]
    cases u.events.get? index with
    | none => exact Or.inl rfl
    | some this =>
      exact Or.inr ⟨_, (Event.showMapEvent_frame _ _ _).1, (Event.showMapEvent_frame _ _ _).2.1,
        Event.showMapEvent_butFlags _ _ _, rfl⟩
  | selectAll =>
    refine Or.inr
      ⟨{ u with events := u.events.map (fun event => { event with shownOnMap := true }) },
        rfl, rfl, ?_, rfl⟩
    simp only [List.map_map]
    rfl
  | clearAll =>
    refine Or.inr
      ⟨{ u with events := u.events.map (fun event => { event with shownOnMap := false }) },
        rfl, rfl, ?_, rfl⟩
    simp only [List.map_map]
    rfl

theorem map_const_of_isSome {α β : Type} (a b : Option α) (c : β)
    (h : a.isSome = b.isSome) : a.map (fun _ => c) = b.map (fun _ => c) := by
  cases a <;> cases b <;> simp_all

theorem State.Rendered.step (base u t : State) (h : base.Rendered u) (hr : u.Redrawn t) :
    base.Rendered t := by
  rcases hr with e | ⟨v, hloc, hel, hev, e⟩
  · rw [e]; exact h
  · have hv : v.Ready := State.Ready.of_same_lines u v h.ready hloc hel hev
    have hline : ∀ p o, v.lineOf p o = u.lineOf p o := by
      intro p o
      unfold State.lineOf
      rw [hloc]
    have hsame := Location.renderMap_sameButLocations v
    rw [e]
    refine ⟨Location.renderMap_ready v hv, ?_, ?_, ?_, ?_⟩
    · rw [hsame.eventLocations, hel, h.eventLocations]
    · rw [hsame.events, hev, h.events]
    · intro p o
      rw [Location.renderMap_isSome v hv, hline, h.lines]
    · intro p o
      rw [Location.renderMap_countOf v hv, hsame.events, hel, h.eventLocations]
      by_cases hp : p ∈ base.eventLocations
      · simp only [hp, if_true]
        apply map_const_of_isSome
        rw [hline, h.lines]
      · simp only [hp, if_false]
        have hc : v.countOf p o = u.countOf p o := by
          unfold State.countOf
          rw [hline]
        rw [hc, h.counts, if_neg hp]

theorem State.Rendered.of_renderMap (s : State) (h : s.Ready) :
    (Location.renderMap s).state.Rendered (Location.renderMap s).state := by
  have hsame := Location.renderMap_sameButLocations s
  refine ⟨Location.renderMap_ready s h, rfl, rfl, fun _ _ => rfl, ?_⟩
  intro p o
  by_cases hp : p ∈ (Location.renderMap s).state.eventLocations
  · simp only [hp, if_true]
    rw [hsame.eventLocations] at hp
    rw [Location.renderMap_countOf s h, if_pos hp, hsame.events]
    apply map_const_of_isSome
    rw [Location.renderMap_isSome s h]
  · simp only [hp, if_false]

theorem State.Rendered.runAll (host : Host) (actions : List MapAction) (base u : State)
    (h : base.Rendered u) : base.Rendered (MapAction.runAll host actions u) := by
  induction actions generalizing u with
  | nil => exact h
  | cons action rest ih =>
    exact ih _ (State.Rendered.step base u _ h (MapAction.run_redrawn host action u))

theorem events_eq_of_flags (l1 l2 : List Event)
    (h1 : l1.map Event.butFlags = l2.map Event.butFlags)
    (h2 : l1.map Event.flags = l2.map Event.flags) : l1 = l2 := by
  induction l1 generalizing l2 with
  | nil =>
    cases l2 with
    | nil => rfl
    | cons b l2 => simp at h1
  | cons a l1 ih =>
    cases l2 with
    | nil => simp at h1
    | cons b l2 =>
      simp only [List.map_cons, List.cons.injEq] at h1 h2
      have hab : a = b := by
        cases a
        cases b
        simp only [Event.butFlags, Event.mk.injEq] at h1
        simp only [Event.flags, Prod.mk.injEq] at h2
        simp only [Event.mk.injEq]
        tauto
      rw [hab, ih l2 h1.2 h2.2]

theorem State.Rendered.counts_of_flags (base u : State) (hb : base.Rendered base)
    (h : base.Rendered u) (hflags : u.events.map Event.flags = base.events.map Event.flags)
    (p o : String) : u.countOf p o = base.countOf p o := by
  have hev : u.events = base.events := events_eq_of_flags _ _ h.events hflags
  rw [h.counts, hev]
  exact (hb.counts p o).symm

/-- C23. In a state that is ready for `renderMap` (every event sits at a Location of
`Event.locations` that holds a `CountryLine` object for each of its origins), `renderMap`
throws nothing, and a second `renderMap` right after it gives every line the same
`delegateCount`.  The counts it leaves depend on the
events (their flags and Country aggregates) and on which lines exist, not on the counts held
before: from two such states with the same events, the same `Event.locations` and the
same lines, it gives the same counts.  After any sequence of filter, toggle, show-all and
hide-all actions that leaves every event with the flags it had, every count is the one it
was. -/
theorem renderMap_recompute (host : Host) (s : State) (h : s.Ready) :
    (Location.renderMap s).thrown = none ∧
    (Location.renderMap (Location.renderMap s).state).thrown = none ∧
    (∀ place origin,
      (Location.renderMap (Location.renderMap s).state).state.countOf place origin =
        (Location.renderMap s).state.countOf place origin) ∧
    (∀ t : State, t.Ready → t.events = s.events → t.eventLocations = s.eventLocations →
      (∀ p o, (t.lineOf p o).isSome = (s.lineOf p o).isSome) →
      ∀ place ∈ s.eventLocations, ∀ origin,
        (Location.renderMap t).state.countOf place origin =
          (Location.renderMap s).state.countOf place origin) ∧
    (∀ actions : List MapAction,
      (MapAction.runAll host actions (Location.renderMap s).state).events.map Event.flags =
        (Location.renderMap s).state.events.map Event.flags →
      ∀ place origin,
        (MapAction.runAll host actions (Location.renderMap s).state).countOf place origin =
          (Location.renderMap s).state.countOf place origin) := by
  have hready := h
  have hbase := State.Rendered.of_renderMap s hready
  refine ⟨(Location.renderMap_lines s hready).1,
    (Location.renderMap_lines _ (Location.renderMap_ready s hready)).1, ?_, ?_, ?_⟩
  · intro place origin
    have hstep := State.Rendered.step _ _ (Location.renderMap (Location.renderMap s).state).state
      hbase (Or.inr ⟨_, rfl, rfl, rfl, rfl⟩)
    exact State.Rendered.counts_of_flags _ _ hbase hstep
      (by rw [(Location.renderMap_sameButLocations _).events]) place origin
  · intro t ht hev hel hlines place hp origin
    rw [Location.renderMap_countOf t ht,
      Location.renderMap_countOf s hready, hel, hev, if_pos hp, if_pos hp]
    exact map_const_of_isSome _ _ _ (hlines place origin)
  · intro actions hflags place origin
    exact State.Rendered.counts_of_flags _ _ hbase
      (State.Rendered.runAll host actions _ _ hbase) hflags place origin

/-- Witness of C23: the loaded example with every event shown; the first event is toggled
off and on again. -/
theorem renderMap_recompute_witness :
    Example.shown.Ready ∧
    (MapAction.runAll Example.host [.toggle 0 none, .toggle 0 none]
        (Location.renderMap Example.shown).state).countOf "Paris" "Rome" =
      (Location.renderMap Example.shown).state.countOf "Paris" "Rome" :=
  ⟨State.Renderable.ready Example.shown (by decide!),
    (renderMap_recompute Example.host Example.shown
      (State.Renderable.ready Example.shown (by decide!))).2.2.2.2
      [.toggle 0 none, .toggle 0 none] (by decide!) "Paris" "Rome"⟩

/-! ## C27: the lines after the load -/

/-- C27, failing input. In the scenario of the specification (Paris, E1, U1, the row U1-E1)
`Event.initialise` throws in the `setup` of Paris, the only event-bearing location, before
its lines are built: the event E1 has the origin key `Paris`, and the entry of that key in
the `countryLines` of Paris is still the placeholder that `addDelegate` stored, with no
`delegateCount`; the next `Event.filter` throws in `renderMap`. -/
theorem single_site_lines_not_built :
    (Event.initialise (Load.sheets Example.host Example.parisDoc State.initial)).thrown =
      some "TypeError" ∧
    (Event.initialise (Load.sheets Example.host Example.parisDoc State.initial)).state.events.map
        (fun event => (event.location, event.countries.keys)) = [("Paris", ["Paris"])] ∧
    (Event.initialise (Load.sheets Example.host Example.parisDoc State.initial)).state.lineOf
        "Paris" "Paris" = some (CountryLine.placeholder "Paris") ∧
    (Event.initialise (Load.sheets Example.host Example.parisDoc State.initial)).state.countOf
        "Paris" "Paris" = none ∧
    (Event.filter Example.host Example.noFilter
      (Event.initialise (Load.sheets Example.host Example.parisDoc
        State.initial)).state).thrown = some "TypeError" := by
  refine ⟨by decide!, by decide!, by decide!, by decide!, by decide!⟩

/-! ## The invariant of the load -/

theorem State.Unjoined.toJoined (s : State) (h : s.Unjoined) : s.Joined := by
  refine ⟨?_, ?_, ?_⟩
  · intro event he
    rw [h.1] at he
    cases he
  · intro place location hl
    exact (h.2 place location hl).1
  · intro place location rank hl hr
    rw [(h.2 place location hl).2] at hr
    cases hr

theorem Location.new_unjoined (fi : FieldIndexes) (row : Row) (s : State) (h : s.Unjoined) :
    (Location.new fi row s).state.Unjoined := by
  unfold Location.new
  simp only
  split
  · refine ⟨h.1, ?_⟩
    intro place location hl
    simp only [Dict.get_set] at hl
    split at hl
    · simp only [Option.some.injEq] at hl
      rw [← hl]
      exact ⟨rfl, rfl⟩
    · exact h.2 place location hl
  · exact h

theorem Location.load_unjoined (sheet : Option (List Row)) :
    (Param.load Location.sheet sheet State.initial).state.Unjoined := by
  have h0 : State.initial.Unjoined := ⟨rfl, by intro place location hl; cases hl⟩
  unfold Param.load
  cases sheet with
  | none => exact h0
  | some rows =>
    cases rows with
    | nil => exact h0
    | cons header rows =>
      simp only
      split
      · exact forEachOutcome_invariant State.Unjoined _
          (fun row t ht => Location.new_unjoined _ row t ht) rows _ h0
      · exact h0

theorem Organiser.load_keeps_unjoined (sheet : Option (List Row)) (s : State) (h : s.Unjoined) :
    (Param.load Organiser.sheet sheet s).state.Unjoined := by
  unfold Param.load
  cases sheet with
  | none => exact h
  | some rows =>
    cases rows with
    | nil => exact h
    | cons header rows =>
      simp only
      split
      · exact forEachOutcome_invariant State.Unjoined _ (fun row t ht => ht) rows _ h
      · exact h

theorem Event.Step.joined (host : Host) (s : State) (o : Outcome) (h : s.Joined)
    (hstep : Event.Step host s o) : o.state.Joined := by
  obtain ⟨hev, hco, hmem⟩ := h
  cases hstep with
  | skip thrown => exact ⟨hev, hco, hmem⟩
  | unknown msg => exact ⟨hev, hco, hmem⟩
  | ranked fields start location rank hl hr =>
    refine ⟨?_, hco, hmem⟩
    intro event he
    rcases List.mem_append.mp he with he | he
    · exact hev event he
    · rw [List.mem_singleton] at he
      subst he
      refine ⟨hmem _ location rank hl hr, List.nodup_nil, ?_, location, rank, hl, hr⟩
      intro origin ho
      cases ho
  | unranked fields start location hl hr =>
    have hsub : ∀ q, q ∈ s.eventLocations →
        q ∈ (if s.eventLocations.contains (jsString (fields.get "Location"))
          then s.eventLocations
          else s.eventLocations ++ [jsString (fields.get "Location")]) := by
      intro q hq
      split
      · exact hq
      · exact List.mem_append_left _ hq
    have hplace : jsString (fields.get "Location") ∈
        (if s.eventLocations.contains (jsString (fields.get "Location"))
          then s.eventLocations
          else s.eventLocations ++ [jsString (fields.get "Location")]) := by
      split
      · rename_i hc
        simpa using hc
      · simp
    refine ⟨?_, ?_, ?_⟩
    · intro event he
      rcases List.mem_append.mp he with he | he
      · obtain ⟨h1, h2, h3, loc, rank, h4, h5⟩ := hev event he
        have hne : event.location ≠ jsString (fields.get "Location") := by
          intro e
          rw [e, hl] at h4
          rw [← Option.some.inj h4] at h5
          rcases hr with hr | hr <;> rw [hr] at h5 <;> cases h5
        refine ⟨hsub _ h1, h2, ?_, loc, rank, ?_, h5⟩
        · intro origin ho
          have h3' := h3 origin ho
          unfold State.lineOf at h3' ⊢
          show (((s.locations.set _ _).get event.location).bind _).isSome = true
          rw [Dict.get_set_ne _ _ _ _ hne]
          exact h3'
        · show (s.locations.set _ _).get event.location = some loc
          rw [Dict.get_set_ne _ _ _ _ hne]
          exact h4
      · rw [List.mem_singleton] at he
        subst he
        refine ⟨hplace, List.nodup_nil, ?_, _, s.locationsCount, Dict.get_set_self _ _ _, rfl⟩
        intro origin ho
        cases ho
    · intro place loc hget
      have hget' : (s.locations.set (jsString (fields.get "Location"))
          { location with countryLines := [], hasEvent := some (s.locationsCount + 1) }).get
          place = some loc := hget
      rw [Dict.get_set] at hget'
      split at hget'
      · simp only [Option.some.injEq] at hget'
        rw [← hget']
        exact hco _ location hl
      · exact hco place loc hget'
    · intro place loc rank hget hrank
      have hget' : (s.locations.set (jsString (fields.get "Location"))
          { location with countryLines := [], hasEvent := some (s.locationsCount + 1) }).get
          place = some loc := hget
      rw [Dict.get_set] at hget'
      split at hget'
      · rename_i hp
        rw [hp]
        exact hplace
      · exact hsub _ (hmem place loc rank hget' hrank)

theorem Event.load_keeps_joined (host : Host) (sheet : Option (List Row)) (s : State)
    (h : s.Joined) : (Param.load (Event.sheet host) sheet s).state.Joined := by
  unfold Param.load
  cases sheet with
  | none => exact h
  | some rows =>
    cases rows with
    | nil => exact h
    | cons header rows =>
      simp only
      split
      · exact forEachOutcome_invariant State.Joined _
          (fun row t ht => Event.Step.joined host t _ ht (Event.new_step host _ row t)) rows _ h
      · exact h

theorem Person.load_stays_joined (sheet : Option (List Row)) (s : State) (h : s.Joined) :
    (Param.load Person.sheet sheet s).state.Joined := by
  unfold Param.load
  cases sheet with
  | none => exact h
  | some rows =>
    cases rows with
    | nil => exact h
    | cons header rows =>
      simp only
      split
      · exact forEachOutcome_invariant State.Joined _ (fun row t ht => ht) rows _ h
      · exact h

theorem Dict.keys_set_nodup {β : Type} (d : Dict β) (k : String) (v : β) (h : d.keys.Nodup) :
    (d.set k v).keys.Nodup := by
  by_cases hk : k ∈ d.keys
  · rw [Dict.keys_set_of_mem d k v hk]
    exact h
  · rw [Dict.keys_set_of_not_mem d k v hk]
    exact List.Nodup.append h (List.nodup_singleton k)
      (by
        intro a ha hb
        rw [List.mem_singleton] at hb
        exact hk (hb ▸ ha))

theorem Dict.mem_keys_set {β : Type} (d : Dict β) (k : String) (v : β) (a : String)
    (h : a ∈ (d.set k v).keys) : a = k ∨ a ∈ d.keys := by
  by_cases hk : k ∈ d.keys
  · rw [Dict.keys_set_of_mem d k v hk] at h
    exact Or.inr h
  · rw [Dict.keys_set_of_not_mem d k v hk] at h
    rcases List.mem_append.mp h with h | h
    · exact Or.inr h
    · exact Or.inl (List.mem_singleton.mp h)

theorem Event.addDelegate_joined (index : Nat) (origin acronym : Option String) (uid : String)
    (s : State) (h : s.Joined) : (Event.addDelegate index origin acronym uid s).state.Joined := by
  obtain ⟨hev, hco, hmem⟩ := h
  unfold Event.addDelegate
  cases hthis : s.events.get? index with
  | none => exact ⟨hev, hco, hmem⟩
  | some this =>
    simp only
    split
    · split
      · exact ⟨hev, hco, hmem⟩
      have hin : this ∈ s.events := List.get?_mem hthis
      obtain ⟨t1, t2, t3, location, rank, hl, hr⟩ := hev this hin
      simp only [hl]
      have hget : ∀ q, (s.locations.set this.location
          { location with
            countryLines := location.countryLines.set (jsString origin)
              (CountryLine.placeholder (jsString origin)) }).get q =
          if q = this.location then
            some { location with
              countryLines := location.countryLines.set (jsString origin)
                (CountryLine.placeholder (jsString origin)) }
          else s.locations.get q := fun q => Dict.get_set _ _ _ _
      have hline : ∀ p o, (s.lineOf p o).isSome = true →
          (State.lineOf
            { s with
              events := s.events.set index
                { this with
                  countries := this.countries.set (jsString origin)
                    (match this.countries.get (jsString origin) with
                      | none => { name := jsString origin, eventID := acronym, delegates := [uid] }
                      | some c => { c with delegates := c.delegates ++ [uid] }) },
              locations := s.locations.set this.location
                { location with
                  countryLines := location.countryLines.set (jsString origin)
                    (CountryLine.placeholder (jsString origin)) } } p o).isSome = true := by
        intro p o hp
        unfold State.lineOf at hp ⊢
        simp only [hget]
        by_cases hq : p = this.location
        · subst hq
          rw [hl] at hp
          simp only [if_true]
          show ((location.countryLines.set _ _).get o).isSome = true
          rw [Dict.get_set]
          split
          · rfl
          · exact hp
        · simp only [hq, if_false]
          exact hp
      have hkey : (State.lineOf
            { s with
              events := s.events.set index
                { this with
                  countries := this.countries.set (jsString origin)
                    (match this.countries.get (jsString origin) with
                      | none => { name := jsString origin, eventID := acronym, delegates := [uid] }
                      | some c => { c with delegates := c.delegates ++ [uid] }) },
              locations := s.locations.set this.location
                { location with
                  countryLines := location.countryLines.set (jsString origin)
                    (CountryLine.placeholder (jsString origin)) } }
            this.location (jsString origin)).isSome = true := by
        unfold State.lineOf
        simp only [hget, if_true]
        show ((location.countryLines.set _ _).get (jsString origin)).isSome = true
        rw [Dict.get_set_self]
        rfl
      refine ⟨?_, ?_, ?_⟩
      · intro event he
        rcases List.mem_or_eq_of_mem_set he with he | he
        · obtain ⟨e1, e2, e3, loc, r, e4, e5⟩ := hev event he
          refine ⟨e1, e2, fun o ho => hline _ _ (e3 o ho), ?_⟩
          show ∃ location' rank', (s.locations.set _ _).get event.location = some location' ∧ _
          rw [hget]
          by_cases hq : event.location = this.location
          · simp only [hq, if_true]
            exact ⟨_, rank, rfl, hr⟩
          · simp only [hq, if_false]
            exact ⟨loc, r, e4, e5⟩
        · subst he
          refine ⟨t1, Dict.keys_set_nodup _ _ _ t2, ?_, ?_⟩
          · intro o ho
            rcases Dict.mem_keys_set _ _ _ _ ho with ho | ho
            · rw [ho]
              exact hkey
            · exact hline _ _ (t3 o ho)
          · show ∃ location' rank', (s.locations.set _ _).get this.location = some location' ∧ _
            rw [hget]
            simp only [if_true]
            exact ⟨_, rank, rfl, hr⟩
      · intro place loc hp
        have hp' : (s.locations.set this.location
          { location with
            countryLines := location.countryLines.set (jsString origin)
              (CountryLine.placeholder (jsString origin)) }).get place = some loc := hp
        rw [hget] at hp'
        split at hp'
        · simp only [Option.some.injEq] at hp'
          rw [← hp']
          exact hco _ location hl
        · exact hco place loc hp'
      · intro place loc r hp hrank
        have hp' : (s.locations.set this.location
          { location with
            countryLines := location.countryLines.set (jsString origin)
              (CountryLine.placeholder (jsString origin)) }).get place = some loc := hp
        rw [hget] at hp'
        split at hp'
        · rename_i hq
          rw [hq]
          exact t1
        · exact hmem place loc r hp' hrank
    · exact ⟨hev, hco, hmem⟩

theorem PeopleAtEvents.new_joined (fi : FieldIndexes) (row : Row) (s : State) (h : s.Joined) :
    (PeopleAtEvents.new fi row s).state.Joined := by
  unfold PeopleAtEvents.new
  simp only
  split
  · exact h
  · split
    · exact Event.addDelegate_joined _ _ _ _ _ h
    · split <;> exact h
    · exact h

theorem PeopleAtEvents.load_ends_joined (sheet : Option (List Row)) (s : State) (h : s.Joined) :
    (Param.load PeopleAtEvents.sheet sheet s).state.Joined := by
  unfold Param.load
  cases sheet with
  | none => exact h
  | some rows =>
    cases rows with
    | nil => exact h
    | cons header rows =>
      simp only
      split
      · exact forEachOutcome_invariant State.Joined _
          (fun row t ht => PeopleAtEvents.new_joined _ row t ht) rows _ h
      · exact h

theorem Load.sheets_joined (host : Host) (doc : Sheets) :
    (Load.sheets host doc State.initial).Joined := by
  unfold Load.sheets Load.entities
  exact PeopleAtEvents.load_ends_joined _ _
    (Person.load_stays_joined _ _
      (Event.load_keeps_joined host _ _
        (State.Unjoined.toJoined _
          (Organiser.load_keeps_unjoined _ _ (Location.load_unjoined _)))))

theorem CountryLine.new_locations (origin place : String) (s : State) :
    (CountryLine.new origin place s).eventLocations = s.eventLocations ∧
    ∀ q, (CountryLine.new origin place s).locations.get q =
      if q = place then
        (s.locations.get place).map (fun location =>
          { location with
            countryLines := location.countryLines.set origin
              (CountryLine.built s origin place) })
      else s.locations.get q := by
  unfold CountryLine.new CountryLine.built
  simp only
  generalize (match s.locations.get origin with
    | none => false
    | some countryLocation => countryLocation.latLng.isSome) = hasLine
  cases hasLine <;> simp only [Bool.false_eq_true, if_false, if_true] <;>
  · cases hl : s.locations.get place with
    | none =>
      refine ⟨rfl, fun q => ?_⟩
      simp only [Option.map_none']
      split
      · rename_i hq
        rw [hq, hl]
      · rfl
    | some location =>
      refine ⟨rfl, fun q => ?_⟩
      simp only [Dict.get_set, Option.map_some']

theorem CountryLine.new_lineOf (origin place : String) (s : State) :
    (∀ p o line, (CountryLine.new origin place s).lineOf p o = some line →
      line.isCountryLine = true ∨ (s.lineOf p o = some line ∧ ¬ (p = place ∧ o = origin))) ∧
    ((s.lineOf place origin).isSome = true →
      ∀ p o, ((CountryLine.new origin place s).lineOf p o).isSome = (s.lineOf p o).isSome) := by
  have hloc := (CountryLine.new_locations origin place s).2
  constructor
  · intro p o line hline
    unfold State.lineOf at hline ⊢
    rw [hloc] at hline
    by_cases hp : p = place
    · subst hp
      simp only [if_true] at hline
      cases hl : s.locations.get p with
      | none => rw [hl] at hline; cases hline
      | some location =>
        rw [hl] at hline
        change (location.countryLines.set origin (CountryLine.built s origin p)).get o =
          some line at hline
        rw [Dict.get_set] at hline
        split at hline
        · left
          rw [← Option.some.inj hline]
          rfl
        · right
          rename_i ho
          exact ⟨hline, fun hc => ho hc.2⟩
    · simp only [hp, if_false] at hline
      exact Or.inr ⟨hline, fun hc => hp hc.1⟩
  · intro hsome p o
    unfold State.lineOf at hsome ⊢
    rw [hloc]
    by_cases hp : p = place
    · subst hp
      simp only [if_true]
      cases hl : s.locations.get p with
      | none => rfl
      | some location =>
        rw [hl] at hsome
        change ((location.countryLines.set origin (CountryLine.built s origin p)).get o).isSome =
          (location.countryLines.get o).isSome
        rw [Dict.get_set]
        split
        · rename_i ho
          rw [ho]
          exact hsome.symm
        · rfl
    · simp only [hp, if_false]

theorem CountryLine.new_coords (origin place : String) (s : State)
    (h : ∀ q location, s.locations.get q = some location → location.latLng.isSome = true) :
    ∀ q location, (CountryLine.new origin place s).locations.get q = some location →
      location.latLng.isSome = true := by
  intro q location hq
  rw [(CountryLine.new_locations origin place s).2] at hq
  split at hq
  · cases hl : s.locations.get place with
    | none => rw [hl] at hq; cases hq
    | some l =>
      rw [hl] at hq
      simp only [Option.map_some', Option.some.injEq] at hq
      rw [← hq]
      exact h place l hl
  · exact h q location hq

theorem foldl_CountryLine_new_lineOf (origins : List String) (place : String) (s : State) :
    ((origins.foldl (fun acc origin => CountryLine.new origin place acc) s).eventLocations =
      s.eventLocations) ∧
    (∀ p o line,
      (origins.foldl (fun acc origin => CountryLine.new origin place acc) s).lineOf p o =
        some line →
      line.isCountryLine = true ∨ (s.lineOf p o = some line ∧ ¬ (p = place ∧ o ∈ origins))) ∧
    ((∀ o ∈ origins, (s.lineOf place o).isSome = true) →
      ∀ p o,
        ((origins.foldl (fun acc origin => CountryLine.new origin place acc) s).lineOf p o).isSome =
          (s.lineOf p o).isSome) ∧
    ((∀ q location, s.locations.get q = some location → location.latLng.isSome = true) →
      ∀ q location,
        (origins.foldl (fun acc origin => CountryLine.new origin place acc) s).locations.get q =
          some location → location.latLng.isSome = true) := by
  induction origins generalizing s with
  | nil =>
    refine ⟨rfl, ?_, fun _ _ _ => rfl, fun h => h⟩
    intro p o line hline
    exact Or.inr ⟨hline, fun hc => by cases hc.2⟩
  | cons k rest ih =>
    rw [List.foldl_cons]
    obtain ⟨i1, i2, i3, i4⟩ := ih (CountryLine.new k place s)
    obtain ⟨n1, n2⟩ := CountryLine.new_lineOf k place s
    refine ⟨?_, ?_, ?_, ?_⟩
    · rw [i1, (CountryLine.new_locations k place s).1]
    · intro p o line hline
      rcases i2 p o line hline with h | ⟨h, hnot⟩
      · exact Or.inl h
      · rcases n1 p o line h with h' | ⟨h', hnot'⟩
        · exact Or.inl h'
        · refine Or.inr ⟨h', ?_⟩
          rintro ⟨hp, ho⟩
          rcases List.mem_cons.mp ho with ho | ho
          · exact hnot' ⟨hp, ho⟩
          · exact hnot ⟨hp, ho⟩
    · intro hall p o
      have hk := n2 (hall k (List.mem_cons_self _ _))
      rw [i3 (fun o' ho' => by rw [hk]; exact hall o' (List.mem_cons_of_mem _ ho')), hk]
    · intro hco
      exact i4 (CountryLine.new_coords k place s hco)

theorem Location.setup_lines (place : String) (s : State)
    (hco : ∀ q location, s.locations.get q = some location → location.latLng.isSome = true)
    (hok : (Location.setup place s).thrown = none) :
    (Location.setup place s).state.eventLocations = s.eventLocations ∧
    (∀ p o, ((Location.setup place s).state.lineOf p o).isSome = (s.lineOf p o).isSome) ∧
    (Location.setup place s).state.Drawn place ∧
    (∀ q, s.Drawn q → (Location.setup place s).state.Drawn q) ∧
    (∀ q location, (Location.setup place s).state.locations.get q = some location →
      location.latLng.isSome = true) := by
  unfold Location.setup at hok ⊢
  cases hl : s.locations.get place with
  | none => rw [hl] at hok; cases hok
  | some this =>
    rw [hl] at hok
    simp only at hok ⊢
    cases hc : Location.setupColor this s.locationsCount with
    | none => rw [hc] at hok; cases hok
    | some color =>
      simp only
      have hlat : this.latLng.isSome = true := hco place this hl
      simp only [hlat, if_true]
      have hget1 : ∀ q, (s.locations.set place { this with color := color }).get q =
          if q = place then some { this with color := color } else s.locations.get q :=
        fun q => Dict.get_set _ _ _ _
      have hline1 : ∀ p o,
          State.lineOf { s with locations := s.locations.set place { this with color := color } }
            p o = s.lineOf p o := by
        intro p o
        unfold State.lineOf
        simp only [hget1]
        split
        · rename_i hp
          rw [hp, hl]
          rfl
        · rfl
      have hco1 : ∀ q location,
          (s.locations.set place { this with color := color }).get q = some location →
            location.latLng.isSome = true := by
        intro q location hq
        rw [hget1] at hq
        split at hq
        · rw [← Option.some.inj hq]
          exact hlat
        · exact hco q location hq
      obtain ⟨f1, f2, f3, f4⟩ := foldl_CountryLine_new_lineOf this.countryLines.keys place
        { s with locations := s.locations.set place { this with color := color } }
      have hkeys : ∀ o ∈ this.countryLines.keys,
          (State.lineOf
            { s with locations := s.locations.set place { this with color := color } }
            place o).isSome = true := by
        intro o ho
        rw [hline1]
        unfold State.lineOf
        rw [hl]
        exact (Dict.get_isSome_iff _ _).mpr ho
      refine ⟨f1, ?_, ?_, ?_, f4 hco1⟩
      · intro p o
        rw [f3 hkeys, hline1]
      · intro o line hline
        rcases f2 place o line hline with h | ⟨h, hnot⟩
        · exact h
        · exfalso
          apply hnot
          refine ⟨rfl, ?_⟩
          rw [hline1] at h
          unfold State.lineOf at h
          rw [hl] at h
          apply (Dict.get_isSome_iff _ _).mp
          change (this.countryLines.get o) = some line at h
          rw [h]
          rfl
      · intro q hq o line hline
        rcases f2 q o line hline with h | ⟨h, _⟩
        · exact h
        · rw [hline1] at h
          exact hq o line h

theorem forEachOutcome_setup_lines (places : List String) (s : State)
    (hco : ∀ q location, s.locations.get q = some location → location.latLng.isSome = true)
    (hok : (forEachOutcome Location.setup places s).thrown = none) :
    (forEachOutcome Location.setup places s).state.eventLocations = s.eventLocations ∧
    (∀ p o, ((forEachOutcome Location.setup places s).state.lineOf p o).isSome =
      (s.lineOf p o).isSome) ∧
    (∀ q ∈ places, (forEachOutcome Location.setup places s).state.Drawn q) ∧
    (∀ q, s.Drawn q → (forEachOutcome Location.setup places s).state.Drawn q) := by
  induction places generalizing s with
  | nil =>
    refine ⟨rfl, fun _ _ => rfl, ?_, fun _ h => h⟩
    intro q hq
    cases hq
  | cons place rest ih =>
    have h1 : (Location.setup place s).thrown = none := by
      cases ht : (Location.setup place s).thrown with
      | none => rfl
      | some e =>
        rw [forEachOutcome, Outcome.andThen] at hok
        simp [ht] at hok
    rw [forEachOutcome_cons_of_ok Location.setup place rest s h1] at hok ⊢
    obtain ⟨u1, u2, u3, u4, u5⟩ := Location.setup_lines place s hco h1
    obtain ⟨i1, i2, i3, i4⟩ := ih (Location.setup place s).state u5 hok
    refine ⟨by rw [i1, u1], fun p o => by rw [i2, u2], ?_, fun q hq => i4 q (u4 q hq)⟩
    intro q hq
    rcases List.mem_cons.mp hq with hq | hq
    · rw [hq]
      exact i4 place u3
    · exact i3 q hq

theorem Event.initialise_ready (s : State) (h : s.Joined)
    (hok : (Event.initialise s).thrown = none) : (Event.initialise s).state.Ready := by
  obtain ⟨hev, hco, _⟩ := h
  have hevents := Event.initialise_events s
  unfold Event.initialise at hok hevents ⊢
  simp only at hok hevents ⊢
  obtain ⟨l1, l2, l3, _⟩ := forEachOutcome_setup_lines s.eventLocations
    { s with events := Event.setCellIndexFrom 0 (Event.sortEvents s.events) } hco hok
  have hsource : ∀ event ∈ Event.setCellIndexFrom 0 (Event.sortEvents s.events),
      ∃ e ∈ s.events, e.location = event.location ∧ e.countries = event.countries := by
    intro event he
    have hm : event.clearCellIndex ∈
        (Event.setCellIndexFrom 0 (Event.sortEvents s.events)).map Event.clearCellIndex :=
      List.mem_map_of_mem _ he
    rw [Event.setCellIndexFrom_clear] at hm
    obtain ⟨e, hes, hee⟩ := List.mem_map.mp hm
    have hperm : e ∈ s.events := (List.perm_insertionSort _ _).mem_iff.mp hes
    refine ⟨e, hperm, ?_, ?_⟩
    · have h0 : e.clearCellIndex.location = event.clearCellIndex.location :=
        congrArg Event.location hee
      exact h0
    · have h0 : e.clearCellIndex.countries = event.clearCellIndex.countries :=
        congrArg Event.countries hee
      exact h0
  constructor
  · intro event he
    rw [hevents] at he
    obtain ⟨e, hes, hloc, hcount⟩ := hsource event he
    obtain ⟨e1, e2, e3, _⟩ := hev e hes
    rw [l1, ← hloc, ← hcount]
    refine ⟨e1, e2, fun o ho => ?_⟩
    rw [l2]
    exact e3 o ho
  · intro place hp
    rw [l1] at hp
    exact l3 place hp

theorem Load.ready_after_initialise (host : Host) (doc : Sheets)
    (hok : (Event.initialise (Load.sheets host doc State.initial)).thrown = none) :
    (Event.initialise (Load.sheets host doc State.initial)).state.Ready :=
  Event.initialise_ready _ (Load.sheets_joined host doc) hok

theorem MapAction.run_ready (host : Host) (action : MapAction) (s : State) (h : s.Ready) :
    (action.run host s).state.Ready := by
  rcases MapAction.run_redrawn host action s with e | ⟨v, hloc, hel, hev, e⟩
  · rw [e]; exact h
  · rw [e]
    exact Location.renderMap_ready v (State.Ready.of_same_lines s v h hloc hel hev)

end EventViewer
